import Mathlib

/-!
# nks-ctx: a shallow embedding of the cloud client, the signer and the context store

Go strings are embedded as Lean `String`s (valid UTF-8 text).  Searching and
slicing are done on the character list; every separator the program searches for
is ASCII, so cutting at a character position and cutting at the corresponding
byte offset give the same substrings.

A Go `error` result is an `Option String` (`none` is `nil`), and a pair
`(T, error)` of which only one side is meaningful is an `Except String T`.
A Go `map` is the list of its entries in the order a `range` statement visits
them; the order is arbitrary, so statements quantify over all such lists.  All the
`range` statements over one loaded store see the same order.

What lies outside the process is a parameter: the `clientcmd` library and the file
system it works on, the host services that run the authenticator, the answers of the
regional endpoints, the environment and the credentials file.
-/

set_option autoImplicit false

/-! ## The fragment of the Go standard library the program uses -/

namespace strings

/-- Position of the first occurrence of `sub` in the remaining text, counted from `i`;
`-1` when there is none. -/
def indexFrom (sub : List Char) : List Char → Nat → Int
  | [], i => if sub = [] then (i : Int) else -1
  | c :: cs, i => if sub.isPrefixOf (c :: cs) then (i : Int) else indexFrom sub cs (i + 1)

/-- Go `strings.Index(s, substr)`. -/
def Index (s substr : String) : Int := indexFrom substr.data s.data 0

/-- Go `strings.Contains(s, substr)`, which is `Index(s, substr) >= 0`. -/
def Contains (s substr : String) : Bool := decide (0 ≤ Index s substr)

/-- Go `strings.Join(elems, sep)`. -/
def Join : List String → String → String
  | [], _ => ""
  | [a], _ => a
  | a :: b :: rest, sep => a ++ sep ++ Join (b :: rest) sep

end strings

namespace fmt

/-- Expansion of a format string whose verbs are `%s`, `%v`, `%w` and `%d`, each applied
to an operand already rendered as text (a string, an error's message, a decimal number). -/
def sprintfAux : List Char → List String → List Char
  | '%' :: 's' :: rest, a :: as => a.data ++ sprintfAux rest as
  | '%' :: 'v' :: rest, a :: as => a.data ++ sprintfAux rest as
  | '%' :: 'w' :: rest, a :: as => a.data ++ sprintfAux rest as
  | '%' :: 'd' :: rest, a :: as => a.data ++ sprintfAux rest as
  | c :: rest, as => c :: sprintfAux rest as
  | [], _ => []

/-- Go `fmt.Sprintf` (and the message of `fmt.Errorf`) on the formats the program uses. -/
def Sprintf (format : String) (args : List String) : String :=
  ⟨sprintfAux format.data args⟩

end fmt

/-- Go slice expression `s[n:]`. -/
def sliceFrom (s : String) (n : Int) : String := ⟨s.data.drop n.toNat⟩

/-- Go slice expression `s[:n]`. -/
def sliceTo (s : String) (n : Int) : String := ⟨s.data.take n.toNat⟩

/-! ## Standard-library cryptography: crypto/sha256, crypto/hmac, encoding/base64

Bytes and 32-bit words are natural numbers; every word operation reduces modulo `2^32`.
-/

/-- Go conversion `[]byte(s)` on one character: its UTF-8 encoding. -/
def utf8EncodeChar (c : Char) : List Nat :=
  let v := c.val.toNat
  if v < 0x80 then [v]
  else if v < 0x800 then [0xC0 + v / 64, 0x80 + v % 64]
  else if v < 0x10000 then [0xE0 + v / 4096, 0x80 + v / 64 % 64, 0x80 + v % 64]
  else [0xF0 + v / 262144, 0x80 + v / 4096 % 64, 0x80 + v / 64 % 64, 0x80 + v % 64]

/-- Go conversion `[]byte(s)`. -/
def bytesOf (s : String) : List Nat := s.data.flatMap utf8EncodeChar

namespace sha256

/-- Round constants of SHA-256 (FIPS 180-4, section 4.2.2). -/
def K : List Nat :=
  [0x428a2f98, 0x71374491, 0xb5c0fbcf, 0xe9b5dba5, 0x3956c25b, 0x59f111f1, 0x923f82a4, 0xab1c5ed5,
   0xd807aa98, 0x12835b01, 0x243185be, 0x550c7dc3, 0x72be5d74, 0x80deb1fe, 0x9bdc06a7, 0xc19bf174,
   0xe49b69c1, 0xefbe4786, 0x0fc19dc6, 0x240ca1cc, 0x2de92c6f, 0x4a7484aa, 0x5cb0a9dc, 0x76f988da,
   0x983e5152, 0xa831c66d, 0xb00327c8, 0xbf597fc7, 0xc6e00bf3, 0xd5a79147, 0x06ca6351, 0x14292967,
   0x27b70a85, 0x2e1b2138, 0x4d2c6dfc, 0x53380d13, 0x650a7354, 0x766a0abb, 0x81c2c92e, 0x92722c85,
   0xa2bfe8a1, 0xa81a664b, 0xc24b8b70, 0xc76c51a3, 0xd192e819, 0xd6990624, 0xf40e3585, 0x106aa070,
   0x19a4c116, 0x1e376c08, 0x2748774c, 0x34b0bcb5, 0x391c0cb3, 0x4ed8aa4a, 0x5b9cca4f, 0x682e6ff3,
   0x748f82ee, 0x78a5636f, 0x84c87814, 0x8cc70208, 0x90befffa, 0xa4506ceb, 0xbef9a3f7, 0xc67178f2]

/-- The eight chaining words `h[0..7]`. -/
structure State where
  a : Nat
  b : Nat
  c : Nat
  d : Nat
  e : Nat
  f : Nat
  g : Nat
  h : Nat
deriving DecidableEq, Repr

/-- Initial hash value (FIPS 180-4, section 5.3.3). -/
def init : State :=
  ⟨0x6a09e667, 0xbb67ae85, 0x3c6ef372, 0xa54ff53a, 0x510e527f, 0x9b05688c, 0x1f83d9ab, 0x5be0cd19⟩

def add32 (x y : Nat) : Nat := (x + y) % 2 ^ 32

def rotr (x n : Nat) : Nat := ((x >>> n) ||| (x <<< (32 - n))) % 2 ^ 32

def not32 (x : Nat) : Nat := 2 ^ 32 - 1 - x % 2 ^ 32

def ch (x y z : Nat) : Nat := (x &&& y) ^^^ (not32 x &&& z)

def maj (x y z : Nat) : Nat := (x &&& y) ^^^ (x &&& z) ^^^ (y &&& z)

def bigSigma0 (x : Nat) : Nat := rotr x 2 ^^^ rotr x 13 ^^^ rotr x 22

def bigSigma1 (x : Nat) : Nat := rotr x 6 ^^^ rotr x 11 ^^^ rotr x 25

def smallSigma0 (x : Nat) : Nat := rotr x 7 ^^^ rotr x 18 ^^^ (x >>> 3)

def smallSigma1 (x : Nat) : Nat := rotr x 17 ^^^ rotr x 19 ^^^ (x >>> 10)

/-- Big-endian bytes of a 32-bit word. -/
def be32 (w : Nat) : List Nat :=
  [w / 2 ^ 24 % 256, w / 2 ^ 16 % 256, w / 2 ^ 8 % 256, w % 256]

/-- The sixteen big-endian words of a 64-byte block. -/
def blockWords : List Nat → List Nat
  | b0 :: b1 :: b2 :: b3 :: rest =>
      (b0 * 2 ^ 24 + b1 * 2 ^ 16 + b2 * 2 ^ 8 + b3) :: blockWords rest
  | _ => []

/-- The message schedule: sixteen block words extended to sixty-four. -/
def schedule (block : List Nat) : List Nat :=
  (List.range 48).foldl
    (fun w _ =>
      let t := w.length
      w ++ [add32 (add32 (add32 (smallSigma1 (w.getD (t - 2) 0)) (w.getD (t - 7) 0))
                    (smallSigma0 (w.getD (t - 15) 0))) (w.getD (t - 16) 0)])
    (blockWords block)

/-- One of the sixty-four rounds. -/
def round (s : State) (kw : Nat × Nat) : State :=
  let t1 := add32 (add32 (add32 (add32 s.h (bigSigma1 s.e)) (ch s.e s.f s.g)) kw.1) kw.2
  let t2 := add32 (bigSigma0 s.a) (maj s.a s.b s.c)
  ⟨add32 t1 t2, s.a, s.b, s.c, add32 s.d t1, s.e, s.f, s.g⟩

/-- The compression function on one 64-byte block. -/
def compress (s : State) (block : List Nat) : State :=
  let r := (K.zip (schedule block)).foldl round s
  ⟨add32 s.a r.a, add32 s.b r.b, add32 s.c r.c, add32 s.d r.d,
   add32 s.e r.e, add32 s.f r.f, add32 s.g r.g, add32 s.h r.h⟩

/-- Message padding: a `0x80` byte, zeros up to 56 modulo 64, the bit length on 8 bytes. -/
def pad (msg : List Nat) : List Nat :=
  let bits := 8 * msg.length
  msg ++ [0x80] ++ List.replicate ((64 - (msg.length + 9) % 64) % 64) 0
    ++ (List.range 8).map (fun i => bits / 2 ^ (8 * (7 - i)) % 256)

/-- Absorb `n` consecutive blocks. -/
def absorb : Nat → List Nat → State → State
  | 0, _, s => s
  | n + 1, data, s => absorb n (data.drop 64) (compress s (data.take 64))

/-- The 32-byte digest of a chaining state. -/
def State.bytes (s : State) : List Nat :=
  be32 s.a ++ be32 s.b ++ be32 s.c ++ be32 s.d ++ be32 s.e ++ be32 s.f ++ be32 s.g ++ be32 s.h

/-- Go `sha256.Sum256`, as a byte list. -/
def Sum256 (msg : List Nat) : List Nat :=
  let padded := pad msg
  (absorb (padded.length / 64) padded init).bytes

/-- Go `sha256.BlockSize`. -/
def BlockSize : Nat := 64

end sha256

namespace hmac

/-- The key as `hmac.New` prepares it: hashed when longer than a block, then
zero-filled to the block size. -/
def blockKey (key : List Nat) : List Nat :=
  let k := if key.length > sha256.BlockSize then sha256.Sum256 key else key
  k ++ List.replicate (sha256.BlockSize - k.length) 0

/-- HMAC-SHA256 (RFC 2104): `hmac.New(sha256.New, key)`, `Write(msg)`, `Sum(nil)`. -/
def Sum (key msg : List Nat) : List Nat :=
  let k := blockKey key
  let ipad := k.map (fun b => b ^^^ 0x36)
  let opad := k.map (fun b => b ^^^ 0x5c)
  sha256.Sum256 (opad ++ sha256.Sum256 (ipad ++ msg))

end hmac

namespace base64

/-- The standard alphabet (RFC 4648, table 1). -/
def encodeStd : List Char :=
  "ABCDEFGHIJKLMNOPQRSTUVWXYZabcdefghijklmnopqrstuvwxyz0123456789+/".data

/-- The alphabet character of a 6-bit value. -/
def sextet (n : Nat) : Char := encodeStd.getD (n % 64) 'A'

/-- Encoding of a byte list, three bytes to four characters, `=` padded. -/
def encode : List Nat → List Char
  | [] => []
  | [a] => [sextet (a / 4), sextet (a % 4 * 16), '=', '=']
  | [a, b] => [sextet (a / 4), sextet (a % 4 * 16 + b / 16), sextet (b % 16 * 4), '=']
  | a :: b :: c :: rest =>
      sextet (a / 4) :: sextet (a % 4 * 16 + b / 16) :: sextet (b % 16 * 4 + c / 64)
        :: sextet (c % 64) :: encode rest

/-- Go `base64.StdEncoding.EncodeToString`. -/
def EncodeToString (src : List Nat) : String := ⟨encode src⟩

end base64

/-! ## pkg/ncp/client.go -/

namespace ncp

/-- An NKS cluster. -/
structure Cluster where
  UUID : String
  Name : String
  Region : String
  Status : String
deriving DecidableEq, Repr

/-- `resolveNKSBaseURLs` derives all regional NKS API base URLs from the ncloud API URL. -/
def resolveNKSBaseURLs (apiURL : String) : List String :=
  if strings.Contains apiURL "fin-ntruss.com" then
    ["https://nks.apigw.fin-ntruss.com/nks/v2"]
  else if strings.Contains apiURL "gov-ntruss.com" then
    ["https://nks.apigw.gov-ntruss.com/vnks/v2",
     "https://nks.apigw.gov-ntruss.com/vnks/krs-v2"]
  else
    ["https://nks.apigw.ntruss.com/vnks/v2",
     "https://nks.apigw.ntruss.com/vnks/sgn-v2",
     "https://nks.apigw.ntruss.com/vnks/jpn-v2"]

/-- One regional base URL of the receiver's `nksBaseURLs`, together with what
`listClustersFromEndpoint` returned for it: a cluster list, or the failure reason. -/
structure Endpoint where
  baseURL : String
  outcome : Except String (List Cluster)

/-- The endpoint's call returned a cluster list. -/
def Endpoint.succeeded (e : Endpoint) : Bool :=
  match e.outcome with
  | .ok _ => true
  | .error _ => false

/-- The three local variables of `ListClusters`. -/
structure ListAcc where
  allClusters : List Cluster
  errors : List String
  successCount : Nat

/-- One iteration of the loop over `c.nksBaseURLs`. -/
def listStep (acc : ListAcc) (e : Endpoint) : ListAcc :=
  match e.outcome with
  | .error err =>
      { acc with errors := acc.errors ++ [fmt.Sprintf "%s: %v" [e.baseURL, err]] }
  | .ok clusters =>
      { acc with successCount := acc.successCount + 1,
                 allClusters := acc.allClusters ++ clusters }

/-- What a call of `ListClusters` produces: the two return values and the lines
written to the standard error stream, in the order written. -/
structure ListResult where
  clusters : List Cluster
  err : Option String
  stderr : List String

/-- `Client.ListClusters` retrieves clusters from all regional NKS API endpoints. -/
def ListClusters (endpoints : List Endpoint) : ListResult :=
  let acc := endpoints.foldl listStep ⟨[], [], 0⟩
  if acc.successCount = 0 ∧ acc.errors.length > 0 then
    { clusters := [],
      err := some (fmt.Sprintf "all API endpoints failed:\n  %s" [strings.Join acc.errors "\n  "]),
      stderr := [] }
  else
    { clusters := acc.allClusters,
      err := none,
      stderr := acc.errors.map (fun e => fmt.Sprintf "  Warning: %s\n" [e]) }

/-- The cluster list of a successful endpoint. -/
def Endpoint.clustersOf (e : Endpoint) : Option (List Cluster) :=
  match e.outcome with
  | .ok cs => some cs
  | .error _ => none

/-- The warning line owed to a failed endpoint. -/
def Endpoint.warningOf (e : Endpoint) : Option String :=
  match e.outcome with
  | .ok _ => none
  | .error r => some ("  Warning: " ++ e.baseURL ++ ": " ++ r ++ "\n")

/-- The entry a failed endpoint appends to `errors`. -/
def Endpoint.failureOf (e : Endpoint) : Option String :=
  match e.outcome with
  | .ok _ => none
  | .error r => some (e.baseURL ++ ": " ++ r)

/-- A gateway URL of the government cloud whose query mentions the financial domain. -/
def bothMarkersURL : String := "https://ncloud.apigw.gov-ntruss.com/?next=fin-ntruss.com"

/-! ## pkg/ncp/auth.go -/

/-- `GenerateHMACSignature` generates HMAC signature for NCP API authentication. -/
def GenerateHMACSignature
    (method uri queryString timestamp accessKey secretKey : String) : String :=
  let url := if queryString ≠ "" then uri ++ "?" ++ queryString else uri
  let message := fmt.Sprintf "%s %s\n%s\n%s" [method, url, timestamp, accessKey]
  base64.EncodeToString (hmac.Sum (bytesOf secretKey) (bytesOf message))

/-- `ExtractURI` extracts URI path from full URL. -/
def ExtractURI (url : String) : String :=
  let url :=
    if strings.Index url "://" ≠ -1 then sliceFrom url (strings.Index url "://" + 3) else url
  let url :=
    if strings.Index url "/" ≠ -1 then sliceFrom url (strings.Index url "/") else "/"
  let url :=
    if strings.Index url "?" ≠ -1 then sliceTo url (strings.Index url "?") else url
  url

/-- `ExtractQueryString` extracts query string from URL. -/
def ExtractQueryString (url : String) : String :=
  if strings.Index url "?" ≠ -1 then sliceFrom url (strings.Index url "?" + 1) else ""

/-- The canonical message in the words of the specification: the fields
`{method} {url}`, `{timestamp}`, `{accessKey}` joined by newlines, where `url` is
`uri` if `query` is empty, else `uri + "?" + query`. -/
def specCanonicalMessage (method uri query timestamp accessKey : String) : String :=
  strings.Join
    [method ++ " " ++ (if query = "" then uri else uri ++ "?" ++ query), timestamp, accessKey]
    "\n"

end ncp

/-! ## pkg/kubeconfig/manager.go -/

namespace kubeconfig

/-- The fields of `api.Context` the program reads. -/
structure Context where
  Cluster : String
  AuthInfo : String
deriving DecidableEq, Repr

/-- The fields of `api.Config` the program reads or writes: the `Contexts` map and
`CurrentContext`. -/
structure Config where
  Contexts : List (String × Context)
  CurrentContext : String
deriving DecidableEq, Repr

/-- `api.NewConfig()`: no contexts, no current context. -/
def NewConfig : Config := ⟨[], ""⟩

/-- Why `clientcmd.LoadFromFile` failed: the file is absent (`os.IsNotExist`), or
anything else. -/
inductive LoadError where
  | notExist
  | other (msg : String)
deriving DecidableEq, Repr

/-- The two `clientcmd` operations on a file system of type `FS`.  `WriteToFile`
returns the file system it leaves behind and its `error`. -/
structure Clientcmd (FS : Type) where
  LoadFromFile : String → FS → Except LoadError Config
  WriteToFile : Config → String → FS → FS × Option String

/-- The library contract the durability of a switch rests on: a document written
without error is read back, from the same path, with the same current context. -/
def Clientcmd.Durable {FS : Type} (lib : Clientcmd FS) : Prop :=
  ∀ (cfg : Config) (path : String) (fs fs' : FS),
    lib.WriteToFile cfg path fs = (fs', none) →
      ∃ cfg', lib.LoadFromFile path fs' = .ok cfg' ∧ cfg'.CurrentContext = cfg.CurrentContext

/-- A file system kept in memory: the documents written so far, latest first. -/
abbrev MemFS := List (String × Config)

/-- The library over `MemFS`: every write succeeds and replaces the document. -/
def memLib : Clientcmd MemFS where
  LoadFromFile := fun path fs =>
    match fs.lookup path with
    | some cfg => .ok cfg
    | none => .error .notExist
  WriteToFile := fun cfg path fs => ((path, cfg) :: fs, none)

/-- `Manager` handles loading, querying, and modifying kubeconfig. -/
structure Manager where
  path : String
  config : Config
deriving DecidableEq, Repr

/-- `NewManager` loads the kubeconfig from `path`, the value of `DefaultPath()`. -/
def NewManager {FS : Type} (lib : Clientcmd FS) (path : String) (fs : FS) :
    Except String Manager :=
  match lib.LoadFromFile path fs with
  | .ok config => .ok ⟨path, config⟩
  | .error .notExist => .ok ⟨path, NewConfig⟩
  | .error (.other msg) => .error (fmt.Sprintf "failed to load kubeconfig: %w" [msg])

/-- `GetCurrentContext` returns the name of the currently active context. -/
def GetCurrentContext (m : Manager) : String := m.config.CurrentContext

/-- `ListContextNames` returns all context names in kubeconfig: the keys of `Contexts`. -/
def ListContextNames (m : Manager) : List String := m.config.Contexts.map Prod.fst

/-- The `range` loop of `FindContext`: the first visited name containing `name`. -/
def rangeContains (name : String) : List (String × Context) → Option String
  | [] => none
  | (ctxName, _) :: rest =>
      if strings.Contains ctxName name then some ctxName else rangeContains name rest

/-- `FindContext` finds a context by exact name or by substring match. -/
def FindContext (m : Manager) (name : String) : Except String String :=
  match m.config.Contexts.lookup name with
  | some _ => .ok name
  | none =>
    match rangeContains name m.config.Contexts with
    | some ctxName => .ok ctxName
    | none => .error (fmt.Sprintf "context not found: %s" [name])

/-- The `range` loop of `FindContextByCluster`. -/
def rangeByCluster (clusterName : String) : List (String × Context) → String
  | [] => ""
  | (ctxName, ctx) :: rest =>
      if ctx.Cluster = clusterName || strings.Contains ctxName clusterName then ctxName
      else rangeByCluster clusterName rest

/-- `FindContextByCluster` returns the context name associated with a cluster name. -/
def FindContextByCluster (m : Manager) (clusterName : String) : String :=
  rangeByCluster clusterName m.config.Contexts

/-- What a call of `SwitchContext` leaves behind: its `error`, the receiver, and the
file system. -/
structure SwitchResult (FS : Type) where
  err : Option String
  manager : Manager
  fs : FS

/-- `SwitchContext` sets the current-context and writes kubeconfig to disk. -/
def SwitchContext {FS : Type} (lib : Clientcmd FS) (m : Manager) (contextName : String)
    (fs : FS) : SwitchResult FS :=
  match m.config.Contexts.lookup contextName with
  | none =>
      { err := some (fmt.Sprintf "context '%s' not found in kubeconfig" [contextName]),
        manager := m, fs := fs }
  | some _ =>
      let m' : Manager := { m with config := { m.config with CurrentContext := contextName } }
      let w := lib.WriteToFile m'.config m'.path fs
      { err := w.2, manager := m', fs := w.1 }

/-- A store whose only context has the empty name and refers to cluster `c`. -/
def emptyNameStore : Manager := ⟨"/k", ⟨[("", ⟨"c", "u"⟩)], ""⟩⟩

end kubeconfig

/-! ## pkg/kubeconfig/manager.go, continued -/

namespace kubeconfig

/-- The `range` loop of `ListClusterNames`, with its `seen` set and `names` slice. -/
def rangeClusterNames : List (String × Context) → List String → List String → List String
  | [], _, names => names
  | (_, ctx) :: rest, seen, names =>
      if ctx.Cluster ≠ "" ∧ ¬ ctx.Cluster ∈ seen then
        rangeClusterNames rest (ctx.Cluster :: seen) (names ++ [ctx.Cluster])
      else rangeClusterNames rest seen names

/-- `ListClusterNames` returns all cluster names referenced by contexts in kubeconfig. -/
def ListClusterNames (m : Manager) : List String :=
  rangeClusterNames m.config.Contexts [] []

/-- The library over a read-only `MemFS`: documents are read as by `memLib`, every
write is refused and leaves the file system as it was. -/
def readOnlyLib : Clientcmd MemFS where
  LoadFromFile := memLib.LoadFromFile
  WriteToFile := fun _ path fs => (fs, some ("open " ++ path ++ ": permission denied"))

/-- The store of `TestManager_SwitchContext`, with `ctx-a` active. -/
def twoContextStore : Manager :=
  ⟨"/k", ⟨[("ctx-a", ⟨"cluster-a", "ctx-a-user"⟩), ("ctx-b", ⟨"cluster-b", "ctx-b-user"⟩)],
    "ctx-a"⟩⟩

/-- The store of `TestManager_FindContextByCluster`: `my-ctx` refers to `my-nks-cluster`. -/
def myCtxStore : Manager := ⟨"/k", ⟨[("my-ctx", ⟨"my-nks-cluster", "my-ctx-user"⟩)], ""⟩⟩

end kubeconfig

/-! ## pkg/ncp/authenticator.go -/

namespace ncp

/-- `Authenticator` wraps the ncp-iam-authenticator binary. -/
structure Authenticator where
  binaryPath : String
  profile : String
deriving DecidableEq, Repr

/-- The operating-system services `UpdateKubeconfig` calls, on a file system `FS`:
`filepath.Dir`, `os.MkdirAll`, and running a command to completion, which yields the
file system left behind, the combined output and the `error`. -/
structure Host (FS : Type) where
  Dir : String → String
  MkdirAll : String → FS → FS × Option String
  CombinedOutput : String → List String → FS → FS × String × Option String

/-- What a call of `UpdateKubeconfig` leaves behind: its `error`, the file system, and
the commands it ran, each with its argument vector. -/
structure UpdateResult (FS : Type) where
  err : Option String
  fs : FS
  commands : List (String × List String)

/-- The argument vector `UpdateKubeconfig` builds in its local `args`. -/
def updateKubeconfigArgs (a : Authenticator) (cluster : Cluster) (kubeconfigPath : String)
    (overwrite : Bool) : List String :=
  let args := ["update-kubeconfig",
    "--region", cluster.Region,
    "--clusterUuid", cluster.UUID,
    "--clusterName", cluster.Name,
    "--kubeconfig", kubeconfigPath]
  let args := if a.profile ≠ "" then args ++ ["--profile", a.profile] else args
  let args := if overwrite then args ++ ["--overwrite"] else args
  args

/-- `UpdateKubeconfig` runs ncp-iam-authenticator to add/update a cluster entry in
kubeconfig. -/
def UpdateKubeconfig {FS : Type} (host : Host FS) (a : Authenticator) (cluster : Cluster)
    (kubeconfigPath : String) (overwrite : Bool) (fs : FS) : UpdateResult FS :=
  let dir := host.Dir kubeconfigPath
  let mk := host.MkdirAll dir fs
  match mk.2 with
  | some err =>
      { err := some (fmt.Sprintf "failed to create kubeconfig directory: %w" [err]),
        fs := mk.1, commands := [] }
  | none =>
      let args := updateKubeconfigArgs a cluster kubeconfigPath overwrite
      let out := host.CombinedOutput a.binaryPath args mk.1
      match out.2.2 with
      | some err =>
          { err := some (fmt.Sprintf "ncp-iam-authenticator failed: %w\nOutput: %s"
              [err, out.2.1]),
            fs := out.1, commands := [(a.binaryPath, args)] }
      | none => { err := none, fs := out.1, commands := [(a.binaryPath, args)] }

/-- A host over `MemFS` whose collaborator always succeeds: in the document at the
path given after `--kubeconfig` it puts first the context `nks_NAME`, for the cluster
NAME given after `--clusterName`: the entry already there under that name, or else a
new one referring to NAME. -/
def memHost : Host kubeconfig.MemFS where
  Dir := fun p => p
  MkdirAll := fun _ fs => (fs, none)
  CombinedOutput := fun _ args fs =>
    let name := args.getD 6 ""
    let path := args.getD 8 ""
    let cfg := (fs.lookup path).getD kubeconfig.NewConfig
    let key := "nks_" ++ name
    let entry := (cfg.Contexts.lookup key).getD ⟨name, key⟩
    ((path, { cfg with Contexts := (key, entry) :: cfg.Contexts.eraseP (fun p => p.1 == key) })
        :: fs, "", none)

/-- The part of `GenerateHMACSignature` that builds `message`. -/
def signedMessage (method uri queryString timestamp accessKey : String) : String :=
  let url := if queryString ≠ "" then uri ++ "?" ++ queryString else uri
  fmt.Sprintf "%s %s\n%s\n%s" [method, url, timestamp, accessKey]

end ncp

/-! ## Standard library: unicode, strings (continued), bufio -/

namespace unicode

/-- Go `unicode.IsSpace`: the characters with the Unicode White_Space property. -/
def IsSpace (c : Char) : Bool :=
  let v := c.val.toNat
  v = 0x09 || v = 0x0A || v = 0x0B || v = 0x0C || v = 0x0D || v = 0x20 || v = 0x85
    || v = 0xA0 || v = 0x1680 || (0x2000 ≤ v && v ≤ 0x200A) || v = 0x2028 || v = 0x2029
    || v = 0x202F || v = 0x205F || v = 0x3000

end unicode

namespace strings

/-- Go `strings.TrimSpace(s)`. -/
def TrimSpace (s : String) : String :=
  ⟨((s.data.dropWhile unicode.IsSpace).reverse.dropWhile unicode.IsSpace).reverse⟩

/-- Go `strings.HasPrefix(s, p)`. -/
def HasPrefix (s p : String) : Bool := p.data.isPrefixOf s.data

/-- Go `strings.HasSuffix(s, p)`. -/
def HasSuffix (s p : String) : Bool := p.data.reverse.isPrefixOf s.data.reverse

end strings

namespace bufio

/-- Go `bufio.MaxScanTokenSize`. -/
def MaxScanTokenSize : Nat := 64 * 1024

/-- The text cut at every newline; `cur` holds the current line, latest character
first.  A final line without a newline counts when it is not empty. -/
def rawLinesFrom : List Char → List Char → List (List Char)
  | [], cur => if cur = [] then [] else [cur.reverse]
  | c :: cs, cur =>
      if c = '\n' then cur.reverse :: rawLinesFrom cs [] else rawLinesFrom cs (c :: cur)

/-- The lines of a text, without their newlines. -/
def rawLines (content : String) : List (List Char) := rawLinesFrom content.data []

/-- The `dropCR` of `bufio.ScanLines`: one trailing carriage return is removed. -/
def dropCR (line : List Char) : List Char :=
  if line.getLast? = some '\r' then line.dropLast else line

/-- The successive values of `scanner.Text()` for a default `bufio.Scanner` over the
text: the lines up to, and not including, the first one that does not fit the buffer
(`MaxScanTokenSize` bytes or more before its newline), where `Scan` returns false. -/
def scanLines (content : String) : List String :=
  ((rawLines content).takeWhile
      (fun l => decide ((bytesOf ⟨l⟩).length < MaxScanTokenSize))).map
    (fun l => ⟨dropCR l⟩)

end bufio

/-! ## pkg/ncp/config.go -/

namespace ncp

/-- `Config` holds NCP credentials and API configuration. -/
structure Config where
  AccessKey : String
  SecretKey : String
  ApiURL : String
  Region : String
deriving DecidableEq, Repr

/-- `defaultAPIURL` -/
def defaultAPIURL : String := "https://ncloud.apigw.ntruss.com"

/-- The locals `sections` and `currentSection` of `loadFromFile`; a map is the list
of its assignments, latest first, and a lookup takes the first entry for the key. -/
structure IniState where
  sections : List (String × List (String × String))
  currentSection : String
deriving DecidableEq, Repr

/-- The body of the scanning loop of `loadFromFile`, for one value of `scanner.Text()`. -/
def iniStep (st : IniState) (text : String) : IniState :=
  let line := strings.TrimSpace text
  if line = "" ∨ strings.HasPrefix line "#" = true ∨ strings.HasPrefix line ";" = true then st
  else if strings.HasPrefix line "[" = true ∧ strings.HasSuffix line "]" = true then
    let currentSection := strings.TrimSpace (sliceTo (sliceFrom line 1) ((line.length : Int) - 2))
    match st.sections.lookup currentSection with
    | none => { sections := (currentSection, []) :: st.sections,
                currentSection := currentSection }
    | some _ => { st with currentSection := currentSection }
  else if strings.Index line "=" > 0 then
    let key := strings.TrimSpace (sliceTo line (strings.Index line "="))
    let value := strings.TrimSpace (sliceFrom line (strings.Index line "=" + 1))
    { st with sections :=
        (st.currentSection,
          (key, value) :: (st.sections.lookup st.currentSection).getD []) :: st.sections }
  else st

/-- `loadFromFile` parses the INI-style ~/.ncloud/configure file; `openFile` is
`os.Open` followed by reading: the file's text, or the error of opening it. -/
def loadFromFile (openFile : String → Except String String) (path profile : String) :
    Except String Config :=
  let profile := if profile = "" then "DEFAULT" else profile
  match openFile path with
  | .error err => .error err
  | .ok content =>
    let st := (bufio.scanLines content).foldl iniStep ⟨[("DEFAULT", [])], "DEFAULT"⟩
    match st.sections.lookup profile with
    | none => .error (fmt.Sprintf "profile '%s' not found in %s" [profile, path])
    | some data =>
      let cfg : Config :=
        { AccessKey := (data.lookup "ncloud_access_key_id").getD "",
          SecretKey := (data.lookup "ncloud_secret_access_key").getD "",
          ApiURL := (data.lookup "ncloud_api_url").getD "",
          Region := (data.lookup "ncloud_region").getD "" }
      if cfg.AccessKey = "" ∨ cfg.SecretKey = "" then
        .error (fmt.Sprintf "incomplete credentials in profile '%s'" [profile])
      else
        .ok (if cfg.ApiURL = "" then { cfg with ApiURL := defaultAPIURL } else cfg)

/-- `LoadConfig` loads NCP configuration from environment variables or
~/.ncloud/configure; `configFilePath` is the value of `configFilePath()`. -/
def LoadConfig (getenv : String → String) (openFile : String → Except String String)
    (configFilePath profile : String) : Except String Config :=
  let cfg : Config :=
    { AccessKey := getenv "NCLOUD_ACCESS_KEY",
      SecretKey := getenv "NCLOUD_SECRET_KEY",
      ApiURL := getenv "NCLOUD_API_GW",
      Region := getenv "NCLOUD_REGION" }
  if cfg.AccessKey ≠ "" ∧ cfg.SecretKey ≠ "" then
    .ok (if cfg.ApiURL = "" then { cfg with ApiURL := defaultAPIURL } else cfg)
  else
    match loadFromFile openFile configFilePath profile with
    | .error _ =>
        .error ("NCP credentials not found.\n\n" ++
          "Set environment variables:\n" ++
          "  export NCLOUD_ACCESS_KEY=\"your-access-key\"\n" ++
          "  export NCLOUD_SECRET_KEY=\"your-secret-key\"\n" ++
          "  export NCLOUD_API_GW=\"https://ncloud.apigw.ntruss.com\"  # optional\n\n" ++
          "Or configure ~/.ncloud/configure with a profile.")
    | .ok fileCfg => .ok fileCfg

end ncp

/-! ## cmd/root.go -/

namespace cmd

open ncp kubeconfig

/-- Everything outside the process that `runSync`, `runSwitch` and the completion
function consult: the environment variables, the credentials file, the values of
`kubeconfig.DefaultPath()` and `findBinary()`, whether the authenticator is installed,
what each regional endpoint answers, the `clientcmd` library and the host services. -/
structure World (FS : Type) where
  getenv : String → String
  openFile : String → Except String String
  configFilePath : String
  kubeconfigPath : String
  binaryPath : String
  installed : Bool
  fetch : String → Except String (List Cluster)
  lib : Clientcmd FS
  host : Host FS

/-- What a run of a command leaves behind: the returned `error`, what was printed on
the standard output and on the standard error (one entry per print statement), the
clusters handed to `UpdateKubeconfig`, the commands that were run, and the file system. -/
structure RunResult (FS : Type) where
  err : Option String
  stdout : List String
  stderr : List String
  updates : List Cluster
  commands : List (String × List String)
  fs : FS

/-- The state of the reconcile loop of `runSync`. -/
structure SyncAcc (FS : Type) where
  fs : FS
  syncCount : Nat
  skipCount : Nat
  stderr : List String
  updates : List Cluster
  commands : List (String × List String)

/-- One iteration of the reconcile loop of `runSync` (lines 112 to 122). -/
def syncStep {FS : Type} (w : World FS) (authenticator : Authenticator) (manager : Manager)
    (acc : SyncAcc FS) (cluster : Cluster) : SyncAcc FS :=
  if FindContextByCluster manager cluster.Name ≠ "" then
    { acc with skipCount := acc.skipCount + 1 }
  else
    let r := UpdateKubeconfig w.host authenticator cluster w.kubeconfigPath false acc.fs
    match r.err with
    | some err =>
        { acc with
          fs := r.fs,
          stderr := acc.stderr ++
            [fmt.Sprintf "  Warning: failed to sync %s: %v\n" [cluster.Name, err]],
          updates := acc.updates ++ [cluster],
          commands := acc.commands ++ r.commands }
    | none =>
        { acc with
          fs := r.fs,
          syncCount := acc.syncCount + 1,
          updates := acc.updates ++ [cluster],
          commands := acc.commands ++ r.commands }

/-- The summary that `runSync` prints when something was synced or skipped. -/
def summaryLines (syncCount skipCount total : Nat) : List String :=
  if syncCount > 0 ∨ skipCount > 0 then
    [fmt.Sprintf "Synced %d cluster(s), skipped %d already configured. (%d total)\n\n"
      [toString syncCount, toString skipCount, toString total]]
  else []

/-- The line the display loop of `runSync` prints for one cluster. -/
def displayLine (manager : Manager) (cluster : Cluster) : String :=
  let current := GetCurrentContext manager
  let ctxName := FindContextByCluster manager cluster.Name
  let marker := if ctxName ≠ "" ∧ ctxName = current then "* " else "  "
  fmt.Sprintf "%s%s\n" [marker, cluster.Name]

/-- `runSync` from the loading of the kubeconfig on (lines 102 to 146), for the
cluster list that `ListClusters` returned. -/
def syncClusters {FS : Type} (w : World FS) (authenticator : Authenticator)
    (clusters : List Cluster) (fs : FS) : RunResult FS :=
  match NewManager w.lib w.kubeconfigPath fs with
  | .error err =>
      { err := some (fmt.Sprintf "failed to read kubeconfig: %w" [err]),
        stdout := [], stderr := [], updates := [], commands := [], fs := fs }
  | .ok manager =>
    let acc := clusters.foldl (syncStep w authenticator manager) ⟨fs, 0, 0, [], [], []⟩
    let summary := summaryLines acc.syncCount acc.skipCount clusters.length
    if acc.syncCount > 0 then
      match NewManager w.lib w.kubeconfigPath acc.fs with
      | .error err =>
          { err := some (fmt.Sprintf "failed to read kubeconfig: %w" [err]),
            stdout := summary, stderr := acc.stderr, updates := acc.updates,
            commands := acc.commands, fs := acc.fs }
      | .ok reloaded =>
          { err := none, stdout := summary ++ clusters.map (displayLine reloaded),
            stderr := acc.stderr, updates := acc.updates, commands := acc.commands,
            fs := acc.fs }
    else
      { err := none, stdout := summary ++ clusters.map (displayLine manager),
        stderr := acc.stderr, updates := acc.updates, commands := acc.commands,
        fs := acc.fs }

/-- `runSync` fetches all NKS clusters, generates kubeconfig entries via
ncp-iam-authenticator, and displays the cluster list. -/
def runSync {FS : Type} (w : World FS) (profileFlag : String) (fs : FS) : RunResult FS :=
  match LoadConfig w.getenv w.openFile w.configFilePath profileFlag with
  | .error err =>
      { err := some err, stdout := [], stderr := [], updates := [], commands := [], fs := fs }
  | .ok cfg =>
    let authenticator : Authenticator := ⟨w.binaryPath, profileFlag⟩
    if ¬ w.installed then
      { err := some ("ncp-iam-authenticator not found.\n" ++
          "Install it from: https://guide.ncloud-docs.com/docs/nks-nkstoken"),
        stdout := [], stderr := [], updates := [], commands := [], fs := fs }
    else
      let listed :=
        ListClusters ((resolveNKSBaseURLs cfg.ApiURL).map (fun u => ⟨u, w.fetch u⟩))
      match listed.err with
      | some err =>
          { err := some (fmt.Sprintf "failed to list clusters: %w" [err]),
            stdout := [], stderr := listed.stderr, updates := [], commands := [], fs := fs }
      | none =>
        if listed.clusters.length = 0 then
          { err := none, stdout := ["No clusters found.\n"], stderr := listed.stderr,
            updates := [], commands := [], fs := fs }
        else
          let r := syncClusters w authenticator listed.clusters fs
          { r with stderr := listed.stderr ++ r.stderr }

/-- `runSwitch` changes the current kubeconfig context to the specified cluster. -/
def runSwitch {FS : Type} (w : World FS) (clusterName : String) (fs : FS) : RunResult FS :=
  match NewManager w.lib w.kubeconfigPath fs with
  | .error err =>
      { err := some (fmt.Sprintf "failed to read kubeconfig: %w" [err]),
        stdout := [], stderr := [], updates := [], commands := [], fs := fs }
  | .ok manager =>
    match FindContext manager clusterName with
    | .error _ =>
        { err := some (fmt.Sprintf
            "context not found for '%s'.\nRun 'kubectl nks-ctx' first to sync clusters."
            [clusterName]),
          stdout := [], stderr := [], updates := [], commands := [], fs := fs }
    | .ok contextName =>
      let r := SwitchContext w.lib manager contextName fs
      match r.err with
      | some err =>
          { err := some (fmt.Sprintf "failed to switch context: %w" [err]),
            stdout := [], stderr := [], updates := [], commands := [], fs := r.fs }
      | none =>
          { err := none, stdout := [fmt.Sprintf "Switched to context \"%s\"\n" [contextName]],
            stderr := [], updates := [], commands := [], fs := r.fs }

/-- `rootCmd.ValidArgsFunction`: the completions offered for the switch argument. -/
def ValidArgsFunction {FS : Type} (w : World FS) (args : List String) (toComplete : String)
    (fs : FS) : List String :=
  if args.length > 0 then []
  else
    match NewManager w.lib w.kubeconfigPath fs with
    | .error _ => []
    | .ok manager => (ListClusterNames manager).filter (fun name => strings.HasPrefix name toComplete)

/-- `run`: no argument syncs, one argument switches. -/
def run {FS : Type} (w : World FS) (profileFlag : String) (args : List String) (fs : FS) :
    RunResult FS :=
  match args with
  | [] => runSync w profileFlag fs
  | arg :: _ => runSwitch w arg fs

/-- The store lookup of the reconcile loop, on the document at the kubeconfig path of
a file system: the answer of `FindContextByCluster`, the empty string when the
document cannot be loaded. -/
def contextFor {FS : Type} (w : World FS) (fs : FS) (clusterName : String) : String :=
  match NewManager w.lib w.kubeconfigPath fs with
  | .ok manager => FindContextByCluster manager clusterName
  | .error _ => ""

/-- The assumption of idempotent sync on the collaborator: whenever `UpdateKubeconfig`
succeeds for a cluster, the store then has a context that `FindContextByCluster`
answers for that cluster's name, and every name it answered before is still answered. -/
def Materializes {FS : Type} (w : World FS) (authenticator : Authenticator) : Prop :=
  ∀ (cluster : Cluster) (fs : FS),
    (UpdateKubeconfig w.host authenticator cluster w.kubeconfigPath false fs).err = none →
      contextFor w (UpdateKubeconfig w.host authenticator cluster w.kubeconfigPath false fs).fs
          cluster.Name ≠ "" ∧
      ∀ name, contextFor w fs name ≠ "" →
        contextFor w (UpdateKubeconfig w.host authenticator cluster w.kubeconfigPath false fs).fs
          name ≠ ""

/-- A world over `MemFS`: credentials from the environment, the commercial gateway,
one listed cluster per region, the in-memory library and collaborator. -/
def memWorld (clusters : List Cluster) : World MemFS where
  getenv := fun k =>
    if k = "NCLOUD_ACCESS_KEY" then "ak" else if k = "NCLOUD_SECRET_KEY" then "sk" else ""
  openFile := fun _ => .error "open: no such file or directory"
  configFilePath := "/home/u/.ncloud/configure"
  kubeconfigPath := "/home/u/.kube/config"
  binaryPath := "/usr/local/bin/ncp-iam-authenticator"
  installed := true
  fetch := fun u =>
    if u = "https://nks.apigw.ntruss.com/vnks/v2" then .ok clusters else .ok []
  lib := memLib
  host := memHost

end cmd

namespace cmd

open ncp kubeconfig

/-- A file system of raw documents: `none` is a text that is not a kubeconfig. -/
abbrev DocFS := List (String × Option kubeconfig.Config)

/-- The library over `DocFS`: a text that is not a kubeconfig fails to load. -/
def docLib : Clientcmd DocFS where
  LoadFromFile := fun path fs =>
    match fs.lookup path with
    | some (some cfg) => .ok cfg
    | some none => .error (.other "yaml: unmarshal errors")
    | none => .error .notExist
  WriteToFile := fun cfg path fs => ((path, some cfg) :: fs, none)

/-- A host over `DocFS` whose collaborator exits with status zero and leaves, at the
path given after `--kubeconfig`, a text that is not a kubeconfig. -/
def truncatingHost : Host DocFS where
  Dir := fun p => p
  MkdirAll := fun _ fs => (fs, none)
  CombinedOutput := fun _ args fs => ((args.getD 8 "", none) :: fs, "", none)

/-- The world of `truncatingHost`, listing the given clusters. -/
def truncatingWorld (clusters : List Cluster) : World DocFS where
  getenv := fun k =>
    if k = "NCLOUD_ACCESS_KEY" then "ak" else if k = "NCLOUD_SECRET_KEY" then "sk" else ""
  openFile := fun _ => .error "open: no such file or directory"
  configFilePath := "/home/u/.ncloud/configure"
  kubeconfigPath := "/home/u/.kube/config"
  binaryPath := "/usr/local/bin/ncp-iam-authenticator"
  installed := true
  fetch := fun u =>
    if u = "https://nks.apigw.ntruss.com/vnks/v2" then .ok clusters else .ok []
  lib := docLib
  host := truncatingHost

/-- Cluster `alpha` as the Korean region reports it. -/
def alphaKR : Cluster := ⟨"uuid-1", "alpha", "KR", "RUNNING"⟩

/-- Another cluster named `alpha`, reported by the Japanese region. -/
def alphaJPN : Cluster := ⟨"uuid-2", "alpha", "JPN", "RUNNING"⟩

/-- Cluster `beta`. -/
def betaKR : Cluster := ⟨"uuid-3", "beta", "KR", "RUNNING"⟩

end cmd

namespace cmd

open ncp kubeconfig

/-- The warning `runSync` owes to a cluster whose materialization failed with `err`. -/
def syncWarning (failed : Cluster × String) : String :=
  "  Warning: failed to sync " ++ failed.1.Name ++ ": " ++ failed.2 ++ "\n"

/-- The command of the sync path for a cluster: the binary, with the argument vector
built with `overwrite = false`. -/
def commandFor {FS : Type} (w : World FS) (authenticator : Authenticator) (cluster : Cluster) :
    String × List String :=
  (authenticator.binaryPath, updateKubeconfigArgs authenticator cluster w.kubeconfigPath false)

/-- The reconcile loop finds no context for the cluster in the loaded store. -/
def unmatched (manager : Manager) (cluster : Cluster) : Bool :=
  decide (FindContextByCluster manager cluster.Name = "")

end cmd

namespace cmd

open ncp kubeconfig

/-- The file system of `memWorld` holding the store `myCtxStore` at the kubeconfig path. -/
def myCtxFS : MemFS := [("/home/u/.kube/config", myCtxStore.config)]

end cmd

/-! ## The configuration file as the specification reads it -/

namespace ncp

/-- What one line of the configuration file says: nothing (blank, comment, or neither
a header nor an assignment), a section header `[name]`, or an assignment `key=value`
with something before the `=`; names, keys and values are taken without their
surrounding white space. -/
inductive IniLine where
  | skip
  | header (name : String)
  | assign (key value : String)
deriving DecidableEq, Repr

/-- The reading of one line. -/
def iniLine (text : String) : IniLine :=
  let line := strings.TrimSpace text
  if line = "" ∨ strings.HasPrefix line "#" = true ∨ strings.HasPrefix line ";" = true then .skip
  else if strings.HasPrefix line "[" = true ∧ strings.HasSuffix line "]" = true then
    .header (strings.TrimSpace (sliceTo (sliceFrom line 1) ((line.length : Int) - 2)))
  else if strings.Index line "=" > 0 then
    .assign (strings.TrimSpace (sliceTo line (strings.Index line "=")))
      (strings.TrimSpace (sliceFrom line (strings.Index line "=" + 1)))
  else .skip

/-- The assignments of a file, each with the section it belongs to: the section of the
nearest header above it, or `section` when no header precedes it. -/
def iniAssignments : List IniLine → String → List (String × String × String)
  | [], _ => []
  | .skip :: rest, sec => iniAssignments rest sec
  | .header name :: rest, _ => iniAssignments rest name
  | .assign key value :: rest, sec => (sec, key, value) :: iniAssignments rest sec

/-- The section names that have a header in the file. -/
def iniHeaders : List IniLine → List String
  | [] => []
  | .header name :: rest => name :: iniHeaders rest
  | _ :: rest => iniHeaders rest

/-- The value a section defines for a key: that of the last assignment to the key in
the section, if there is one. -/
def iniValue : List (String × String × String) → String → String → Option String
  | [], _, _ => none
  | (s, k, v) :: rest, sec, key =>
      match iniValue rest sec key with
      | some x => some x
      | none => if s = sec ∧ k = key then some v else none

/-- All the lines of a text, each without its newline and one trailing carriage return. -/
def fileLines (content : String) : List String :=
  (bufio.rawLines content).map (fun l => ⟨bufio.dropCR l⟩)

/-- The value the file defines for a key in the section a profile names (`DEFAULT` for
the empty profile), the empty string when it defines none. -/
def fileValue (content profile key : String) : String :=
  (iniValue (iniAssignments ((fileLines content).map iniLine) "DEFAULT")
    (if profile = "" then "DEFAULT" else profile) key).getD ""

/-- The file has the section a profile names: `DEFAULT`, or one with a header. -/
def fileHasSection (content profile : String) : Prop :=
  (if profile = "" then "DEFAULT" else profile) = "DEFAULT" ∨
  (if profile = "" then "DEFAULT" else profile) ∈ iniHeaders ((fileLines content).map iniLine)

/-- The effect of a line, as read by `iniLine`, on the maps of `loadFromFile`. -/
def iniApply (st : IniState) : IniLine → IniState
  | .skip => st
  | .header name =>
      match st.sections.lookup name with
      | none => { sections := (name, []) :: st.sections, currentSection := name }
      | some _ => { st with currentSection := name }
  | .assign key value =>
      { st with sections :=
          (st.currentSection,
            (key, value) :: (st.sections.lookup st.currentSection).getD []) :: st.sections }

/-- A configuration file that defines both credentials in `DEFAULT`, below a comment
line of 70000 characters. -/
def longLineContent : String :=
  ⟨List.replicate 70000 '#' ++ "\nncloud_access_key_id=k\nncloud_secret_access_key=s\n".data⟩

end ncp

namespace ncp

/-- The file of `TestLoadConfig_FromFile`. -/
def twoProfileContent : String :=
  "[DEFAULT]\nncloud_access_key_id=file-access-key\nncloud_secret_access_key=file-secret-key\n" ++
  "ncloud_api_url=https://custom.api.example.com\nncloud_region=KR\n\n" ++
  "[finance]\nncloud_access_key_id=fin-access-key\nncloud_secret_access_key=fin-secret-key\n" ++
  "ncloud_api_url=https://fin-ncloud.apigw.fin-ntruss.com\nncloud_region=KR\n"

end ncp

namespace cmd

open ncp kubeconfig

/-- The successive calls of `UpdateKubeconfig` on the sync path for the given clusters,
each on the file system the one before it left, with what each call returned. -/
def materializations {FS : Type} (w : World FS) (authenticator : Authenticator) :
    List Cluster → FS → List (Cluster × UpdateResult FS)
  | [], _ => []
  | cluster :: rest, fs =>
      (cluster, UpdateKubeconfig w.host authenticator cluster w.kubeconfigPath false fs)
        :: materializations w authenticator rest
            (UpdateKubeconfig w.host authenticator cluster w.kubeconfigPath false fs).fs

/-- The warning owed to a call of `UpdateKubeconfig`: none when it returned no error. -/
def warningOfResult {FS : Type} (t : Cluster × UpdateResult FS) : Option String :=
  match t.2.err with
  | some err => some ("  Warning: failed to sync " ++ t.1.Name ++ ": " ++ err ++ "\n")
  | none => none

/-- A host over `MemFS` whose collaborator exits with status 1 for the cluster named
`beta` and behaves as that of `memHost` for every other cluster. -/
def flakyHost : Host MemFS where
  Dir := memHost.Dir
  MkdirAll := memHost.MkdirAll
  CombinedOutput := fun bin args fs =>
    if args.getD 6 "" = "beta" then (fs, "cluster not found", some "exit status 1")
    else memHost.CombinedOutput bin args fs

/-- The world of `memWorld` with the collaborator of `flakyHost`. -/
def flakyWorld (clusters : List Cluster) : World MemFS :=
  { memWorld clusters with host := flakyHost }

/-- A host over `MemFS` on which the kubeconfig directory cannot be made. -/
def noDirHost : Host MemFS where
  Dir := memHost.Dir
  MkdirAll := fun _ fs => (fs, some "mkdir /home/u/.kube: permission denied")
  CombinedOutput := memHost.CombinedOutput

/-- The world of `memWorld` on the host `noDirHost`. -/
def noDirWorld (clusters : List Cluster) : World MemFS :=
  { memWorld clusters with host := noDirHost }

end cmd

/-! # Theorems -/

/-! ## Lemmas on the string library -/

namespace strings

theorem indexFrom_nonneg_iff (sub : List Char) (l : List Char) (i : Nat) :
    0 ≤ indexFrom sub l i ↔ sub <:+: l := by
  induction l generalizing i with
  | nil =>
    unfold indexFrom
    by_cases h : sub = []
    · simp [h]
    · simp [h, List.infix_nil]
  | cons c cs ih =>
    unfold indexFrom
    by_cases h : sub.isPrefixOf (c :: cs) = true
    · rw [if_pos h]
      have hp : sub <+: c :: cs := List.isPrefixOf_iff_prefix.mp h
      exact ⟨fun _ => hp.isInfix, fun _ => Int.ofNat_nonneg i⟩
    · rw [if_neg h, ih (i + 1), List.infix_cons_iff]
      have hp : ¬ sub <+: c :: cs := fun hp => h (List.isPrefixOf_iff_prefix.mpr hp)
      exact ⟨fun hi => Or.inr hi, fun ho => ho.resolve_left hp⟩

theorem Contains_iff (s sub : String) : Contains s sub = true ↔ sub.data <:+: s.data := by
  unfold Contains Index
  rw [decide_eq_true_iff]
  exact indexFrom_nonneg_iff _ _ _

theorem Contains_false_iff (s sub : String) :
    Contains s sub = false ↔ ¬ sub.data <:+: s.data := by
  rw [← Contains_iff, Bool.not_eq_true]

theorem Join_contains (sep : String) (elems : List String) (e : String) (h : e ∈ elems) :
    e.data <:+: (Join elems sep).data := by
  induction elems with
  | nil => cases h
  | cons a rest ih =>
    cases rest with
    | nil =>
      have : e = a := by simpa using h
      subst this
      exact List.infix_refl _
    | cons b rest2 =>
      rw [Join]
      rcases List.mem_cons.mp h with rfl | h2
      · simp only [String.data_append, List.append_assoc]
        exact (List.prefix_append _ _).isInfix
      · have := ih h2
        simp only [String.data_append]
        exact this.trans (List.suffix_append _ _).isInfix

end strings

/-! ## The cloud client: fan-out and aggregation -/

namespace ncp

theorem sprintf_endpoint_error (u r : String) :
    fmt.Sprintf "%s: %v" [u, r] = u ++ ": " ++ r := by
  apply String.ext
  simp [fmt.Sprintf, fmt.sprintfAux]

theorem sprintf_warning (e : String) :
    fmt.Sprintf "  Warning: %s\n" [e] = "  Warning: " ++ e ++ "\n" := by
  apply String.ext
  simp [fmt.Sprintf, fmt.sprintfAux]

theorem sprintf_all_failed (e : String) :
    fmt.Sprintf "all API endpoints failed:\n  %s" [e] = "all API endpoints failed:\n  " ++ e := by
  apply String.ext
  simp [fmt.Sprintf, fmt.sprintfAux]

theorem foldl_listStep (eps : List Endpoint) (acc : ListAcc) :
    (eps.foldl listStep acc).allClusters
        = acc.allClusters ++ (eps.filterMap Endpoint.clustersOf).flatten ∧
    (eps.foldl listStep acc).errors = acc.errors ++ eps.filterMap Endpoint.failureOf ∧
    (eps.foldl listStep acc).successCount
        = acc.successCount + (eps.filter Endpoint.succeeded).length := by
  induction eps generalizing acc with
  | nil => simp
  | cons e rest ih =>
    obtain ⟨u, o⟩ := e
    cases o with
    | error r =>
      obtain ⟨h1, h2, h3⟩ := ih (listStep acc ⟨u, .error r⟩)
      simp only [List.foldl_cons, h1, h2, h3]
      simp [listStep, Endpoint.clustersOf, Endpoint.failureOf, Endpoint.succeeded,
        sprintf_endpoint_error]
    | ok cs =>
      obtain ⟨h1, h2, h3⟩ := ih (listStep acc ⟨u, .ok cs⟩)
      simp only [List.foldl_cons, h1, h2, h3]
      simp [listStep, Endpoint.clustersOf, Endpoint.failureOf, Endpoint.succeeded]
      omega

end ncp

namespace ncp

/-- C1: when at least one endpoint succeeds, `ListClusters` returns no error, returns
exactly the concatenation, in endpoint order, of the successful endpoints' cluster
lists, and writes exactly one warning line per failed endpoint, in endpoint order. -/
theorem ListClusters_some_success (endpoints : List Endpoint)
    (h : ∃ e ∈ endpoints, e.succeeded = true) :
    (ListClusters endpoints).err = none ∧
    (ListClusters endpoints).clusters = (endpoints.filterMap Endpoint.clustersOf).flatten ∧
    (ListClusters endpoints).stderr = endpoints.filterMap Endpoint.warningOf := by
  obtain ⟨h1, h2, h3⟩ := foldl_listStep endpoints ⟨[], [], 0⟩
  have hpos : 0 < (endpoints.filter Endpoint.succeeded).length := by
    obtain ⟨e, he, hs⟩ := h
    exact List.length_pos_of_mem (List.mem_filter.mpr ⟨he, hs⟩)
  have hne : ¬ ((endpoints.foldl listStep ⟨[], [], 0⟩).successCount = 0 ∧
      (endpoints.foldl listStep ⟨[], [], 0⟩).errors.length > 0) := by
    rw [h3]
    intro hc
    have := hc.1
    simp only [Nat.zero_add] at this
    omega
  unfold ListClusters
  simp only [if_neg hne]
  refine ⟨trivial, ?_, ?_⟩
  · rw [h1]; rfl
  · rw [h2]
    simp only [List.nil_append, List.map_filterMap]
    congr 1
    funext e
    obtain ⟨u, o⟩ := e
    cases o with
    | error r =>
      simp only [Endpoint.failureOf, Endpoint.warningOf, Option.map_some', sprintf_warning]
      refine congrArg some (String.ext ?_)
      simp [String.data_append, List.append_assoc]
    | ok cs => rfl

/-- A run with one failed and one successful endpoint. -/
theorem ListClusters_some_success_witness :
    (∃ e ∈ [Endpoint.mk "u1" (.error "boom"), Endpoint.mk "u2" (.ok [⟨"1", "n", "KR", "RUNNING"⟩])],
        e.succeeded = true) ∧
    (ListClusters [⟨"u1", .error "boom"⟩, ⟨"u2", .ok [⟨"1", "n", "KR", "RUNNING"⟩]⟩]).stderr
      = ["  Warning: u1: boom\n"] :=
  ⟨⟨⟨"u2", .ok [⟨"1", "n", "KR", "RUNNING"⟩]⟩, by simp, rfl⟩,
   (ListClusters_some_success _ ⟨⟨"u2", .ok [⟨"1", "n", "KR", "RUNNING"⟩]⟩, by simp, rfl⟩).2.2.trans
     (by decide)⟩

end ncp

namespace ncp

theorem filter_succeeded_of_all_fail (endpoints : List Endpoint)
    (hall : ∀ e ∈ endpoints, e.succeeded = false) :
    endpoints.filter Endpoint.succeeded = [] := by
  rw [List.filter_eq_nil_iff]
  intro e he
  simp [hall e he]

theorem failureOf_length_of_all_fail (endpoints : List Endpoint)
    (hall : ∀ e ∈ endpoints, e.succeeded = false) :
    (endpoints.filterMap Endpoint.failureOf).length = endpoints.length := by
  induction endpoints with
  | nil => rfl
  | cons e rest ih =>
    obtain ⟨u, o⟩ := e
    cases o with
    | error r =>
      have := ih (fun x hx => hall x (List.mem_cons_of_mem _ hx))
      simp [Endpoint.failureOf, this]
    | ok cs =>
      have := hall ⟨u, .ok cs⟩ (List.mem_cons_self _ _)
      simp [Endpoint.succeeded] at this

/-- C2: when the endpoint list is non-empty and every endpoint fails, `ListClusters`
returns an error and no clusters (and writes no warning), and the error text contains,
for every endpoint, the entry `baseURL: reason`, hence the base URL and the reason. -/
theorem ListClusters_all_fail (endpoints : List Endpoint) (hne : endpoints ≠ [])
    (hall : ∀ e ∈ endpoints, e.succeeded = false) :
    (ListClusters endpoints).clusters = [] ∧
    (ListClusters endpoints).stderr = [] ∧
    ∃ msg, (ListClusters endpoints).err = some msg ∧
      ∀ e ∈ endpoints, ∀ r, e.outcome = .error r →
        (e.baseURL ++ ": " ++ r).data <:+: msg.data ∧
        e.baseURL.data <:+: msg.data ∧ r.data <:+: msg.data := by
  obtain ⟨-, h2, h3⟩ := foldl_listStep endpoints ⟨[], [], 0⟩
  have hcond : (endpoints.foldl listStep ⟨[], [], 0⟩).successCount = 0 ∧
      (endpoints.foldl listStep ⟨[], [], 0⟩).errors.length > 0 := by
    rw [h3, h2, filter_succeeded_of_all_fail endpoints hall]
    refine ⟨rfl, ?_⟩
    simp only [List.nil_append, failureOf_length_of_all_fail endpoints hall]
    exact List.length_pos.mpr hne
  unfold ListClusters
  simp only [if_pos hcond]
  refine ⟨trivial, trivial, _, rfl, ?_⟩
  intro e he r hr
  have hmem : (e.baseURL ++ ": " ++ r) ∈ (endpoints.foldl listStep ⟨[], [], 0⟩).errors := by
    rw [h2]
    simp only [List.nil_append, List.mem_filterMap]
    exact ⟨e, he, by simp [Endpoint.failureOf, hr]⟩
  have hjoin := strings.Join_contains "\n  " _ _ hmem
  have hmsg : (e.baseURL ++ ": " ++ r).data <:+:
      (fmt.Sprintf "all API endpoints failed:\n  %s"
        [strings.Join (endpoints.foldl listStep ⟨[], [], 0⟩).errors "\n  "]).data := by
    rw [sprintf_all_failed, String.data_append]
    exact hjoin.trans (List.suffix_append _ _).isInfix
  refine ⟨hmsg, ?_, ?_⟩
  · refine List.IsInfix.trans ?_ hmsg
    simp only [String.data_append, List.append_assoc]
    exact (List.prefix_append _ _).isInfix
  · refine List.IsInfix.trans ?_ hmsg
    simp only [String.data_append]
    exact (List.suffix_append _ _).isInfix

/-- Two endpoints, both failing. -/
theorem ListClusters_all_fail_witness :
    (ListClusters [⟨"u1", .error "boom"⟩, ⟨"u2", .error "bang"⟩]).clusters = [] ∧
    (ListClusters [⟨"u1", .error "boom"⟩, ⟨"u2", .error "bang"⟩]).err
      = some "all API endpoints failed:\n  u1: boom\n  u2: bang" :=
  ⟨(ListClusters_all_fail [⟨"u1", .error "boom"⟩, ⟨"u2", .error "bang"⟩] (by simp)
      (by intro e he; simp at he; rcases he with rfl | rfl <;> rfl)).1,
   by decide⟩

end ncp

/-! ## The context store: switching the active context -/

namespace kubeconfig

theorem lookup_eq_none_of_not_mem (name : String) (l : List (String × Context))
    (h : name ∉ l.map Prod.fst) : l.lookup name = none := by
  induction l with
  | nil => rfl
  | cons p rest ih =>
    obtain ⟨k, v⟩ := p
    simp only [List.map_cons, List.mem_cons, not_or] at h
    have hk : (name == k) = false := by simpa using h.1
    simp only [List.lookup, hk]
    exact ih h.2

theorem lookup_isSome_of_mem (name : String) (l : List (String × Context))
    (h : name ∈ l.map Prod.fst) : ∃ v, l.lookup name = some v := by
  induction l with
  | nil => simp at h
  | cons p rest ih =>
    obtain ⟨k, v⟩ := p
    by_cases hk : name = k
    · subst hk
      exact ⟨v, by simp [List.lookup]⟩
    · have hb : (name == k) = false := by simpa using hk
      have hr : name ∈ rest.map Prod.fst := by
        simp only [List.map_cons, List.mem_cons] at h
        exact h.resolve_left hk
      obtain ⟨w, hw⟩ := ih hr
      exact ⟨w, by simp only [List.lookup, hb, hw]⟩

theorem memLib_durable : memLib.Durable := by
  intro cfg path fs fs' h
  have hfs : fs' = (path, cfg) :: fs := by
    have := congrArg Prod.fst h
    exact this.symm
  subst hfs
  exact ⟨cfg, by simp [memLib, List.lookup], rfl⟩

/-- C3: for a name that is not a key of the contexts, `SwitchContext` returns an error,
leaves the receiver as it was (same active context, no entry for the name), and leaves
the file system as it was, whatever the library's write would have done. -/
theorem SwitchContext_unknown {FS : Type} (lib : Clientcmd FS) (m : Manager) (name : String)
    (fs : FS) (h : name ∉ ListContextNames m) :
    (SwitchContext lib m name fs).err
        = some ("context '" ++ name ++ "' not found in kubeconfig") ∧
    GetCurrentContext (SwitchContext lib m name fs).manager = GetCurrentContext m ∧
    name ∉ ListContextNames (SwitchContext lib m name fs).manager ∧
    (SwitchContext lib m name fs).manager = m ∧
    (SwitchContext lib m name fs).fs = fs := by
  have hl := lookup_eq_none_of_not_mem name m.config.Contexts h
  have hs : SwitchContext lib m name fs
      = { err := some (fmt.Sprintf "context '%s' not found in kubeconfig" [name]),
          manager := m, fs := fs } := by
    simp only [SwitchContext, hl]
  rw [hs]
  refine ⟨congrArg some (String.ext ?_), rfl, h, rfl, rfl⟩
  simp [fmt.Sprintf, fmt.sprintfAux]

/-- The store of the repository's test, asked for a context it does not have; the
in-memory file system logs every write, and the log stays empty. -/
theorem SwitchContext_unknown_witness :
    "nonexistent" ∉ ListContextNames ⟨"/k", ⟨[("ctx-a", ⟨"cluster-a", "ctx-a-user"⟩)], ""⟩⟩ ∧
    (SwitchContext memLib ⟨"/k", ⟨[("ctx-a", ⟨"cluster-a", "ctx-a-user"⟩)], ""⟩⟩
        "nonexistent" []).fs = [] :=
  ⟨by decide,
   (SwitchContext_unknown memLib ⟨"/k", ⟨[("ctx-a", ⟨"cluster-a", "ctx-a-user"⟩)], ""⟩⟩
      "nonexistent" [] (by decide)).2.2.2.2⟩

/-- C4: for a name that is a key of the contexts, when the write succeeds
`SwitchContext` returns no error, makes the name the active context, leaves the context
records as they were, and a manager freshly loaded from the same path has the name as
its active context (the library reading back what it wrote). -/
theorem SwitchContext_known {FS : Type} (lib : Clientcmd FS) (hd : lib.Durable)
    (m : Manager) (name : String) (fs : FS) (hk : name ∈ ListContextNames m)
    (hw : (lib.WriteToFile { m.config with CurrentContext := name } m.path fs).2 = none) :
    (SwitchContext lib m name fs).err = none ∧
    GetCurrentContext (SwitchContext lib m name fs).manager = name ∧
    (SwitchContext lib m name fs).manager.config.Contexts = m.config.Contexts ∧
    (SwitchContext lib m name fs).manager.path = m.path ∧
    ∃ m2, NewManager lib m.path (SwitchContext lib m name fs).fs = .ok m2 ∧
      GetCurrentContext m2 = name := by
  obtain ⟨v, hv⟩ := lookup_isSome_of_mem name m.config.Contexts hk
  have hs : SwitchContext lib m name fs
      = { err := (lib.WriteToFile { m.config with CurrentContext := name } m.path fs).2,
          manager := { m with config := { m.config with CurrentContext := name } },
          fs := (lib.WriteToFile { m.config with CurrentContext := name } m.path fs).1 } := by
    simp only [SwitchContext, hv]
  rw [hs]
  refine ⟨hw, rfl, rfl, rfl, ?_⟩
  have hpair : lib.WriteToFile { m.config with CurrentContext := name } m.path fs
      = ((lib.WriteToFile { m.config with CurrentContext := name } m.path fs).1, none) := by
    rw [← hw]
  obtain ⟨cfg', hload, hcur⟩ := hd _ _ _ _ hpair
  refine ⟨⟨m.path, cfg'⟩, ?_, hcur⟩
  simp only [NewManager, hload]

/-- The store of the repository's test, switched to `ctx-b` and read back. -/
theorem SwitchContext_known_witness :
    memLib.Durable ∧
    "ctx-b" ∈ ListContextNames
      ⟨"/k", ⟨[("ctx-a", ⟨"cluster-a", "ctx-a-user"⟩), ("ctx-b", ⟨"cluster-b", "ctx-b-user"⟩)], ""⟩⟩ ∧
    GetCurrentContext (SwitchContext memLib
      ⟨"/k", ⟨[("ctx-a", ⟨"cluster-a", "ctx-a-user"⟩), ("ctx-b", ⟨"cluster-b", "ctx-b-user"⟩)], ""⟩⟩
      "ctx-b" []).manager = "ctx-b" :=
  ⟨memLib_durable, by decide,
   (SwitchContext_known memLib memLib_durable
      ⟨"/k", ⟨[("ctx-a", ⟨"cluster-a", "ctx-a-user"⟩), ("ctx-b", ⟨"cluster-b", "ctx-b-user"⟩)], ""⟩⟩
      "ctx-b" [] (by decide) rfl).2.1⟩

end kubeconfig

/-! ## The context store: lookup -/

namespace kubeconfig

theorem rangeContains_some (name : String) (l : List (String × Context)) (r : String)
    (h : rangeContains name l = some r) : r ∈ l.map Prod.fst ∧ name.data <:+: r.data := by
  induction l with
  | nil => simp [rangeContains] at h
  | cons p rest ih =>
    obtain ⟨k, v⟩ := p
    unfold rangeContains at h
    by_cases hc : strings.Contains k name = true
    · rw [if_pos hc] at h
      have hk : k = r := Option.some.inj h
      subst hk
      exact ⟨by simp, (strings.Contains_iff _ _).mp hc⟩
    · rw [if_neg hc] at h
      obtain ⟨h1, h2⟩ := ih h
      exact ⟨List.mem_cons_of_mem _ h1, h2⟩

theorem rangeContains_none_iff (name : String) (l : List (String × Context)) :
    rangeContains name l = none ↔ ∀ k ∈ l.map Prod.fst, ¬ name.data <:+: k.data := by
  induction l with
  | nil => simp [rangeContains]
  | cons p rest ih =>
    obtain ⟨k, v⟩ := p
    unfold rangeContains
    by_cases hc : strings.Contains k name = true
    · rw [if_pos hc]
      have hi := (strings.Contains_iff _ _).mp hc
      constructor
      · intro h; cases h
      · intro h; exact absurd hi (h k (by simp))
    · rw [if_neg hc, ih]
      have hi : ¬ name.data <:+: k.data := fun hi => hc ((strings.Contains_iff _ _).mpr hi)
      constructor
      · intro h x hx
        simp only [List.map_cons, List.mem_cons] at hx
        rcases hx with rfl | hx
        · exact hi
        · exact h x hx
      · intro h x hx
        exact h x (List.mem_cons_of_mem _ hx)

/-- C5: `FindContext` returns the input itself whenever the input is a key of the
contexts; whatever name it returns is a key of the contexts that contains the input as
a substring; and it returns an error, the not-found error, exactly when no context name
contains the input. -/
theorem FindContext_spec (m : Manager) (name : String) :
    (name ∈ ListContextNames m → FindContext m name = .ok name) ∧
    (∀ r, FindContext m name = .ok r →
        r ∈ ListContextNames m ∧ name.data <:+: r.data) ∧
    ((∃ e, FindContext m name = .error e) ↔
        ∀ k ∈ ListContextNames m, ¬ name.data <:+: k.data) ∧
    (∀ e, FindContext m name = .error e → e = "context not found: " ++ name) := by
  have hfmt : fmt.Sprintf "context not found: %s" [name] = "context not found: " ++ name := by
    apply String.ext
    simp [fmt.Sprintf, fmt.sprintfAux]
  by_cases hk : name ∈ ListContextNames m
  · obtain ⟨v, hv⟩ := lookup_isSome_of_mem name m.config.Contexts hk
    have hf : FindContext m name = .ok name := by simp only [FindContext, hv]
    rw [hf]
    refine ⟨fun _ => rfl, ?_, ?_, ?_⟩
    · intro r hr
      have : name = r := Except.ok.inj hr
      subst this
      exact ⟨hk, List.infix_refl _⟩
    · constructor
      · rintro ⟨e, he⟩; cases he
      · intro h; exact absurd (List.infix_refl _) (h name hk)
    · intro e he; cases he
  · have hl := lookup_eq_none_of_not_mem name m.config.Contexts hk
    cases hr : rangeContains name m.config.Contexts with
    | some c =>
      have hf : FindContext m name = .ok c := by simp only [FindContext, hl, hr]
      obtain ⟨h1, h2⟩ := rangeContains_some name _ c hr
      rw [hf]
      refine ⟨fun h => absurd h hk, ?_, ?_, ?_⟩
      · intro r hrr
        have : c = r := Except.ok.inj hrr
        subst this
        exact ⟨h1, h2⟩
      · constructor
        · rintro ⟨e, he⟩; cases he
        · intro h; exact absurd h2 (h c h1)
      · intro e he; cases he
    | none =>
      have hf : FindContext m name = .error ("context not found: " ++ name) := by
        simp only [FindContext, hl, hr, hfmt]
      rw [hf]
      refine ⟨fun h => absurd h hk, ?_, ?_, ?_⟩
      · intro r hrr; cases hrr
      · exact ⟨fun _ => (rangeContains_none_iff name _).mp hr, fun _ => ⟨_, rfl⟩⟩
      · intro e he; exact (Except.error.inj he).symm

theorem rangeByCluster_none (clusterName : String) (l : List (String × Context))
    (h : ∀ p ∈ l, ¬ (p.2.Cluster = clusterName ∨ clusterName.data <:+: p.1.data)) :
    rangeByCluster clusterName l = "" := by
  induction l with
  | nil => rfl
  | cons p rest ih =>
    obtain ⟨k, v⟩ := p
    have hp := h (k, v) (List.mem_cons_self _ _)
    have hc : ¬ ((decide (v.Cluster = clusterName) || strings.Contains k clusterName) = true) := by
      simp only [Bool.or_eq_true, decide_eq_true_eq, strings.Contains_iff]
      exact hp
    unfold rangeByCluster
    rw [if_neg hc]
    exact ih (fun q hq => h q (List.mem_cons_of_mem _ hq))

theorem rangeByCluster_some (clusterName : String) (l : List (String × Context))
    (h : ∃ p ∈ l, p.2.Cluster = clusterName ∨ clusterName.data <:+: p.1.data) :
    ∃ p ∈ l, (p.2.Cluster = clusterName ∨ clusterName.data <:+: p.1.data) ∧
      rangeByCluster clusterName l = p.1 := by
  induction l with
  | nil => obtain ⟨p, hp, -⟩ := h; cases hp
  | cons q rest ih =>
    obtain ⟨k, v⟩ := q
    unfold rangeByCluster
    by_cases hc : (decide (v.Cluster = clusterName) || strings.Contains k clusterName) = true
    · rw [if_pos hc]
      simp only [Bool.or_eq_true, decide_eq_true_eq, strings.Contains_iff] at hc
      exact ⟨(k, v), List.mem_cons_self _ _, hc, rfl⟩
    · rw [if_neg hc]
      simp only [Bool.or_eq_true, decide_eq_true_eq, strings.Contains_iff] at hc
      obtain ⟨p, hp, hcond⟩ := h
      rcases List.mem_cons.mp hp with rfl | hp2
      · exact absurd hcond hc
      · obtain ⟨p2, hp2m, hp2c, hp2r⟩ := ih ⟨p, hp2, hcond⟩
        exact ⟨p2, List.mem_cons_of_mem _ hp2m, hp2c, hp2r⟩

/-- C6 as stated fails: in `emptyNameStore` a record refers to cluster `c`, yet
`FindContextByCluster` answers with the empty string, that record's name. -/
theorem FindContextByCluster_empty_name :
    FindContextByCluster emptyNameStore "c" = "" ∧
    ∃ p ∈ emptyNameStore.config.Contexts,
      p.2.Cluster = "c" ∨ "c".data <:+: p.1.data :=
  ⟨by decide, ("", ⟨"c", "u"⟩), by simp [emptyNameStore], Or.inl rfl⟩

/-- C6, amended: in a store where no context has the empty name, a non-empty answer of
`FindContextByCluster` is the name of a record whose cluster reference equals the
cluster name or whose name contains it, and the answer is the empty string if and only
if no record satisfies that condition. -/
theorem FindContextByCluster_spec (m : Manager) (clusterName : String)
    (hne : "" ∉ ListContextNames m) :
    (FindContextByCluster m clusterName ≠ "" →
      ∃ p ∈ m.config.Contexts, p.1 = FindContextByCluster m clusterName ∧
        (p.2.Cluster = clusterName ∨ clusterName.data <:+: p.1.data)) ∧
    (FindContextByCluster m clusterName = "" ↔
      ∀ p ∈ m.config.Contexts,
        ¬ (p.2.Cluster = clusterName ∨ clusterName.data <:+: p.1.data)) := by
  by_cases hex : ∃ p ∈ m.config.Contexts,
      p.2.Cluster = clusterName ∨ clusterName.data <:+: p.1.data
  · obtain ⟨p, hp, hc, hr⟩ := rangeByCluster_some clusterName _ hex
    have hpne : p.1 ≠ "" := by
      intro h0
      apply hne
      rw [← h0]
      exact List.mem_map_of_mem Prod.fst hp
    unfold FindContextByCluster
    rw [hr]
    refine ⟨fun _ => ⟨p, hp, rfl, hc⟩, ?_⟩
    constructor
    · intro h; exact absurd h hpne
    · intro h; exact absurd hc (h p hp)
  · have hall : ∀ p ∈ m.config.Contexts,
        ¬ (p.2.Cluster = clusterName ∨ clusterName.data <:+: p.1.data) :=
      fun p hp hc => hex ⟨p, hp, hc⟩
    have hr := rangeByCluster_none clusterName _ hall
    unfold FindContextByCluster
    rw [hr]
    exact ⟨fun h => absurd rfl h, fun _ => hall, fun _ => rfl⟩

/-- The store of the repository's test: `my-ctx` refers to `my-nks-cluster`. -/
theorem FindContextByCluster_spec_witness :
    "" ∉ ListContextNames ⟨"/k", ⟨[("my-ctx", ⟨"my-nks-cluster", "my-ctx-user"⟩)], ""⟩⟩ ∧
    (FindContextByCluster ⟨"/k", ⟨[("my-ctx", ⟨"my-nks-cluster", "my-ctx-user"⟩)], ""⟩⟩
        "nonexistent" = "" ↔
      ∀ p ∈ [(("my-ctx", ⟨"my-nks-cluster", "my-ctx-user"⟩) : String × Context)],
        ¬ (p.2.Cluster = "nonexistent" ∨ "nonexistent".data <:+: p.1.data)) :=
  ⟨by decide,
   (FindContextByCluster_spec ⟨"/k", ⟨[("my-ctx", ⟨"my-nks-cluster", "my-ctx-user"⟩)], ""⟩⟩
      "nonexistent" (by decide)).2⟩

end kubeconfig

/-! ## The cloud client: endpoint resolution -/

namespace ncp

/-- C7 as stated fails: `bothMarkersURL` contains the government marker, and
`resolveNKSBaseURLs` returns one base URL for it, not two. -/
theorem resolveNKSBaseURLs_both_markers :
    strings.Contains bothMarkersURL "gov-ntruss.com" = true ∧
    resolveNKSBaseURLs bothMarkersURL = ["https://nks.apigw.fin-ntruss.com/nks/v2"] ∧
    resolveNKSBaseURLs bothMarkersURL ≠
      ["https://nks.apigw.gov-ntruss.com/vnks/v2",
       "https://nks.apigw.gov-ntruss.com/vnks/krs-v2"] := by
  decide

/-- C7, amended: `resolveNKSBaseURLs` returns the one financial base URL if the URL
contains `fin-ntruss.com`; the two government base URLs if it contains `gov-ntruss.com`
and not `fin-ntruss.com`; and the three commercial base URLs, in the documented order,
for any other URL. -/
theorem resolveNKSBaseURLs_spec (apiURL : String) :
    ("fin-ntruss.com".data <:+: apiURL.data →
      resolveNKSBaseURLs apiURL = ["https://nks.apigw.fin-ntruss.com/nks/v2"]) ∧
    (¬ "fin-ntruss.com".data <:+: apiURL.data → "gov-ntruss.com".data <:+: apiURL.data →
      resolveNKSBaseURLs apiURL =
        ["https://nks.apigw.gov-ntruss.com/vnks/v2",
         "https://nks.apigw.gov-ntruss.com/vnks/krs-v2"]) ∧
    (¬ "fin-ntruss.com".data <:+: apiURL.data → ¬ "gov-ntruss.com".data <:+: apiURL.data →
      resolveNKSBaseURLs apiURL =
        ["https://nks.apigw.ntruss.com/vnks/v2",
         "https://nks.apigw.ntruss.com/vnks/sgn-v2",
         "https://nks.apigw.ntruss.com/vnks/jpn-v2"]) := by
  refine ⟨?_, ?_, ?_⟩
  · intro hf
    have := (strings.Contains_iff apiURL "fin-ntruss.com").mpr hf
    simp only [resolveNKSBaseURLs, this, if_true]
  · intro hf hg
    have h1 := (strings.Contains_false_iff apiURL "fin-ntruss.com").mpr hf
    have h2 := (strings.Contains_iff apiURL "gov-ntruss.com").mpr hg
    simp [resolveNKSBaseURLs, h1, h2]
  · intro hf hg
    have h1 := (strings.Contains_false_iff apiURL "fin-ntruss.com").mpr hf
    have h2 := (strings.Contains_false_iff apiURL "gov-ntruss.com").mpr hg
    simp [resolveNKSBaseURLs, h1, h2]

end ncp

/-! ## The signer -/

namespace sha256

theorem State.length_bytes (s : State) : s.bytes.length = 32 := by
  simp [State.bytes, be32]

theorem length_Sum256 (msg : List Nat) : (Sum256 msg).length = 32 :=
  State.length_bytes _

end sha256

namespace hmac

theorem length_Sum (key msg : List Nat) : (Sum key msg).length = 32 :=
  sha256.length_Sum256 _

end hmac

namespace base64

theorem length_encode (src : List Nat) : (encode src).length = 4 * ((src.length + 2) / 3) := by
  induction src using encode.induct with
  | case1 => rfl
  | case2 a => simp [encode]
  | case3 a b => simp [encode]
  | case4 a b c rest ih =>
    rw [encode]
    simp only [List.length_cons, ih]
    omega

theorem sextet_ascii (n : Nat) : (sextet n).val.toNat < 128 := by
  have h : ∀ i, i < 64 → (encodeStd.getD i 'A').val.toNat < 128 := by decide
  exact h (n % 64) (Nat.mod_lt _ (by decide))

theorem encode_ascii (src : List Nat) : ∀ c ∈ encode src, c.val.toNat < 128 := by
  have hpad : ('=' : Char).val.toNat < 128 := by decide
  induction src using encode.induct with
  | case1 => intro c hc; cases hc
  | case2 a =>
    intro c hc
    simp only [encode, List.mem_cons, List.mem_singleton, List.not_mem_nil, or_false] at hc
    rcases hc with rfl | rfl | rfl | rfl
    · exact sextet_ascii _
    · exact sextet_ascii _
    · exact hpad
    · exact hpad
  | case3 a b =>
    intro c hc
    simp only [encode, List.mem_cons, List.mem_singleton, List.not_mem_nil, or_false] at hc
    rcases hc with rfl | rfl | rfl | rfl
    · exact sextet_ascii _
    · exact sextet_ascii _
    · exact sextet_ascii _
    · exact hpad
  | case4 a b c rest ih =>
    intro x hx
    rw [encode] at hx
    simp only [List.mem_cons] at hx
    rcases hx with rfl | rfl | rfl | rfl | hx
    · exact sextet_ascii _
    · exact sextet_ascii _
    · exact sextet_ascii _
    · exact sextet_ascii _
    · exact ih x hx

end base64

theorem length_bytesOf_ascii (cs : List Char) (h : ∀ c ∈ cs, c.val.toNat < 128) :
    (bytesOf ⟨cs⟩).length = cs.length := by
  induction cs with
  | nil => rfl
  | cons c rest ih =>
    have hc : c.val.toNat < 128 := h c (List.mem_cons_self _ _)
    have hr := ih (fun x hx => h x (List.mem_cons_of_mem _ hx))
    simp only [bytesOf, List.flatMap_cons, List.length_append, List.length_cons] at hr ⊢
    rw [hr]
    simp [utf8EncodeChar, hc]
    omega

namespace ncp

set_option maxRecDepth 1000000 in
/-- The model of the standard library agrees with the reference implementation on
the inputs of the repository's test "signature with query". -/
theorem GenerateHMACSignature_test_vector :
    GenerateHMACSignature "GET" "/v1/cluster" "regionCode=KR" "1234567890" "test-key"
      "test-secret" = "PsEd392I1ZDg09awkhZGiyz8eApR9rLpEhMzLUM2zvE=" := by
  decide

/-- C8: the signature is the padded standard-alphabet base64 text of HMAC-SHA256,
keyed with the secret key, over the message `{method} {url}\n{timestamp}\n{accessKey}`,
where `url` is `uri` when the query is empty and `uri + "?" + query` otherwise; and that
message is the specification's newline-joined canonical message. -/
theorem GenerateHMACSignature_spec
    (method uri query timestamp accessKey secretKey : String) :
    GenerateHMACSignature method uri query timestamp accessKey secretKey
      = base64.EncodeToString (hmac.Sum (bytesOf secretKey)
          (bytesOf (method ++ " " ++ (if query = "" then uri else uri ++ "?" ++ query)
            ++ "\n" ++ timestamp ++ "\n" ++ accessKey))) ∧
    specCanonicalMessage method uri query timestamp accessKey
      = method ++ " " ++ (if query = "" then uri else uri ++ "?" ++ query)
          ++ "\n" ++ timestamp ++ "\n" ++ accessKey := by
  constructor
  · unfold GenerateHMACSignature
    have hm : ∀ url : String,
        fmt.Sprintf "%s %s\n%s\n%s" [method, url, timestamp, accessKey]
          = method ++ " " ++ url ++ "\n" ++ timestamp ++ "\n" ++ accessKey := by
      intro url
      apply String.ext
      simp [fmt.Sprintf, fmt.sprintfAux]
    by_cases hq : query = ""
    · simp only [hq, ne_eq, not_true_eq_false, if_false, if_true, hm]
    · simp only [hq, ne_eq, not_false_eq_true, if_true, if_false, hm]
  · unfold specCanonicalMessage
    apply String.ext
    simp [strings.Join, String.data_append, List.append_assoc]

/-- C9: whatever the six inputs, the signature has exactly 44 characters, which are
44 bytes, and is not the empty string. -/
theorem GenerateHMACSignature_length
    (method uri query timestamp accessKey secretKey : String) :
    (GenerateHMACSignature method uri query timestamp accessKey secretKey).length = 44 ∧
    (bytesOf (GenerateHMACSignature method uri query timestamp accessKey secretKey)).length
      = 44 ∧
    GenerateHMACSignature method uri query timestamp accessKey secretKey ≠ "" := by
  have hlen : ∀ key msg : List Nat, (base64.encode (hmac.Sum key msg)).length = 44 := by
    intro key msg
    rw [base64.length_encode, hmac.length_Sum]
  have h1 : (GenerateHMACSignature method uri query timestamp accessKey secretKey).length
      = 44 := by
    unfold GenerateHMACSignature base64.EncodeToString
    exact hlen _ _
  refine ⟨h1, ?_, ?_⟩
  · unfold GenerateHMACSignature base64.EncodeToString
    rw [length_bytesOf_ascii _ (base64.encode_ascii _)]
    exact hlen _ _
  · intro h0
    rw [h0] at h1
    exact absurd h1 (by decide)

end ncp

/-! ## The signer: URL decomposition -/

namespace strings

theorem indexFrom_char (c : Char) (pre post : List Char) (i : Nat) (h : c ∉ pre) :
    indexFrom [c] (pre ++ c :: post) i = ((i + pre.length : Nat) : Int) := by
  induction pre generalizing i with
  | nil => simp [indexFrom, List.isPrefixOf]
  | cons x xs ih =>
    simp only [List.mem_cons, not_or] at h
    have hx : (c == x) = false := by simpa using h.1
    have hp : List.isPrefixOf [c] (x :: (xs ++ c :: post)) = false := by
      simp [List.isPrefixOf, hx]
    rw [List.cons_append, indexFrom, hp]
    simp only [Bool.false_eq_true, if_false]
    rw [ih (i + 1) h.2]
    simp only [List.length_cons]
    congr 1
    omega

theorem indexFrom_char_none (c : Char) (l : List Char) (i : Nat) (h : c ∉ l) :
    indexFrom [c] l i = -1 := by
  induction l generalizing i with
  | nil => simp [indexFrom]
  | cons x xs ih =>
    simp only [List.mem_cons, not_or] at h
    have hx : (c == x) = false := by simpa using h.1
    have hp : List.isPrefixOf [c] (x :: xs) = false := by
      simp [List.isPrefixOf, hx]
    rw [indexFrom, hp]
    simp only [Bool.false_eq_true, if_false]
    exact ih (i + 1) h.2

theorem indexFrom_sep (pre rest : List Char) (i : Nat) (h : '/' ∉ pre) :
    indexFrom [':', '/', '/'] (pre ++ ':' :: '/' :: '/' :: rest) i
      = ((i + pre.length : Nat) : Int) := by
  induction pre generalizing i with
  | nil => simp [indexFrom, List.isPrefixOf]
  | cons x xs ih =>
    simp only [List.mem_cons, not_or] at h
    have hp : List.isPrefixOf [':', '/', '/'] (x :: (xs ++ ':' :: '/' :: '/' :: rest)) = false := by
      cases xs with
      | nil => simp [List.isPrefixOf]
      | cons y ys =>
        have hy : ¬ ('/' = y) := by
          have := h.2
          simp only [List.mem_cons, not_or] at this
          exact this.1
        simp [List.isPrefixOf, hy]
    rw [List.cons_append, indexFrom, hp]
    simp only [Bool.false_eq_true, if_false]
    rw [ih (i + 1) h.2]
    simp only [List.length_cons]
    congr 1
    omega

end strings

namespace ncp

theorem ExtractURI_of_data (url : String) (scheme host path tail : List Char)
    (hurl : url.data = scheme ++ ':' :: '/' :: '/' :: (host ++ (path ++ tail)))
    (hs : '/' ∉ scheme) (hh : '/' ∉ host) (hp : ∃ p, path = '/' :: p) (hq : '?' ∉ path)
    (ht : tail = [] ∨ ∃ q, tail = '?' :: q) :
    ExtractURI url = ⟨path⟩ := by
  obtain ⟨p, rfl⟩ := hp
  have i1 : strings.Index url "://" = ((scheme.length : Nat) : Int) := by
    unfold strings.Index
    rw [hurl]
    have := strings.indexFrom_sep scheme (host ++ ('/' :: p ++ tail)) 0 hs
    simpa using this
  have e1 : (if strings.Index url "://" ≠ -1 then sliceFrom url (strings.Index url "://" + 3)
      else url) = ⟨host ++ ('/' :: p ++ tail)⟩ := by
    have hne : strings.Index url "://" ≠ -1 := by rw [i1]; omega
    rw [if_pos hne, i1]
    unfold sliceFrom
    rw [hurl]
    have h3 : ((scheme.length : Int) + 3).toNat = scheme.length + 3 := by omega
    rw [h3]
    congr 1
    rw [List.drop_append_eq_append_drop]
    simp
  have i2 : strings.Index ⟨host ++ ('/' :: p ++ tail)⟩ "/" = ((host.length : Nat) : Int) := by
    unfold strings.Index
    have := strings.indexFrom_char '/' host (p ++ tail) 0 hh
    simpa using this
  have e2 : (if strings.Index ⟨host ++ ('/' :: p ++ tail)⟩ "/" ≠ -1
      then sliceFrom ⟨host ++ ('/' :: p ++ tail)⟩ (strings.Index ⟨host ++ ('/' :: p ++ tail)⟩ "/")
      else "/") = ⟨'/' :: p ++ tail⟩ := by
    have hne : strings.Index ⟨host ++ ('/' :: p ++ tail)⟩ "/" ≠ -1 := by rw [i2]; omega
    rw [if_pos hne, i2]
    unfold sliceFrom
    congr 1
    simp
  have e3 : (if strings.Index ⟨'/' :: p ++ tail⟩ "?" ≠ -1
      then sliceTo ⟨'/' :: p ++ tail⟩ (strings.Index ⟨'/' :: p ++ tail⟩ "?")
      else ⟨'/' :: p ++ tail⟩) = (⟨'/' :: p⟩ : String) := by
    rcases ht with rfl | ⟨q, rfl⟩
    · have i3 : strings.Index ⟨'/' :: p ++ []⟩ "?" = -1 := by
        unfold strings.Index
        have := strings.indexFrom_char_none '?' ('/' :: p) 0 hq
        simpa using this
      rw [i3]
      simp
    · have i3 : strings.Index ⟨'/' :: p ++ '?' :: q⟩ "?" = (((('/' :: p).length : Nat)) : Int) := by
        unfold strings.Index
        have := strings.indexFrom_char '?' ('/' :: p) q 0 hq
        simpa using this
      have hne : strings.Index ⟨'/' :: p ++ '?' :: q⟩ "?" ≠ -1 := by rw [i3]; omega
      rw [if_pos hne, i3]
      unfold sliceTo
      congr 1
      simp
  simp only [ExtractURI, e1, e2, e3]

end ncp

namespace ncp

theorem ExtractURI_root_of_data (url : String) (scheme rest : List Char)
    (hurl : url.data = scheme ++ ':' :: '/' :: '/' :: rest)
    (hs : '/' ∉ scheme) (hr : '/' ∉ rest) :
    ExtractURI url = "/" := by
  have i1 : strings.Index url "://" = ((scheme.length : Nat) : Int) := by
    unfold strings.Index
    rw [hurl]
    have := strings.indexFrom_sep scheme rest 0 hs
    simpa using this
  have e1 : (if strings.Index url "://" ≠ -1 then sliceFrom url (strings.Index url "://" + 3)
      else url) = ⟨rest⟩ := by
    have hne : strings.Index url "://" ≠ -1 := by rw [i1]; omega
    rw [if_pos hne, i1]
    unfold sliceFrom
    rw [hurl]
    have h3 : ((scheme.length : Int) + 3).toNat = scheme.length + 3 := by omega
    rw [h3]
    congr 1
    rw [List.drop_append_eq_append_drop]
    simp
  have i2 : strings.Index ⟨rest⟩ "/" = -1 := by
    unfold strings.Index
    exact strings.indexFrom_char_none '/' rest 0 hr
  have e2 : (if strings.Index ⟨rest⟩ "/" ≠ -1
      then sliceFrom ⟨rest⟩ (strings.Index ⟨rest⟩ "/") else "/") = "/" := by
    rw [i2]
    simp
  have e3 : (if strings.Index "/" "?" ≠ -1 then sliceTo "/" (strings.Index "/" "?") else "/")
      = "/" := by decide
  simp only [ExtractURI, e1, e2, e3]

theorem ExtractQueryString_of_data (url : String) (pre q : List Char)
    (hurl : url.data = pre ++ '?' :: q) (h : '?' ∉ pre) :
    ExtractQueryString url = ⟨q⟩ := by
  have i1 : strings.Index url "?" = ((pre.length : Nat) : Int) := by
    unfold strings.Index
    rw [hurl]
    have := strings.indexFrom_char '?' pre q 0 h
    simpa using this
  have hne : strings.Index url "?" ≠ -1 := by rw [i1]; omega
  unfold ExtractQueryString
  rw [if_pos hne, i1]
  unfold sliceFrom
  rw [hurl]
  have h1 : ((pre.length : Int) + 1).toNat = pre.length + 1 := by omega
  rw [h1]
  congr 1
  rw [List.drop_append_eq_append_drop]
  simp

theorem ExtractQueryString_none (url : String) (h : '?' ∉ url.data) :
    ExtractQueryString url = "" := by
  have i1 : strings.Index url "?" = -1 := by
    unfold strings.Index
    exact strings.indexFrom_char_none '?' url.data 0 h
  unfold ExtractQueryString
  rw [i1]
  simp

/-- C10: for a URL `scheme://host path` with an optional `?query`, where scheme and
host contain neither `/` nor `?` and the path begins with `/` and contains no `?`,
`ExtractURI` returns exactly the path and `ExtractQueryString` exactly the query (the
empty string without a `?`), so `uri + "?" + query` is everything after the host; and
when nothing after `://` contains a `/`, the URI is `/`. -/
theorem ExtractURI_ExtractQueryString_spec (scheme host path query : String)
    (hs1 : '/' ∉ scheme.data) (hs2 : '?' ∉ scheme.data)
    (hh1 : '/' ∉ host.data) (hh2 : '?' ∉ host.data)
    (hp : ∃ p, path.data = '/' :: p) (hq : '?' ∉ path.data) :
    ExtractURI (scheme ++ "://" ++ host ++ path) = path ∧
    ExtractQueryString (scheme ++ "://" ++ host ++ path) = "" ∧
    ExtractURI (scheme ++ "://" ++ host ++ path ++ "?" ++ query) = path ∧
    ExtractQueryString (scheme ++ "://" ++ host ++ path ++ "?" ++ query) = query ∧
    ExtractURI (scheme ++ "://" ++ host ++ path ++ "?" ++ query) ++ "?"
        ++ ExtractQueryString (scheme ++ "://" ++ host ++ path ++ "?" ++ query)
      = path ++ "?" ++ query ∧
    (∀ rest : String, '/' ∉ rest.data → ExtractURI (scheme ++ "://" ++ host ++ rest) = "/") := by
  have hsep : "://".data = [':', '/', '/'] := rfl
  have hqm : "?".data = ['?'] := rfl
  have u1 : ExtractURI (scheme ++ "://" ++ host ++ path) = path :=
    ExtractURI_of_data _ scheme.data host.data path.data []
      (by simp [String.data_append, hsep]) hs1 hh1 hp hq (Or.inl rfl)
  have q1 : ExtractQueryString (scheme ++ "://" ++ host ++ path) = "" := by
    apply ExtractQueryString_none
    simp only [String.data_append, hsep, List.mem_append, List.mem_cons, List.not_mem_nil,
      or_false, not_or]
    exact ⟨⟨⟨hs2, by decide, by decide, by decide⟩, hh2⟩, hq⟩
  have u2 : ExtractURI (scheme ++ "://" ++ host ++ path ++ "?" ++ query) = path :=
    ExtractURI_of_data _ scheme.data host.data path.data ('?' :: query.data)
      (by simp [String.data_append, hsep, hqm]) hs1 hh1 hp hq (Or.inr ⟨_, rfl⟩)
  have q2 : ExtractQueryString (scheme ++ "://" ++ host ++ path ++ "?" ++ query) = query := by
    refine ExtractQueryString_of_data _ (scheme.data ++ [':', '/', '/'] ++ host.data ++ path.data)
      query.data (by simp [String.data_append, hsep, hqm]) ?_
    simp only [List.mem_append, List.mem_cons, List.not_mem_nil, or_false, not_or]
    exact ⟨⟨⟨hs2, by decide, by decide, by decide⟩, hh2⟩, hq⟩
  refine ⟨u1, q1, u2, q2, by rw [u2, q2], ?_⟩
  intro rest hr
  refine ExtractURI_root_of_data _ scheme.data (host.data ++ rest.data)
    (by simp [String.data_append, hsep]) hs1 ?_
  simp only [List.mem_append, not_or]
  exact ⟨hh1, hr⟩

/-- The URL of the repository's tests, with and without its query. -/
theorem ExtractURI_ExtractQueryString_spec_witness :
    ExtractURI "https://fin-ncloud.apigw.fin-ntruss.com/v1/cluster?regionCode=KR"
      = "/v1/cluster" ∧
    ExtractQueryString "https://fin-ncloud.apigw.fin-ntruss.com/v1/cluster?regionCode=KR"
      = "regionCode=KR" :=
  ⟨(ExtractURI_ExtractQueryString_spec "https" "fin-ncloud.apigw.fin-ntruss.com" "/v1/cluster"
      "regionCode=KR" (by decide) (by decide) (by decide) (by decide) ⟨_, rfl⟩ (by decide)).2.2.1,
   (ExtractURI_ExtractQueryString_spec "https" "fin-ncloud.apigw.fin-ntruss.com" "/v1/cluster"
      "regionCode=KR" (by decide) (by decide) (by decide) (by decide) ⟨_, rfl⟩
      (by decide)).2.2.2.1⟩

end ncp

/-! ## The repository's table tests, replayed on the embedding -/

namespace ncp

/-- The cases of `TestExtractURI`. -/
theorem ExtractURI_table :
    ExtractURI "https://fin-ncloud.apigw.fin-ntruss.com/v1/cluster" = "/v1/cluster" ∧
    ExtractURI "https://fin-ncloud.apigw.fin-ntruss.com/v1/cluster?regionCode=KR"
      = "/v1/cluster" ∧
    ExtractURI "/v1/cluster" = "/v1/cluster" ∧
    ExtractURI "https://example.com/" = "/" := by
  decide

/-- The cases of `TestExtractQueryString`. -/
theorem ExtractQueryString_table :
    ExtractQueryString "https://example.com/path?key=value&region=KR" = "key=value&region=KR" ∧
    ExtractQueryString "https://example.com/path" = "" ∧
    ExtractQueryString "https://example.com/path?" = "" := by
  decide

/-- The cases of `TestResolveNKSBaseURLs`. -/
theorem resolveNKSBaseURLs_table :
    resolveNKSBaseURLs "https://ncloud.apigw.ntruss.com" =
      ["https://nks.apigw.ntruss.com/vnks/v2", "https://nks.apigw.ntruss.com/vnks/sgn-v2",
       "https://nks.apigw.ntruss.com/vnks/jpn-v2"] ∧
    resolveNKSBaseURLs "https://fin-ncloud.apigw.fin-ntruss.com" =
      ["https://nks.apigw.fin-ntruss.com/nks/v2"] ∧
    resolveNKSBaseURLs "https://ncloud.apigw.gov-ntruss.com" =
      ["https://nks.apigw.gov-ntruss.com/vnks/v2",
       "https://nks.apigw.gov-ntruss.com/vnks/krs-v2"] := by
  decide

end ncp

namespace kubeconfig

/-- The cases of `TestManager_FindContext` and `TestManager_FindContextByCluster`. -/
theorem FindContext_table :
    FindContext ⟨"/k", ⟨[("my-cluster-user@my-cluster", ⟨"my-cluster", "u"⟩)], ""⟩⟩
      "my-cluster-user@my-cluster" = .ok "my-cluster-user@my-cluster" ∧
    FindContext ⟨"/k", ⟨[("my-cluster-user@my-cluster", ⟨"my-cluster", "u"⟩)], ""⟩⟩
      "my-cluster" = .ok "my-cluster-user@my-cluster" ∧
    FindContext ⟨"/k", ⟨[("my-cluster-user@my-cluster", ⟨"my-cluster", "u"⟩)], ""⟩⟩
      "nonexistent" = .error "context not found: nonexistent" ∧
    FindContextByCluster ⟨"/k", ⟨[("my-ctx", ⟨"my-nks-cluster", "u"⟩)], ""⟩⟩
      "my-nks-cluster" = "my-ctx" ∧
    FindContextByCluster ⟨"/k", ⟨[("my-ctx", ⟨"my-nks-cluster", "u"⟩)], ""⟩⟩
      "nonexistent" = "" :=
  ⟨rfl, rfl, rfl, rfl, rfl⟩

end kubeconfig

/-! ## The credential-exchange collaborator: argument contract -/

namespace ncp

theorem UpdateKubeconfig_commands {FS : Type} (host : Host FS) (a : Authenticator)
    (cluster : Cluster) (kubeconfigPath : String) (overwrite : Bool) (fs : FS) :
    (UpdateKubeconfig host a cluster kubeconfigPath overwrite fs).commands
      = if (host.MkdirAll (host.Dir kubeconfigPath) fs).2 = none
        then [(a.binaryPath, updateKubeconfigArgs a cluster kubeconfigPath overwrite)]
        else [] := by
  cases hmk : (host.MkdirAll (host.Dir kubeconfigPath) fs).2 with
  | some e => simp [UpdateKubeconfig, hmk]
  | none =>
    cases hout : (host.CombinedOutput a.binaryPath
        (updateKubeconfigArgs a cluster kubeconfigPath overwrite)
        (host.MkdirAll (host.Dir kubeconfigPath) fs).1).2.2 with
    | some e => simp [UpdateKubeconfig, hmk, hout]
    | none => simp [UpdateKubeconfig, hmk, hout]

end ncp

/-! ## The sync orchestrator: the reconcile loop -/

namespace cmd

open ncp kubeconfig

theorem sprintf_syncWarning (cluster : Cluster) (err : String) :
    fmt.Sprintf "  Warning: failed to sync %s: %v\n" [cluster.Name, err]
      = syncWarning (cluster, err) := by
  apply String.ext
  simp [fmt.Sprintf, fmt.sprintfAux, syncWarning, String.data_append]

theorem syncStep_matched {FS : Type} (w : World FS) (a : Authenticator) (m : Manager)
    (acc : SyncAcc FS) (c : Cluster) (h : unmatched m c = false) :
    syncStep w a m acc c = { acc with skipCount := acc.skipCount + 1 } := by
  have hne : FindContextByCluster m c.Name ≠ "" := by
    simpa [unmatched] using h
  simp only [syncStep, hne, ne_eq, not_false_eq_true, if_true]

theorem syncStep_failed {FS : Type} (w : World FS) (a : Authenticator) (m : Manager)
    (acc : SyncAcc FS) (c : Cluster) (h : unmatched m c = true) (e : String)
    (he : (UpdateKubeconfig w.host a c w.kubeconfigPath false acc.fs).err = some e) :
    syncStep w a m acc c =
      { acc with
        fs := (UpdateKubeconfig w.host a c w.kubeconfigPath false acc.fs).fs,
        stderr := acc.stderr ++ [syncWarning (c, e)],
        updates := acc.updates ++ [c],
        commands := acc.commands
          ++ (UpdateKubeconfig w.host a c w.kubeconfigPath false acc.fs).commands } := by
  have heq : FindContextByCluster m c.Name = "" := by
    simpa [unmatched] using h
  simp only [syncStep, heq, ne_eq, not_true_eq_false, if_false, he, sprintf_syncWarning]

theorem syncStep_synced {FS : Type} (w : World FS) (a : Authenticator) (m : Manager)
    (acc : SyncAcc FS) (c : Cluster) (h : unmatched m c = true)
    (he : (UpdateKubeconfig w.host a c w.kubeconfigPath false acc.fs).err = none) :
    syncStep w a m acc c =
      { acc with
        fs := (UpdateKubeconfig w.host a c w.kubeconfigPath false acc.fs).fs,
        syncCount := acc.syncCount + 1,
        updates := acc.updates ++ [c],
        commands := acc.commands
          ++ (UpdateKubeconfig w.host a c w.kubeconfigPath false acc.fs).commands } := by
  have heq : FindContextByCluster m c.Name = "" := by
    simpa [unmatched] using h
  simp only [syncStep, heq, ne_eq, not_true_eq_false, if_false, he]

theorem UpdateKubeconfig_commands_sublist {FS : Type} (w : World FS) (a : Authenticator)
    (c : Cluster) (fs : FS) :
    (UpdateKubeconfig w.host a c w.kubeconfigPath false fs).commands.Sublist
      [commandFor w a c] := by
  rw [UpdateKubeconfig_commands]
  by_cases hmk : (w.host.MkdirAll (w.host.Dir w.kubeconfigPath) fs).2 = none
  · rw [if_pos hmk]; exact List.Sublist.refl _
  · rw [if_neg hmk]; exact List.nil_sublist _

/-- What the reconcile loop does to its state, whatever the collaborator answers. -/
theorem foldl_syncStep {FS : Type} (w : World FS) (a : Authenticator) (m : Manager)
    (cs : List Cluster) (acc : SyncAcc FS) :
    (cs.foldl (syncStep w a m) acc).updates = acc.updates ++ cs.filter (unmatched m) ∧
    (cs.foldl (syncStep w a m) acc).skipCount + (cs.filter (unmatched m)).length
      = acc.skipCount + cs.length ∧
    (∃ failed : List (Cluster × String),
      (failed.map Prod.fst).Sublist (cs.filter (unmatched m)) ∧
      (cs.foldl (syncStep w a m) acc).stderr = acc.stderr ++ failed.map syncWarning ∧
      (cs.foldl (syncStep w a m) acc).syncCount + failed.length
        = acc.syncCount + (cs.filter (unmatched m)).length) ∧
    (∃ ran : List (String × List String),
      ran.Sublist ((cs.filter (unmatched m)).map (commandFor w a)) ∧
      (cs.foldl (syncStep w a m) acc).commands = acc.commands ++ ran) := by
  induction cs generalizing acc with
  | nil => exact ⟨by simp, by simp, ⟨[], by simp⟩, ⟨[], by simp⟩⟩
  | cons c rest ih =>
    rw [List.foldl_cons]
    cases hu : unmatched m c with
    | false =>
      rw [syncStep_matched w a m acc c hu]
      obtain ⟨h1, h2, ⟨failed, hf1, hf2, hf3⟩, ⟨ran, hr1, hr2⟩⟩ :=
        ih { acc with skipCount := acc.skipCount + 1 }
      simp only [List.filter_cons, hu, Bool.false_eq_true, if_false]
      refine ⟨h1, ?_, ⟨failed, hf1, hf2, hf3⟩, ⟨ran, hr1, hr2⟩⟩
      simp only [List.length_cons] at h2 ⊢
      omega
    | true =>
      simp only [List.filter_cons, hu, if_true, List.map_cons, List.length_cons]
      have hsub := UpdateKubeconfig_commands_sublist w a c acc.fs
      cases he : (UpdateKubeconfig w.host a c w.kubeconfigPath false acc.fs).err with
      | some e =>
        rw [syncStep_failed w a m acc c hu e he]
        obtain ⟨h1, h2, ⟨failed, hf1, hf2, hf3⟩, ⟨ran, hr1, hr2⟩⟩ := ih
          { acc with
            fs := (UpdateKubeconfig w.host a c w.kubeconfigPath false acc.fs).fs,
            stderr := acc.stderr ++ [syncWarning (c, e)],
            updates := acc.updates ++ [c],
            commands := acc.commands
              ++ (UpdateKubeconfig w.host a c w.kubeconfigPath false acc.fs).commands }
        simp only [List.append_assoc, List.singleton_append] at h1 h2 hf2 hf3 hr2
        refine ⟨h1, by omega, ⟨(c, e) :: failed, ?_, ?_, ?_⟩, ⟨_ ++ ran, ?_, hr2⟩⟩
        · exact List.Sublist.cons₂ _ hf1
        · simpa using hf2
        · simp only [List.length_cons]; omega
        · exact List.Sublist.append hsub hr1
      | none =>
        rw [syncStep_synced w a m acc c hu he]
        obtain ⟨h1, h2, ⟨failed, hf1, hf2, hf3⟩, ⟨ran, hr1, hr2⟩⟩ := ih
          { acc with
            fs := (UpdateKubeconfig w.host a c w.kubeconfigPath false acc.fs).fs,
            syncCount := acc.syncCount + 1,
            updates := acc.updates ++ [c],
            commands := acc.commands
              ++ (UpdateKubeconfig w.host a c w.kubeconfigPath false acc.fs).commands }
        simp only [List.append_assoc, List.singleton_append] at h1 h2 hf2 hf3 hr2
        refine ⟨h1, by omega, ⟨failed, ?_, hf2, by omega⟩, ⟨_ ++ ran, ?_, hr2⟩⟩
        · exact List.Sublist.cons _ hf1
        · exact List.Sublist.append hsub hr1

end cmd

namespace cmd

open ncp kubeconfig

/-- The state the reconcile loop of `runSync` ends in, from the store loaded first. -/
theorem syncClusters_loop {FS : Type} (w : World FS) (a : Authenticator)
    (clusters : List Cluster) (fs : FS) (m0 : Manager)
    (h0 : NewManager w.lib w.kubeconfigPath fs = .ok m0) :
    (syncClusters w a clusters fs).updates
      = (clusters.foldl (syncStep w a m0) ⟨fs, 0, 0, [], [], []⟩).updates ∧
    (syncClusters w a clusters fs).stderr
      = (clusters.foldl (syncStep w a m0) ⟨fs, 0, 0, [], [], []⟩).stderr ∧
    (syncClusters w a clusters fs).commands
      = (clusters.foldl (syncStep w a m0) ⟨fs, 0, 0, [], [], []⟩).commands ∧
    (syncClusters w a clusters fs).fs
      = (clusters.foldl (syncStep w a m0) ⟨fs, 0, 0, [], [], []⟩).fs := by
  unfold syncClusters
  simp only [h0]
  by_cases hs : (clusters.foldl (syncStep w a m0) ⟨fs, 0, 0, [], [], []⟩).syncCount > 0
  · simp only [hs, if_true]
    cases hre : NewManager w.lib w.kubeconfigPath
        (clusters.foldl (syncStep w a m0) ⟨fs, 0, 0, [], [], []⟩).fs with
    | error e => exact ⟨rfl, rfl, rfl, rfl⟩
    | ok m' => exact ⟨rfl, rfl, rfl, rfl⟩
  · simp only [hs, if_false]
    exact ⟨trivial, trivial, trivial, trivial⟩

/-- How `runSync` ends after the reconcile loop: with the display, from the store it
reloads when something was synced, or with the error of that reload. -/
theorem syncClusters_end {FS : Type} (w : World FS) (a : Authenticator)
    (clusters : List Cluster) (fs : FS) (m0 : Manager)
    (h0 : NewManager w.lib w.kubeconfigPath fs = .ok m0) :
    ((clusters.foldl (syncStep w a m0) ⟨fs, 0, 0, [], [], []⟩).syncCount = 0 →
      (syncClusters w a clusters fs).err = none ∧
      (syncClusters w a clusters fs).stdout
        = summaryLines 0 (clusters.foldl (syncStep w a m0) ⟨fs, 0, 0, [], [], []⟩).skipCount
            clusters.length ++ clusters.map (displayLine m0)) ∧
    (∀ m', 0 < (clusters.foldl (syncStep w a m0) ⟨fs, 0, 0, [], [], []⟩).syncCount →
      NewManager w.lib w.kubeconfigPath (syncClusters w a clusters fs).fs = .ok m' →
      (syncClusters w a clusters fs).err = none ∧
      (syncClusters w a clusters fs).stdout
        = summaryLines (clusters.foldl (syncStep w a m0) ⟨fs, 0, 0, [], [], []⟩).syncCount
            (clusters.foldl (syncStep w a m0) ⟨fs, 0, 0, [], [], []⟩).skipCount
            clusters.length ++ clusters.map (displayLine m')) ∧
    (∀ e, 0 < (clusters.foldl (syncStep w a m0) ⟨fs, 0, 0, [], [], []⟩).syncCount →
      NewManager w.lib w.kubeconfigPath (syncClusters w a clusters fs).fs = .error e →
      (syncClusters w a clusters fs).err
        = some (fmt.Sprintf "failed to read kubeconfig: %w" [e]) ∧
      (syncClusters w a clusters fs).stdout
        = summaryLines (clusters.foldl (syncStep w a m0) ⟨fs, 0, 0, [], [], []⟩).syncCount
            (clusters.foldl (syncStep w a m0) ⟨fs, 0, 0, [], [], []⟩).skipCount
            clusters.length) := by
  have hfs := (syncClusters_loop w a clusters fs m0 h0).2.2.2
  refine ⟨?_, ?_, ?_⟩
  · intro hz
    unfold syncClusters
    simp only [h0, hz, gt_iff_lt, Nat.lt_irrefl, if_false]
    exact ⟨trivial, trivial⟩
  · intro m' hs hre
    rw [hfs] at hre
    unfold syncClusters
    simp only [h0, gt_iff_lt, hs, if_true, hre]
    exact ⟨trivial, trivial⟩
  · intro e hs hre
    rw [hfs] at hre
    unfold syncClusters
    simp only [h0, gt_iff_lt, hs, if_true, hre]
    exact ⟨trivial, trivial⟩

theorem syncClusters_load_error {FS : Type} (w : World FS) (a : Authenticator)
    (clusters : List Cluster) (fs : FS) (e : String)
    (h : NewManager w.lib w.kubeconfigPath fs = .error e) :
    (syncClusters w a clusters fs).updates = [] ∧
    (syncClusters w a clusters fs).commands = [] ∧
    (syncClusters w a clusters fs).err ≠ none ∧
    (syncClusters w a clusters fs).fs = fs := by
  simp [syncClusters, h]

/-- The clusters handed to `UpdateKubeconfig`, and the commands run, by a sync run
whose store loaded. -/
theorem syncClusters_updates {FS : Type} (w : World FS) (a : Authenticator)
    (clusters : List Cluster) (fs : FS) (m0 : Manager)
    (h0 : NewManager w.lib w.kubeconfigPath fs = .ok m0) :
    (syncClusters w a clusters fs).updates = clusters.filter (unmatched m0) ∧
    (syncClusters w a clusters fs).commands.Sublist
      ((clusters.filter (unmatched m0)).map (commandFor w a)) := by
  obtain ⟨hu, -, hc, -⟩ := syncClusters_loop w a clusters fs m0 h0
  obtain ⟨h1, -, -, ⟨ran, hr1, hr2⟩⟩ :=
    foldl_syncStep w a m0 clusters ⟨fs, 0, 0, [], [], []⟩
  simp only [List.nil_append] at h1 hr2
  exact ⟨by rw [hu, h1], by rw [hc, hr2]; exact hr1⟩

end cmd

/-! ## The argument contract on the sync path -/

namespace ncp

/-- C11 as stated fails: with the profile `--overwrite` the argument vector of the sync
path, built with `overwrite = false`, contains the string `--overwrite`, as the value of
`--profile`. -/
theorem UpdateKubeconfig_overwrite_as_value :
    "--overwrite" ∈ updateKubeconfigArgs ⟨"/usr/local/bin/ncp-iam-authenticator", "--overwrite"⟩
      ⟨"uuid-1", "alpha", "KR", "RUNNING"⟩ "/home/u/.kube/config" false ∧
    (UpdateKubeconfig memHost ⟨"/usr/local/bin/ncp-iam-authenticator", "--overwrite"⟩
        ⟨"uuid-1", "alpha", "KR", "RUNNING"⟩ "/home/u/.kube/config" false []).commands
      = [("/usr/local/bin/ncp-iam-authenticator",
          ["update-kubeconfig", "--region", "KR", "--clusterUuid", "uuid-1",
           "--clusterName", "alpha", "--kubeconfig", "/home/u/.kube/config",
           "--profile", "--overwrite"])] := by
  decide

/-- C11, amended: the argument vector is exactly the nine fixed elements, followed by
`--profile P` if and only if the profile is non-empty, followed by `--overwrite` if and
only if the overwrite argument is true; every command `UpdateKubeconfig` runs is the
binary with that vector, and it runs it whenever the directory could be made; with
`overwrite = false`, as on the sync path, the string `--overwrite` occurs in the
vector only when the region, the UUID, the name, the path or the profile is that string. -/
theorem UpdateKubeconfig_args {FS : Type} (host : Host FS) (a : Authenticator)
    (cluster : Cluster) (kubeconfigPath : String) (overwrite : Bool) (fs : FS) :
    updateKubeconfigArgs a cluster kubeconfigPath overwrite
      = ["update-kubeconfig", "--region", cluster.Region, "--clusterUuid", cluster.UUID,
          "--clusterName", cluster.Name, "--kubeconfig", kubeconfigPath]
        ++ (if a.profile ≠ "" then ["--profile", a.profile] else [])
        ++ (if overwrite = true then ["--overwrite"] else []) ∧
    (∀ c ∈ (UpdateKubeconfig host a cluster kubeconfigPath overwrite fs).commands,
      c = (a.binaryPath, updateKubeconfigArgs a cluster kubeconfigPath overwrite)) ∧
    ((host.MkdirAll (host.Dir kubeconfigPath) fs).2 = none →
      (UpdateKubeconfig host a cluster kubeconfigPath overwrite fs).commands
        = [(a.binaryPath, updateKubeconfigArgs a cluster kubeconfigPath overwrite)]) ∧
    ("--overwrite" ∈ updateKubeconfigArgs a cluster kubeconfigPath false →
      cluster.Region = "--overwrite" ∨ cluster.UUID = "--overwrite" ∨
      cluster.Name = "--overwrite" ∨ kubeconfigPath = "--overwrite" ∨
      a.profile = "--overwrite") ∧
    (∀ (w : cmd.World FS) (clusters : List Cluster) (fs0 : FS),
      ∀ c ∈ (cmd.syncClusters w a clusters fs0).commands,
        ∃ cl ∈ clusters, c = (a.binaryPath, updateKubeconfigArgs a cl w.kubeconfigPath false)) := by
  refine ⟨?_, ?_, ?_, ?_, ?_⟩
  · unfold updateKubeconfigArgs
    by_cases hp : a.profile = "" <;> cases overwrite <;> simp [hp]
  · intro c hc
    rw [UpdateKubeconfig_commands] at hc
    by_cases hmk : (host.MkdirAll (host.Dir kubeconfigPath) fs).2 = none
    · rw [if_pos hmk] at hc
      simpa using hc
    · rw [if_neg hmk] at hc
      cases hc
  · intro hmk
    rw [UpdateKubeconfig_commands, if_pos hmk]
  · intro hmem
    unfold updateKubeconfigArgs at hmem
    have hne : ∀ s : String, s ∈ ["update-kubeconfig", "--region", "--clusterUuid",
        "--clusterName", "--kubeconfig", "--profile"] → "--overwrite" ≠ s := by decide
    by_cases hp : a.profile = ""
    · simp only [hp, ne_eq, not_true_eq_false, if_false, Bool.false_eq_true,
        List.mem_cons, List.mem_singleton, List.not_mem_nil, or_false] at hmem
      rcases hmem with h | h | h | h | h | h | h | h | h
      · exact absurd h (hne _ (by simp))
      · exact absurd h (hne _ (by simp))
      · exact Or.inl h.symm
      · exact absurd h (hne _ (by simp))
      · exact Or.inr (Or.inl h.symm)
      · exact absurd h (hne _ (by simp))
      · exact Or.inr (Or.inr (Or.inl h.symm))
      · exact absurd h (hne _ (by simp))
      · exact Or.inr (Or.inr (Or.inr (Or.inl h.symm)))
    · simp only [hp, ne_eq, not_false_eq_true, if_true, if_false, Bool.false_eq_true,
        List.mem_append, List.mem_cons, List.mem_singleton, List.not_mem_nil, or_false] at hmem
      rcases hmem with (h | h | h | h | h | h | h | h | h) | h | h
      · exact absurd h (hne _ (by simp))
      · exact absurd h (hne _ (by simp))
      · exact Or.inl h.symm
      · exact absurd h (hne _ (by simp))
      · exact Or.inr (Or.inl h.symm)
      · exact absurd h (hne _ (by simp))
      · exact Or.inr (Or.inr (Or.inl h.symm))
      · exact absurd h (hne _ (by simp))
      · exact Or.inr (Or.inr (Or.inr (Or.inl h.symm)))
      · exact absurd h (hne _ (by simp))
      · exact Or.inr (Or.inr (Or.inr (Or.inr h.symm)))
  · intro w clusters fs0 c hc
    cases h0 : kubeconfig.NewManager w.lib w.kubeconfigPath fs0 with
    | error e =>
      simp [cmd.syncClusters, h0] at hc
    | ok m0 =>
      rw [(cmd.syncClusters_loop w a clusters fs0 m0 h0).2.2.1] at hc
      obtain ⟨ran, hsub, hran⟩ := (cmd.foldl_syncStep w a m0 clusters ⟨fs0, 0, 0, [], [], []⟩).2.2.2
      rw [hran, List.nil_append] at hc
      obtain ⟨cl, hcl, rfl⟩ := List.mem_map.mp (hsub.subset hc)
      exact ⟨cl, (List.mem_filter.mp hcl).1, rfl⟩

end ncp

/-! ## The sync orchestrator: failures, duplicates -/

namespace cmd

open ncp kubeconfig

theorem UpdateKubeconfig_started_or_failed {FS : Type} (w : World FS) (a : Authenticator)
    (c : Cluster) (fs : FS) :
    (UpdateKubeconfig w.host a c w.kubeconfigPath false fs).commands = [commandFor w a c] ∨
    ((UpdateKubeconfig w.host a c w.kubeconfigPath false fs).commands = [] ∧
      ∃ e, (UpdateKubeconfig w.host a c w.kubeconfigPath false fs).err
        = some (fmt.Sprintf "failed to create kubeconfig directory: %w" [e])) := by
  cases hmk : (w.host.MkdirAll (w.host.Dir w.kubeconfigPath) fs).2 with
  | some e =>
    right
    exact ⟨by simp [UpdateKubeconfig, hmk], e, by simp [UpdateKubeconfig, hmk]⟩
  | none =>
    left
    rw [UpdateKubeconfig_commands, if_pos hmk]
    rfl

theorem materializations_mem {FS : Type} (w : World FS) (a : Authenticator)
    (cs : List Cluster) (fs : FS) :
    ∀ t ∈ materializations w a cs fs,
      t.1 ∈ cs ∧ ∃ fs', t.2 = UpdateKubeconfig w.host a t.1 w.kubeconfigPath false fs' := by
  induction cs generalizing fs with
  | nil => intro t ht; cases ht
  | cons c rest ih =>
    intro t ht
    rw [materializations, List.mem_cons] at ht
    rcases ht with rfl | ht
    · exact ⟨List.mem_cons_self _ _, fs, rfl⟩
    · obtain ⟨h1, h2⟩ := ih _ t ht
      exact ⟨List.mem_cons_of_mem _ h1, h2⟩

theorem materializations_clusters {FS : Type} (w : World FS) (a : Authenticator)
    (cs : List Cluster) (fs : FS) :
    (materializations w a cs fs).map Prod.fst = cs := by
  induction cs generalizing fs with
  | nil => rfl
  | cons c rest ih => rw [materializations, List.map_cons, ih]

theorem warningOfResult_failed {FS : Type} (c : Cluster) (r : UpdateResult FS) (e : String)
    (h : r.err = some e) : warningOfResult (c, r) = some (syncWarning (c, e)) := by
  simp only [warningOfResult, h, syncWarning]

theorem warningOfResult_synced {FS : Type} (c : Cluster) (r : UpdateResult FS)
    (h : r.err = none) : warningOfResult (c, r) = none := by
  simp only [warningOfResult, h]

/-- The reconcile loop in terms of the calls it makes: its warnings are those of the
failed calls, its count of synced clusters that of the calls without error, its
commands those the calls ran, and its file system the one the last call left. -/
theorem foldl_syncStep_calls {FS : Type} (w : World FS) (a : Authenticator) (m : Manager)
    (cs : List Cluster) (acc : SyncAcc FS) :
    (cs.foldl (syncStep w a m) acc).stderr
      = acc.stderr
        ++ (materializations w a (cs.filter (unmatched m)) acc.fs).filterMap warningOfResult ∧
    (cs.foldl (syncStep w a m) acc).syncCount
      = acc.syncCount
        + ((materializations w a (cs.filter (unmatched m)) acc.fs).filter
            (fun t => t.2.err.isNone)).length ∧
    (cs.foldl (syncStep w a m) acc).commands
      = acc.commands
        ++ (materializations w a (cs.filter (unmatched m)) acc.fs).flatMap
            (fun t => t.2.commands) ∧
    (cs.foldl (syncStep w a m) acc).fs
      = (materializations w a (cs.filter (unmatched m)) acc.fs).foldl
          (fun _ t => t.2.fs) acc.fs := by
  induction cs generalizing acc with
  | nil => simp [materializations]
  | cons c rest ih =>
    rw [List.foldl_cons]
    cases hu : unmatched m c with
    | false =>
      rw [syncStep_matched w a m acc c hu]
      obtain ⟨i1, i2, i3, i4⟩ := ih { acc with skipCount := acc.skipCount + 1 }
      simp only [List.filter_cons, hu, Bool.false_eq_true, if_false]
      exact ⟨i1, i2, i3, i4⟩
    | true =>
      simp only [List.filter_cons, hu, if_true, materializations, List.filterMap_cons,
        List.filter_cons, List.flatMap_cons, List.foldl_cons]
      cases he : (UpdateKubeconfig w.host a c w.kubeconfigPath false acc.fs).err with
      | some e =>
        rw [syncStep_failed w a m acc c hu e he]
        obtain ⟨i1, i2, i3, i4⟩ := ih
          { acc with
            fs := (UpdateKubeconfig w.host a c w.kubeconfigPath false acc.fs).fs,
            stderr := acc.stderr ++ [syncWarning (c, e)],
            updates := acc.updates ++ [c],
            commands := acc.commands
              ++ (UpdateKubeconfig w.host a c w.kubeconfigPath false acc.fs).commands }
        simp only at i1 i2 i3 i4
        rw [warningOfResult_failed c _ e he]
        simp only [he, Option.isSome_some, Option.isNone_some, Bool.false_eq_true, if_false]
        refine ⟨?_, i2, ?_, i4⟩
        · rw [i1]; simp
        · rw [i3]; simp
      | none =>
        rw [syncStep_synced w a m acc c hu he]
        obtain ⟨i1, i2, i3, i4⟩ := ih
          { acc with
            fs := (UpdateKubeconfig w.host a c w.kubeconfigPath false acc.fs).fs,
            syncCount := acc.syncCount + 1,
            updates := acc.updates ++ [c],
            commands := acc.commands
              ++ (UpdateKubeconfig w.host a c w.kubeconfigPath false acc.fs).commands }
        simp only at i1 i2 i3 i4
        rw [warningOfResult_synced c _ he]
        simp only [he, Option.isNone_none, if_true, List.length_cons]
        refine ⟨i1, ?_, ?_, i4⟩
        · rw [i2]; omega
        · rw [i3]; simp

/-- C13 as stated fails on both counts. The collaborator of `truncatingWorld` reports
success for the one remote cluster and leaves a text that is not a kubeconfig: the
reload after the loop fails, and `runSync` returns that error after the summary,
displaying no cluster. On `noDirWorld` the kubeconfig directory cannot be made:
`UpdateKubeconfig` is called for the one remote cluster, which no context matches,
and fails before the collaborator is started, so no command is run at all. -/
theorem runSync_reload_error :
    ((runSync (truncatingWorld [alphaKR]) "" []).updates = [alphaKR] ∧
     (runSync (truncatingWorld [alphaKR]) "" []).stderr = [] ∧
     (runSync (truncatingWorld [alphaKR]) "" []).err
       = some "failed to read kubeconfig: failed to load kubeconfig: yaml: unmarshal errors" ∧
     (runSync (truncatingWorld [alphaKR]) "" []).stdout
       = ["Synced 1 cluster(s), skipped 0 already configured. (1 total)\n\n"]) ∧
    ((runSync (noDirWorld [alphaKR]) "" []).updates = [alphaKR] ∧
     (runSync (noDirWorld [alphaKR]) "" []).commands = [] ∧
     (runSync (noDirWorld [alphaKR]) "" []).stderr
       = ["  Warning: failed to sync alpha: failed to create kubeconfig directory: " ++
          "mkdir /home/u/.kube: permission denied\n"] ∧
     (runSync (noDirWorld [alphaKR]) "" []).err = none ∧
     (runSync (noDirWorld [alphaKR]) "" []).stdout = ["  alpha\n"]) := by
  decide

/-- C13, amended. Once the store is loaded, `UpdateKubeconfig` is called, in the order
of the list and each time on the file system the call before left, for exactly the
remote clusters for which `FindContextByCluster` finds no context in the store, hence
for every cluster no record matches. Each call either runs the collaborator once, with
the arguments of that cluster, or fails to make the kubeconfig directory and runs
nothing; the commands of the run are those of the calls, in order. The diagnostic
stream holds exactly one warning per call that returned an error, naming the cluster
and carrying that error, in the order of the calls, and nothing for a call that
returned none. The run returns an error only if some call returned no error and the
reload of the store then failed, and that error is the wrapped reload error;
otherwise it returns success after the summary, which counts the calls without error
as synced, and one line per remote cluster. -/
theorem syncClusters_tolerates_failures {FS : Type} (w : World FS) (a : Authenticator)
    (clusters : List Cluster) (fs : FS) (m0 : Manager)
    (h0 : NewManager w.lib w.kubeconfigPath fs = .ok m0) :
    (syncClusters w a clusters fs).updates
      = clusters.filter (fun c => decide (FindContextByCluster m0 c.Name = "")) ∧
    (∀ c ∈ clusters,
      (∀ p ∈ m0.config.Contexts, ¬ (p.2.Cluster = c.Name ∨ c.Name.data <:+: p.1.data)) →
        c ∈ (syncClusters w a clusters fs).updates) ∧
    (materializations w a (syncClusters w a clusters fs).updates fs).map Prod.fst
      = (syncClusters w a clusters fs).updates ∧
    (∀ t ∈ materializations w a (syncClusters w a clusters fs).updates fs,
      (∃ fs', t.2 = UpdateKubeconfig w.host a t.1 w.kubeconfigPath false fs') ∧
      (t.2.commands = [commandFor w a t.1] ∨
        (t.2.commands = [] ∧
          ∃ e, t.2.err
            = some (fmt.Sprintf "failed to create kubeconfig directory: %w" [e])))) ∧
    (syncClusters w a clusters fs).commands
      = (materializations w a (syncClusters w a clusters fs).updates fs).flatMap
          (fun t => t.2.commands) ∧
    (syncClusters w a clusters fs).stderr
      = (materializations w a (syncClusters w a clusters fs).updates fs).filterMap
          warningOfResult ∧
    (syncClusters w a clusters fs).fs
      = (materializations w a (syncClusters w a clusters fs).updates fs).foldl
          (fun _ t => t.2.fs) fs ∧
    ((syncClusters w a clusters fs).err ≠ none →
      (∃ t ∈ materializations w a (syncClusters w a clusters fs).updates fs,
        t.2.err = none) ∧
      ∃ e, NewManager w.lib w.kubeconfigPath (syncClusters w a clusters fs).fs = .error e ∧
        (syncClusters w a clusters fs).err
          = some (fmt.Sprintf "failed to read kubeconfig: %w" [e])) ∧
    (((∀ t ∈ materializations w a (syncClusters w a clusters fs).updates fs,
          t.2.err ≠ none) ∨
        ∃ m', NewManager w.lib w.kubeconfigPath (syncClusters w a clusters fs).fs = .ok m') →
      (syncClusters w a clusters fs).err = none ∧
      ∃ m', (syncClusters w a clusters fs).stdout
        = summaryLines
            ((materializations w a (syncClusters w a clusters fs).updates fs).filter
              (fun t => t.2.err.isNone)).length
            (clusters.length - (syncClusters w a clusters fs).updates.length)
            clusters.length
          ++ clusters.map (displayLine m')) := by
  obtain ⟨hu, hse, hco, hfs⟩ := syncClusters_loop w a clusters fs m0 h0
  obtain ⟨h1, h2, -, -⟩ := foldl_syncStep w a m0 clusters ⟨fs, 0, 0, [], [], []⟩
  obtain ⟨c1, c2, c3, c4⟩ := foldl_syncStep_calls w a m0 clusters ⟨fs, 0, 0, [], [], []⟩
  obtain ⟨e0, e1, e2⟩ := syncClusters_end w a clusters fs m0 h0
  simp only [List.nil_append, Nat.zero_add] at h1 h2 c1 c2 c3 c4
  have hupd : (syncClusters w a clusters fs).updates = clusters.filter (unmatched m0) := by
    rw [hu, h1]
  have hskip : (clusters.foldl (syncStep w a m0) ⟨fs, 0, 0, [], [], []⟩).skipCount
      = clusters.length - (syncClusters w a clusters fs).updates.length := by
    rw [hupd]; omega
  rw [← hupd] at c1 c2 c3 c4
  refine ⟨hupd, ?_, materializations_clusters w a _ fs, ?_, ?_, ?_, ?_, ?_, ?_⟩
  · intro c hc hno
    rw [hupd, List.mem_filter]
    refine ⟨hc, ?_⟩
    simp only [unmatched, decide_eq_true_eq]
    exact rangeByCluster_none c.Name _ hno
  · intro t ht
    obtain ⟨-, fs', hfs'⟩ := materializations_mem w a _ fs t ht
    refine ⟨⟨fs', hfs'⟩, ?_⟩
    rw [hfs']
    exact UpdateKubeconfig_started_or_failed w a t.1 fs'
  · rw [hco, c3]
  · rw [hse, c1]
  · rw [hfs, c4]
  · intro herr
    by_cases hz : (clusters.foldl (syncStep w a m0) ⟨fs, 0, 0, [], [], []⟩).syncCount = 0
    · exact absurd (e0 hz).1 herr
    · have hpos : 0 < (clusters.foldl (syncStep w a m0) ⟨fs, 0, 0, [], [], []⟩).syncCount := by
        omega
      constructor
      · rw [c2] at hpos
        obtain ⟨t, ht⟩ := List.exists_mem_of_length_pos hpos
        rw [List.mem_filter] at ht
        exact ⟨t, ht.1, Option.isNone_iff_eq_none.mp ht.2⟩
      · cases hre : NewManager w.lib w.kubeconfigPath (syncClusters w a clusters fs).fs with
        | error e => exact ⟨e, rfl, (e2 e hpos hre).1⟩
        | ok m' => exact absurd (e1 m' hpos hre).1 herr
  · intro hcond
    by_cases hz : (clusters.foldl (syncStep w a m0) ⟨fs, 0, 0, [], [], []⟩).syncCount = 0
    · obtain ⟨he, hout⟩ := e0 hz
      refine ⟨he, m0, ?_⟩
      rw [hout, ← c2, hz, hskip]
    · have hpos : 0 < (clusters.foldl (syncStep w a m0) ⟨fs, 0, 0, [], [], []⟩).syncCount := by
        omega
      rcases hcond with hall | ⟨m', hre⟩
      · exfalso
        rw [c2] at hpos
        obtain ⟨t, ht⟩ := List.exists_mem_of_length_pos hpos
        rw [List.mem_filter] at ht
        exact hall t ht.1 (Option.isNone_iff_eq_none.mp ht.2)
      · obtain ⟨he, hout⟩ := e1 m' hpos hre
        refine ⟨he, m', ?_⟩
        rw [hout, ← c2, hskip]

/-- A run on `flakyWorld` from the empty store: the collaborator materializes `alpha`
and exits with status 1 for `beta`; the run warns once, about `beta`, and succeeds
after the summary and one line per cluster. -/
theorem syncClusters_tolerates_failures_witness :
    NewManager (flakyWorld [alphaKR, betaKR]).lib (flakyWorld [alphaKR, betaKR]).kubeconfigPath
        [] = .ok ⟨"/home/u/.kube/config", kubeconfig.NewConfig⟩ ∧
    (materializations (flakyWorld [alphaKR, betaKR]) ⟨"ncp-iam-authenticator", ""⟩
        [alphaKR, betaKR] []).map (fun t => (t.1.Name, t.2.err))
      = [("alpha", none),
         ("beta", some "ncp-iam-authenticator failed: exit status 1\nOutput: cluster not found")] ∧
    (syncClusters (flakyWorld [alphaKR, betaKR]) ⟨"ncp-iam-authenticator", ""⟩
        [alphaKR, betaKR] []).updates = [alphaKR, betaKR] ∧
    (syncClusters (flakyWorld [alphaKR, betaKR]) ⟨"ncp-iam-authenticator", ""⟩
        [alphaKR, betaKR] []).stderr
      = ["  Warning: failed to sync beta: ncp-iam-authenticator failed: exit status 1\n" ++
         "Output: cluster not found\n"] ∧
    (syncClusters (flakyWorld [alphaKR, betaKR]) ⟨"ncp-iam-authenticator", ""⟩
        [alphaKR, betaKR] []).err = none ∧
    (syncClusters (flakyWorld [alphaKR, betaKR]) ⟨"ncp-iam-authenticator", ""⟩
        [alphaKR, betaKR] []).stdout
      = ["Synced 1 cluster(s), skipped 0 already configured. (2 total)\n\n",
         "  alpha\n", "  beta\n"] :=
  ⟨rfl, by decide,
   (syncClusters_tolerates_failures (flakyWorld [alphaKR, betaKR])
      ⟨"ncp-iam-authenticator", ""⟩ [alphaKR, betaKR] []
      ⟨"/home/u/.kube/config", kubeconfig.NewConfig⟩ rfl).1.trans (by decide),
   (syncClusters_tolerates_failures (flakyWorld [alphaKR, betaKR])
      ⟨"ncp-iam-authenticator", ""⟩ [alphaKR, betaKR] []
      ⟨"/home/u/.kube/config", kubeconfig.NewConfig⟩ rfl).2.2.2.2.2.1.trans (by decide),
   by decide, by decide⟩

/-- C15 as stated fails: two regions report a cluster named `alpha`, the store is
empty, and one sync run invokes the collaborator twice for that name. -/
theorem runSync_same_name_twice :
    (runSync (memWorld [alphaKR, alphaJPN]) "" []).updates = [alphaKR, alphaJPN] ∧
    (runSync (memWorld [alphaKR, alphaJPN]) "" []).commands
      = [("/usr/local/bin/ncp-iam-authenticator",
          ["update-kubeconfig", "--region", "KR", "--clusterUuid", "uuid-1",
           "--clusterName", "alpha", "--kubeconfig", "/home/u/.kube/config"]),
         ("/usr/local/bin/ncp-iam-authenticator",
          ["update-kubeconfig", "--region", "JPN", "--clusterUuid", "uuid-2",
           "--clusterName", "alpha", "--kubeconfig", "/home/u/.kube/config"])] := by
  decide

/-- C15, amended: a sync run does not deduplicate.  It calls `UpdateKubeconfig` once
for each entry of the remote list whose name has no context in the store loaded before
the loop, and runs at most one command for each such call, in list order; so the
collaborator is invoked at most once per distinct cluster name when the names in the
remote list are pairwise distinct, and once per entry when regions share a name. -/
theorem syncClusters_once_per_entry {FS : Type} (w : World FS) (a : Authenticator)
    (clusters : List Cluster) (fs : FS) :
    (syncClusters w a clusters fs).updates.Sublist clusters ∧
    (syncClusters w a clusters fs).commands.Sublist
      ((syncClusters w a clusters fs).updates.map (commandFor w a)) ∧
    (∀ m0, NewManager w.lib w.kubeconfigPath fs = .ok m0 →
      (syncClusters w a clusters fs).updates
        = clusters.filter (fun c => decide (FindContextByCluster m0 c.Name = ""))) ∧
    ((clusters.map Cluster.Name).Nodup →
      ((syncClusters w a clusters fs).updates.map Cluster.Name).Nodup) := by
  have hmain : (syncClusters w a clusters fs).updates.Sublist clusters ∧
      (syncClusters w a clusters fs).commands.Sublist
        ((syncClusters w a clusters fs).updates.map (commandFor w a)) ∧
      (∀ m0, NewManager w.lib w.kubeconfigPath fs = .ok m0 →
        (syncClusters w a clusters fs).updates
          = clusters.filter (fun c => decide (FindContextByCluster m0 c.Name = ""))) := by
    cases h0 : NewManager w.lib w.kubeconfigPath fs with
    | error e =>
      obtain ⟨hu, hc, -, -⟩ := syncClusters_load_error w a clusters fs e h0
      rw [hu, hc]
      exact ⟨List.nil_sublist _, List.nil_sublist _, fun m0 hm => by cases hm⟩
    | ok m0 =>
      obtain ⟨hupd, hcmd⟩ := syncClusters_updates w a clusters fs m0 h0
      refine ⟨?_, ?_, ?_⟩
      · rw [hupd]; exact List.filter_sublist _
      · rw [hupd]; exact hcmd
      · intro m hm
        have : m0 = m := Except.ok.inj hm
        subst this
        exact hupd
  refine ⟨hmain.1, hmain.2.1, hmain.2.2, ?_⟩
  intro hnd
  exact (hmain.1.map Cluster.Name).nodup hnd

end cmd

/-! ## The sync orchestrator: idempotence -/

namespace cmd

open ncp kubeconfig

theorem contextFor_of_loaded {FS : Type} (w : World FS) (fs : FS) (m : Manager)
    (h : NewManager w.lib w.kubeconfigPath fs = .ok m) (name : String) :
    contextFor w fs name = FindContextByCluster m name := by
  simp only [contextFor, h]

theorem loaded_of_contextFor {FS : Type} (w : World FS) (fs : FS) (name : String)
    (h : contextFor w fs name ≠ "") :
    ∃ m, NewManager w.lib w.kubeconfigPath fs = .ok m := by
  cases hm : NewManager w.lib w.kubeconfigPath fs with
  | ok m => exact ⟨m, rfl⟩
  | error e => simp [contextFor, hm] at h

/-- A reconcile loop without a failure keeps every answered name answered and leaves
every cluster of the list answered. -/
theorem foldl_syncStep_materialized {FS : Type} (w : World FS) (a : Authenticator)
    (hmat : Materializes w a) (m : Manager) (cs : List Cluster) (acc : SyncAcc FS)
    (hq : (cs.foldl (syncStep w a m) acc).stderr = []) :
    (∀ name, contextFor w acc.fs name ≠ "" →
      contextFor w (cs.foldl (syncStep w a m) acc).fs name ≠ "") ∧
    (∀ c ∈ cs, unmatched m c = true →
      contextFor w (cs.foldl (syncStep w a m) acc).fs c.Name ≠ "") := by
  induction cs generalizing acc with
  | nil => exact ⟨fun _ h => h, fun c hc => by cases hc⟩
  | cons c rest ih =>
    rw [List.foldl_cons] at hq ⊢
    obtain ⟨-, -, ⟨failed, -, hf2, -⟩, -⟩ := foldl_syncStep w a m rest (syncStep w a m acc c)
    have hstep : (syncStep w a m acc c).stderr = [] := by
      rw [hf2] at hq
      exact (List.append_eq_nil.mp hq).1
    obtain ⟨ih1, ih2⟩ := ih (syncStep w a m acc c) hq
    cases hu : unmatched m c with
    | false =>
      have hfs : (syncStep w a m acc c).fs = acc.fs := by
        rw [syncStep_matched w a m acc c hu]
      refine ⟨fun name h => ih1 name (by rw [hfs]; exact h), ?_⟩
      intro x hx hxu
      rcases List.mem_cons.mp hx with rfl | hx'
      · rw [hu] at hxu; cases hxu
      · exact ih2 x hx' hxu
    | true =>
      cases he : (UpdateKubeconfig w.host a c w.kubeconfigPath false acc.fs).err with
      | some e =>
        rw [syncStep_failed w a m acc c hu e he] at hstep
        simp at hstep
      | none =>
        have hfs : (syncStep w a m acc c).fs
            = (UpdateKubeconfig w.host a c w.kubeconfigPath false acc.fs).fs := by
          rw [syncStep_synced w a m acc c hu he]
        obtain ⟨hnew, hkeep⟩ := hmat c acc.fs he
        refine ⟨fun name h => ih1 name (by rw [hfs]; exact hkeep name h), ?_⟩
        intro x hx hxu
        rcases List.mem_cons.mp hx with rfl | hx'
        · exact ih1 _ (by rw [hfs]; exact hnew)
        · exact ih2 x hx' hxu

/-- After a first run without a warning, every cluster of the remote list has a
context in the store. -/
theorem syncClusters_all_answered {FS : Type} (w : World FS) (a : Authenticator)
    (hmat : Materializes w a) (clusters : List Cluster) (fs : FS) (m0 : Manager)
    (h0 : NewManager w.lib w.kubeconfigPath fs = .ok m0)
    (hq : (syncClusters w a clusters fs).stderr = []) :
    ∀ c ∈ clusters, contextFor w (syncClusters w a clusters fs).fs c.Name ≠ "" := by
  obtain ⟨-, hse, -, hfs⟩ := syncClusters_loop w a clusters fs m0 h0
  rw [hse] at hq
  obtain ⟨k1, k2⟩ := foldl_syncStep_materialized w a hmat m0 clusters ⟨fs, 0, 0, [], [], []⟩ hq
  intro c hc
  rw [hfs]
  cases hu : unmatched m0 c with
  | true => exact k2 c hc hu
  | false =>
    apply k1
    rw [contextFor_of_loaded w fs m0 h0]
    simpa [unmatched] using hu

/-- A second run, on a store that loads and was left by a first run without warning. -/
theorem syncClusters_rerun {FS : Type} (w : World FS) (a : Authenticator)
    (hmat : Materializes w a) (clusters : List Cluster) (fs : FS) (m0 m1 : Manager)
    (h0 : NewManager w.lib w.kubeconfigPath fs = .ok m0)
    (hq : (syncClusters w a clusters fs).stderr = [])
    (h1 : NewManager w.lib w.kubeconfigPath (syncClusters w a clusters fs).fs = .ok m1) :
    (syncClusters w a clusters (syncClusters w a clusters fs).fs).updates = [] ∧
    (syncClusters w a clusters (syncClusters w a clusters fs).fs).commands = [] ∧
    (syncClusters w a clusters (syncClusters w a clusters fs).fs).err = none ∧
    (syncClusters w a clusters (syncClusters w a clusters fs).fs).stdout
      = summaryLines 0 clusters.length clusters.length ++ clusters.map (displayLine m1) := by
  have hans := syncClusters_all_answered w a hmat clusters fs m0 h0 hq
  have hfilter : clusters.filter (unmatched m1) = [] := by
    rw [List.filter_eq_nil_iff]
    intro c hc
    have := hans c hc
    rw [contextFor_of_loaded w _ m1 h1] at this
    simpa [unmatched] using this
  obtain ⟨hupd, hcmd⟩ := syncClusters_updates w a clusters (syncClusters w a clusters fs).fs m1 h1
  rw [hfilter] at hupd hcmd
  refine ⟨hupd, List.sublist_nil.mp hcmd, ?_⟩
  obtain ⟨h1', h2', ⟨failed, hf1, hf2, hf3⟩, -⟩ :=
    foldl_syncStep w a m1 clusters ⟨(syncClusters w a clusters fs).fs, 0, 0, [], [], []⟩
  rw [hfilter] at h2' hf1 hf3
  have hfailed : failed = [] := by
    have := List.sublist_nil.mp hf1
    exact List.map_eq_nil_iff.mp this
  subst hfailed
  simp only [List.length_nil, Nat.add_zero, Nat.zero_add] at h2' hf3
  obtain ⟨e0, -, -⟩ := syncClusters_end w a clusters (syncClusters w a clusters fs).fs m1 h1
  obtain ⟨he, hout⟩ := e0 hf3
  rw [h2'] at hout
  exact ⟨he, hout⟩

/-- C12: under the assumption `Materializes` on the collaborator, if none of the
materializations of a first sync run fails, a second run on the store it left, for the
same remote list, hands no cluster to `UpdateKubeconfig` and runs no command; and when
the first run completed, for a non-empty list, the second succeeds and its summary
counts every cluster as skipped. -/
theorem syncClusters_idempotent {FS : Type} (w : World FS) (a : Authenticator)
    (hmat : Materializes w a) (clusters : List Cluster) (fs : FS)
    (hq : (syncClusters w a clusters fs).stderr = []) :
    (syncClusters w a clusters (syncClusters w a clusters fs).fs).updates = [] ∧
    (syncClusters w a clusters (syncClusters w a clusters fs).fs).commands = [] ∧
    (clusters ≠ [] → (syncClusters w a clusters fs).err = none →
      ∃ m1, NewManager w.lib w.kubeconfigPath (syncClusters w a clusters fs).fs = .ok m1 ∧
        (syncClusters w a clusters (syncClusters w a clusters fs).fs).err = none ∧
        (syncClusters w a clusters (syncClusters w a clusters fs).fs).stdout
          = summaryLines 0 clusters.length clusters.length
            ++ clusters.map (displayLine m1)) := by
  cases h0 : NewManager w.lib w.kubeconfigPath fs with
  | error e0 =>
    obtain ⟨-, -, herr, hfs⟩ := syncClusters_load_error w a clusters fs e0 h0
    rw [hfs]
    obtain ⟨hu, hc, -, -⟩ := syncClusters_load_error w a clusters fs e0 h0
    exact ⟨hu, hc, fun _ hok => absurd hok herr⟩
  | ok m0 =>
    cases h1 : NewManager w.lib w.kubeconfigPath (syncClusters w a clusters fs).fs with
    | error e =>
      have hnil : clusters = [] := by
        cases clusters with
        | nil => rfl
        | cons c rest =>
          have := syncClusters_all_answered w a hmat (c :: rest) fs m0 h0 hq c
            (List.mem_cons_self _ _)
          simp [contextFor, h1] at this
      obtain ⟨hu, hc, -, -⟩ := syncClusters_load_error w a clusters _ e h1
      exact ⟨hu, hc, fun h => absurd hnil h⟩
    | ok m1 =>
      obtain ⟨hu, hc, he, hout⟩ := syncClusters_rerun w a hmat clusters fs m0 m1 h0 hq h1
      exact ⟨hu, hc, fun _ _ => ⟨m1, rfl, he, hout⟩⟩

end cmd

namespace cmd

open ncp kubeconfig

theorem rangeByCluster_eraseP (n key : String) (d : Context) (l : List (String × Context))
    (hno : (decide (((l.lookup key).getD d).Cluster = n) || strings.Contains key n) = false) :
    rangeByCluster n (l.eraseP (fun p => p.1 == key)) = rangeByCluster n l := by
  induction l with
  | nil => rfl
  | cons p rest ih =>
    obtain ⟨k, v⟩ := p
    by_cases hk : k = key
    · subst hk
      have hno' : (decide (v.Cluster = n) || strings.Contains k n) = false := by
        simpa [List.lookup] using hno
      simp only [List.eraseP_cons, beq_self_eq_true, if_true, cond_true]
      rw [rangeByCluster, hno']
      simp
    · have hb : (key == k) = false := by
        simpa using fun h : key = k => hk h.symm
      have hb' : (k == key) = false := by simpa using hk
      have hno' : (decide (((rest.lookup key).getD d).Cluster = n) || strings.Contains key n)
          = false := by
        simpa [List.lookup, hb] using hno
      simp only [List.eraseP_cons, hb', Bool.false_eq_true, if_false, cond_false]
      rw [rangeByCluster, rangeByCluster, ih hno']

theorem nks_key_ne_empty (name : String) : "nks_" ++ name ≠ "" := by
  intro h
  have := congrArg String.data h
  simp [String.data_append] at this

theorem nks_key_contains (name : String) : strings.Contains ("nks_" ++ name) name = true := by
  rw [strings.Contains_iff, String.data_append]
  exact (List.suffix_append _ _).isInfix

/-- The in-memory collaborator satisfies the assumption of idempotent sync. -/
theorem memWorld_materializes (clusters : List Cluster) (a : Authenticator) :
    Materializes (memWorld clusters) a := by
  intro c fs _
  have hargs6 : (updateKubeconfigArgs a c (memWorld clusters).kubeconfigPath false).getD 6 ""
      = c.Name := by
    unfold updateKubeconfigArgs
    by_cases hp : a.profile = "" <;> simp [hp]
  have hargs8 : (updateKubeconfigArgs a c (memWorld clusters).kubeconfigPath false).getD 8 ""
      = (memWorld clusters).kubeconfigPath := by
    unfold updateKubeconfigArgs
    by_cases hp : a.profile = "" <;> simp [hp]
  have hfs : (UpdateKubeconfig (memWorld clusters).host a c (memWorld clusters).kubeconfigPath
        false fs).fs
      = ((memWorld clusters).kubeconfigPath,
          { ((fs.lookup (memWorld clusters).kubeconfigPath).getD NewConfig) with
            Contexts :=
              ("nks_" ++ c.Name,
                (((fs.lookup (memWorld clusters).kubeconfigPath).getD NewConfig).Contexts.lookup
                  ("nks_" ++ c.Name)).getD ⟨c.Name, "nks_" ++ c.Name⟩)
              :: ((fs.lookup (memWorld clusters).kubeconfigPath).getD NewConfig).Contexts.eraseP
                  (fun p => p.1 == "nks_" ++ c.Name) }) :: fs := by
    simp only [UpdateKubeconfig, memWorld, memHost]
    simp only [memWorld] at hargs6 hargs8
    rw [hargs6, hargs8]
  have hload : ∀ cfg' : kubeconfig.Config,
      NewManager (memWorld clusters).lib (memWorld clusters).kubeconfigPath
          (((memWorld clusters).kubeconfigPath, cfg') :: fs)
        = .ok ⟨(memWorld clusters).kubeconfigPath, cfg'⟩ := by
    intro cfg'
    simp [NewManager, memWorld, memLib, List.lookup]
  have hold : ∀ name, contextFor (memWorld clusters) fs name
      = rangeByCluster name
          ((fs.lookup (memWorld clusters).kubeconfigPath).getD NewConfig).Contexts := by
    intro name
    cases hl : fs.lookup (memWorld clusters).kubeconfigPath with
    | none =>
      have : List.lookup "/home/u/.kube/config" fs = none := hl
      simp [contextFor, NewManager, memWorld, memLib, this, FindContextByCluster]
    | some cfg =>
      have : List.lookup "/home/u/.kube/config" fs = some cfg := hl
      simp [contextFor, NewManager, memWorld, memLib, this, FindContextByCluster]
  rw [hfs]
  have hnew : ∀ name, contextFor (memWorld clusters)
        (((memWorld clusters).kubeconfigPath,
          { ((fs.lookup (memWorld clusters).kubeconfigPath).getD NewConfig) with
            Contexts :=
              ("nks_" ++ c.Name,
                (((fs.lookup (memWorld clusters).kubeconfigPath).getD NewConfig).Contexts.lookup
                  ("nks_" ++ c.Name)).getD ⟨c.Name, "nks_" ++ c.Name⟩)
              :: ((fs.lookup (memWorld clusters).kubeconfigPath).getD NewConfig).Contexts.eraseP
                  (fun p => p.1 == "nks_" ++ c.Name) }) :: fs) name
      = rangeByCluster name
          (("nks_" ++ c.Name,
            (((fs.lookup (memWorld clusters).kubeconfigPath).getD NewConfig).Contexts.lookup
              ("nks_" ++ c.Name)).getD ⟨c.Name, "nks_" ++ c.Name⟩)
          :: ((fs.lookup (memWorld clusters).kubeconfigPath).getD NewConfig).Contexts.eraseP
              (fun p => p.1 == "nks_" ++ c.Name)) := by
    intro name
    rw [contextFor_of_loaded _ _ _ (hload _)]
    rfl
  refine ⟨?_, ?_⟩
  · rw [hnew, rangeByCluster, nks_key_contains]
    simp only [Bool.or_true, if_true]
    exact nks_key_ne_empty _
  · intro name hname
    rw [hold] at hname
    rw [hnew, rangeByCluster]
    cases hm : (decide (((((fs.lookup (memWorld clusters).kubeconfigPath).getD
        NewConfig).Contexts.lookup ("nks_" ++ c.Name)).getD ⟨c.Name, "nks_" ++ c.Name⟩).Cluster
          = name) || strings.Contains ("nks_" ++ c.Name) name) with
    | true =>
      simp only [if_true]
      exact nks_key_ne_empty _
    | false =>
      simp only [Bool.false_eq_true, if_false]
      rw [rangeByCluster_eraseP name _ _ _ hm]
      exact hname

/-- Two sync runs in `memWorld`, from an empty store. -/
theorem syncClusters_idempotent_witness :
    Materializes (memWorld [alphaKR, betaKR]) ⟨"ncp-iam-authenticator", ""⟩ ∧
    (syncClusters (memWorld [alphaKR, betaKR]) ⟨"ncp-iam-authenticator", ""⟩
        [alphaKR, betaKR] []).commands.length = 2 ∧
    (syncClusters (memWorld [alphaKR, betaKR]) ⟨"ncp-iam-authenticator", ""⟩ [alphaKR, betaKR]
        (syncClusters (memWorld [alphaKR, betaKR]) ⟨"ncp-iam-authenticator", ""⟩
          [alphaKR, betaKR] []).fs).commands = [] :=
  ⟨memWorld_materializes _ _, by decide,
   (syncClusters_idempotent (memWorld [alphaKR, betaKR]) ⟨"ncp-iam-authenticator", ""⟩
      (memWorld_materializes _ _) [alphaKR, betaKR] [] (by decide)).2.1⟩

end cmd

namespace cmd

open ncp kubeconfig

theorem foldl_syncStep_fs {FS : Type} (w : World FS) (a : Authenticator) (m : Manager)
    (cs : List Cluster) (acc : SyncAcc FS) (h : cs.filter (unmatched m) = []) :
    (cs.foldl (syncStep w a m) acc).fs = acc.fs := by
  induction cs generalizing acc with
  | nil => rfl
  | cons c rest ih =>
    have hu : unmatched m c = false := by
      cases hc : unmatched m c with
      | false => rfl
      | true => simp [List.filter_cons, hc] at h
    have hrest : rest.filter (unmatched m) = [] := by
      simpa [List.filter_cons, hu] using h
    rw [List.foldl_cons, syncStep_matched w a m acc c hu, ih _ hrest]

/-- C17 as stated fails: from an empty store, with one remote cluster that the
collaborator materializes without a warning, the first run reports it as synced and
the second run as skipped, so the two outputs differ in their summary line. -/
theorem runSync_output_differs :
    (runSync (memWorld [alphaKR]) "" []).stderr = [] ∧
    (runSync (memWorld [alphaKR]) "" []).stdout
      = ["Synced 1 cluster(s), skipped 0 already configured. (1 total)\n\n", "  alpha\n"] ∧
    (runSync (memWorld [alphaKR]) "" (runSync (memWorld [alphaKR]) "" []).fs).stdout
      = ["Synced 0 cluster(s), skipped 1 already configured. (1 total)\n\n", "  alpha\n"] ∧
    (runSync (memWorld [alphaKR]) "" (runSync (memWorld [alphaKR]) "" []).fs).stdout
      ≠ (runSync (memWorld [alphaKR]) "" []).stdout := by
  decide

/-- C17, amended: under the assumptions of idempotent sync, the two runs display the
same lines for the remote clusters, one per cluster; their summaries count the
clusters the first run materialized as synced in the first run and as skipped in the
second; so the complete outputs are identical when the first run materialized nothing. -/
theorem syncClusters_same_lines {FS : Type} (w : World FS) (a : Authenticator)
    (hmat : Materializes w a) (clusters : List Cluster) (fs : FS)
    (hok : (syncClusters w a clusters fs).err = none)
    (hq : (syncClusters w a clusters fs).stderr = []) :
    ∃ lines : List String, lines.length = clusters.length ∧
      (syncClusters w a clusters fs).stdout
        = summaryLines (syncClusters w a clusters fs).updates.length
            (clusters.length - (syncClusters w a clusters fs).updates.length) clusters.length
          ++ lines ∧
      (syncClusters w a clusters (syncClusters w a clusters fs).fs).stdout
        = summaryLines 0 clusters.length clusters.length ++ lines ∧
      ((syncClusters w a clusters fs).updates = [] →
        (syncClusters w a clusters (syncClusters w a clusters fs).fs).stdout
          = (syncClusters w a clusters fs).stdout) := by
  cases h0 : NewManager w.lib w.kubeconfigPath fs with
  | error e => exact absurd hok (syncClusters_load_error w a clusters fs e h0).2.2.1
  | ok m0 =>
    obtain ⟨hu, hse, -, hfs⟩ := syncClusters_loop w a clusters fs m0 h0
    obtain ⟨h1, h2, ⟨failed, hf1, hf2, hf3⟩, -⟩ :=
      foldl_syncStep w a m0 clusters ⟨fs, 0, 0, [], [], []⟩
    obtain ⟨e0, e1, e2⟩ := syncClusters_end w a clusters fs m0 h0
    simp only [List.nil_append, Nat.zero_add] at h1 h2 hf2 hf3
    have hfailed : failed = [] := by
      rw [hse, hf2] at hq
      exact List.map_eq_nil_iff.mp hq
    subst hfailed
    simp only [List.length_nil, Nat.add_zero] at hf3
    have hupd : (syncClusters w a clusters fs).updates = clusters.filter (unmatched m0) := by
      rw [hu, h1]
    have hskip : (clusters.foldl (syncStep w a m0) ⟨fs, 0, 0, [], [], []⟩).skipCount
        = clusters.length - (syncClusters w a clusters fs).updates.length := by
      rw [hupd]; omega
    have hsync : (clusters.foldl (syncStep w a m0) ⟨fs, 0, 0, [], [], []⟩).syncCount
        = (syncClusters w a clusters fs).updates.length := by
      rw [hupd]; omega
    by_cases hz : (clusters.foldl (syncStep w a m0) ⟨fs, 0, 0, [], [], []⟩).syncCount = 0
    · have hnil : clusters.filter (unmatched m0) = [] := by
        apply List.eq_nil_of_length_eq_zero
        omega
      have hsame : (syncClusters w a clusters fs).fs = fs := by
        rw [hfs]
        exact foldl_syncStep_fs w a m0 clusters _ hnil
      have hout := (e0 hz).2
      have hlen : (syncClusters w a clusters fs).updates.length = 0 := by rw [hupd, hnil]; rfl
      refine ⟨clusters.map (displayLine m0), by simp, ?_, ?_, ?_⟩
      · rw [hout, hskip, hlen]
      · rw [hsame, hout, hskip, hlen]; rfl
      · intro _; rw [hsame]
    · have hpos : 0 < (clusters.foldl (syncStep w a m0) ⟨fs, 0, 0, [], [], []⟩).syncCount := by
        omega
      have hne : clusters ≠ [] := by
        intro hc
        subst hc
        simp at hpos
      obtain ⟨m1, hm1⟩ : ∃ m1,
          NewManager w.lib w.kubeconfigPath (syncClusters w a clusters fs).fs = .ok m1 := by
        cases hre : NewManager w.lib w.kubeconfigPath (syncClusters w a clusters fs).fs with
        | ok m1 => exact ⟨m1, rfl⟩
        | error e =>
          have := (e2 e hpos hre).1
          rw [hok] at this
          cases this
      have hout2 := (syncClusters_rerun w a hmat clusters fs m0 m1 h0 hq hm1).2.2.2
      have hout1 := (e1 m1 hpos hm1).2
      refine ⟨clusters.map (displayLine m1), by simp, ?_, hout2, ?_⟩
      · rw [hout1, hsync, hskip]
      · intro hnone
        rw [hnone] at hsync
        simp at hsync
        omega

/-- Two sync runs in `memWorld`, from an empty store: the cluster lines agree. -/
theorem syncClusters_same_lines_witness :
    Materializes (memWorld [alphaKR, betaKR]) ⟨"ncp-iam-authenticator", ""⟩ ∧
    (syncClusters (memWorld [alphaKR, betaKR]) ⟨"ncp-iam-authenticator", ""⟩
        [alphaKR, betaKR] []).stderr = [] ∧
    ∃ lines : List String, lines.length = 2 ∧
      (syncClusters (memWorld [alphaKR, betaKR]) ⟨"ncp-iam-authenticator", ""⟩ [alphaKR, betaKR]
          (syncClusters (memWorld [alphaKR, betaKR]) ⟨"ncp-iam-authenticator", ""⟩
            [alphaKR, betaKR] []).fs).stdout
        = summaryLines 0 2 2 ++ lines :=
  ⟨memWorld_materializes _ _, by decide,
   (syncClusters_same_lines (memWorld [alphaKR, betaKR]) ⟨"ncp-iam-authenticator", ""⟩
      (memWorld_materializes _ _) [alphaKR, betaKR] [] (by decide) (by decide)).imp
     (fun _ h => ⟨h.1, h.2.2.1⟩)⟩

end cmd

/-! ## Switching: a failed write, and the names offered for completion -/

namespace kubeconfig

/-- Whatever the library, a refused write leaves the receiver with the target as its
active context. -/
theorem SwitchContext_write_error {FS : Type} (lib : Clientcmd FS) (m : Manager)
    (name : String) (fs : FS) (hk : name ∈ ListContextNames m) :
    (SwitchContext lib m name fs).err
      = (lib.WriteToFile { m.config with CurrentContext := name } m.path fs).2 ∧
    GetCurrentContext (SwitchContext lib m name fs).manager = name := by
  obtain ⟨v, hv⟩ := lookup_isSome_of_mem name m.config.Contexts hk
  simp only [SwitchContext, hv]
  exact ⟨trivial, rfl⟩

/-- C14 fails on the code: on a read-only file system `SwitchContext` returns the
error of the write, and the store it was called on, which had `ctx-a` active, now holds
`ctx-b` as its active context. -/
theorem SwitchContext_failed_write_changes_active :
    (SwitchContext readOnlyLib twoContextStore "ctx-b" []).err
      = some "open /k: permission denied" ∧
    GetCurrentContext twoContextStore = "ctx-a" ∧
    GetCurrentContext (SwitchContext readOnlyLib twoContextStore "ctx-b" []).manager = "ctx-b" ∧
    (SwitchContext readOnlyLib twoContextStore "ctx-b" []).fs = [] := by
  decide

end kubeconfig

namespace cmd

open ncp kubeconfig

/-- C19 fails on the code: for the store of the repository's test, the completion
offers the cluster name `my-nks-cluster`; `FindContext` does not resolve it, although
`FindContextByCluster` does, and switching by the offered name ends in not-found. -/
theorem offered_name_not_found :
    ListClusterNames myCtxStore = ["my-nks-cluster"] ∧
    ValidArgsFunction (memWorld []) [] "" myCtxFS = ["my-nks-cluster"] ∧
    FindContext myCtxStore "my-nks-cluster" = .error "context not found: my-nks-cluster" ∧
    FindContextByCluster myCtxStore "my-nks-cluster" = "my-ctx" ∧
    (runSwitch (memWorld []) "my-nks-cluster" myCtxFS).err
      = some ("context not found for 'my-nks-cluster'.\n" ++
          "Run 'kubectl nks-ctx' first to sync clusters.") ∧
    (runSwitch (memWorld []) "my-nks-cluster" myCtxFS).fs = myCtxFS :=
  ⟨by decide, by decide, rfl, by decide, by decide, by decide⟩

end cmd

/-! ## The signer: what a change of one input changes -/

namespace hmac

theorem Sum_congr_blockKey (key key' msg : List Nat) (h : blockKey key = blockKey key') :
    Sum key msg = Sum key' msg := by
  simp only [Sum, h]

end hmac

namespace sha256

theorem Sum256_byte_lt (msg : List Nat) : ∀ b ∈ Sum256 msg, b < 256 := by
  intro b hb
  simp only [Sum256, State.bytes, be32, List.mem_append, List.mem_cons, List.not_mem_nil,
    or_false, List.cons_append, List.nil_append] at hb
  have h256 : ∀ x : Nat, x % 256 < 256 := fun x => Nat.mod_lt x (by decide)
  rcases hb with h | h | h | h | h | h | h | h | h | h | h | h | h | h | h | h | h | h | h | h |
    h | h | h | h | h | h | h | h | h | h | h | h <;> (rw [h]; exact h256 _)

end sha256

namespace ncp

theorem GenerateHMACSignature_eq (method uri query timestamp accessKey secretKey : String) :
    GenerateHMACSignature method uri query timestamp accessKey secretKey
      = base64.EncodeToString (hmac.Sum (bytesOf secretKey)
          (bytesOf (signedMessage method uri query timestamp accessKey))) := rfl

theorem signedMessage_data (method uri query timestamp accessKey : String) :
    (signedMessage method uri query timestamp accessKey).data
      = method.data ++ ' ' :: ((if query ≠ "" then uri ++ "?" ++ query else uri).data
          ++ '\n' :: (timestamp.data ++ '\n' :: accessKey.data)) := by
  simp [signedMessage, fmt.Sprintf, fmt.sprintfAux]

theorem url_inj_uri (uri uri' query : String)
    (h : (if query ≠ "" then uri ++ "?" ++ query else uri).data
      = (if query ≠ "" then uri' ++ "?" ++ query else uri').data) : uri = uri' := by
  by_cases hq : query = ""
  · simp only [hq, ne_eq, not_true_eq_false, if_false] at h
    exact String.ext h
  · simp only [hq, ne_eq, not_false_eq_true, if_true, String.data_append] at h
    rw [List.append_assoc, List.append_assoc, List.append_left_inj] at h
    exact String.ext h

theorem url_inj_query (uri query query' : String)
    (h : (if query ≠ "" then uri ++ "?" ++ query else uri).data
      = (if query' ≠ "" then uri ++ "?" ++ query' else uri).data) : query = query' := by
  have hqm : "?".data = ['?'] := rfl
  by_cases hq : query = "" <;> by_cases hq' : query' = ""
  · rw [hq, hq']
  · simp only [hq, hq', ne_eq, not_true_eq_false, not_false_eq_true, if_false, if_true,
      String.data_append, hqm, List.append_assoc] at h
    have := congrArg List.length h
    simp at this
  · simp only [hq, hq', ne_eq, not_true_eq_false, not_false_eq_true, if_false, if_true,
      String.data_append, hqm, List.append_assoc] at h
    have := congrArg List.length h
    simp at this
  · simp only [hq, hq', ne_eq, not_false_eq_true, if_true, String.data_append, hqm,
      List.append_assoc, List.append_right_inj, List.cons_append, List.nil_append,
      List.cons.injEq, true_and] at h
    exact String.ext h

/-- C16 as stated fails: the secret keys `test-secret` and `test-secret` followed by a
NUL character differ, and with the other five inputs fixed they give the same
signature, since HMAC fills a short key with zero bytes up to its block size. -/
theorem GenerateHMACSignature_key_collision :
    "test-secret" ≠ "test-secret\x00" ∧
    GenerateHMACSignature "GET" "/v1/cluster" "regionCode=KR" "1234567890" "test-key"
        "test-secret"
      = GenerateHMACSignature "GET" "/v1/cluster" "regionCode=KR" "1234567890" "test-key"
        "test-secret\x00" := by
  refine ⟨by decide, ?_⟩
  rw [GenerateHMACSignature_eq, GenerateHMACSignature_eq]
  rw [hmac.Sum_congr_blockKey (bytesOf "test-secret") (bytesOf "test-secret\x00") _ (by decide)]

/-- For any fixed uri, query, timestamp and keys there are two different methods with
the same signature: the signature takes finitely many values. -/
theorem GenerateHMACSignature_not_injective (uri query timestamp accessKey secretKey : String) :
    ∃ method method', method ≠ method' ∧
      GenerateHMACSignature method uri query timestamp accessKey secretKey
        = GenerateHMACSignature method' uri query timestamp accessKey secretKey := by
  have hfin : Finite {l : List (Fin 256) // l.length = 32} :=
    (List.finite_length_eq (Fin 256) 32).to_subtype
  let f : String → {l : List (Fin 256) // l.length = 32} := fun method =>
    ⟨(hmac.Sum (bytesOf secretKey)
        (bytesOf (signedMessage method uri query timestamp accessKey))).attach.map
        (fun b => ⟨b.1, sha256.Sum256_byte_lt _ b.1 b.2⟩),
      by rw [List.length_map, List.length_attach]; exact hmac.length_Sum _ _⟩
  obtain ⟨x, y, hne, heq⟩ := Finite.exists_ne_map_eq_of_infinite f
  refine ⟨x, y, hne, ?_⟩
  have hval : ∀ method, hmac.Sum (bytesOf secretKey)
        (bytesOf (signedMessage method uri query timestamp accessKey))
      = (f method).1.map Fin.val := by
    intro method
    simp only [f, List.map_map]
    conv_lhs => rw [← List.attach_map_subtype_val (hmac.Sum (bytesOf secretKey)
      (bytesOf (signedMessage method uri query timestamp accessKey)))]
    rfl
  rw [GenerateHMACSignature_eq, GenerateHMACSignature_eq, hval x, hval y, heq]

set_option maxRecDepth 1000000 in
/-- The signature of the repository's test "basic signature". -/
theorem GenerateHMACSignature_test_vector_basic :
    GenerateHMACSignature "GET" "/v1/cluster" "" "1234567890" "test-key" "test-secret"
      = "7RQ9Oqw1kftvSsQgVdjBbbeWTeX37Humxcty1C8kTL4=" := by
  decide

/-- C16, amended: changing exactly one of method, uri, query, timestamp or accessKey
changes the message that is signed; the signature depends on the secret key only
through its HMAC key block, so secret keys with the same block give the same signature;
and on the repository's two test inputs, which differ in the query, the signatures
differ. -/
theorem GenerateHMACSignature_sensitivity :
    (∀ m m' u q t ak, m ≠ m' → signedMessage m u q t ak ≠ signedMessage m' u q t ak) ∧
    (∀ m u u' q t ak, u ≠ u' → signedMessage m u q t ak ≠ signedMessage m u' q t ak) ∧
    (∀ m u q q' t ak, q ≠ q' → signedMessage m u q t ak ≠ signedMessage m u q' t ak) ∧
    (∀ m u q t t' ak, t ≠ t' → signedMessage m u q t ak ≠ signedMessage m u q t' ak) ∧
    (∀ m u q t ak ak', ak ≠ ak' → signedMessage m u q t ak ≠ signedMessage m u q t ak') ∧
    (∀ m u q t ak sk sk', hmac.blockKey (bytesOf sk) = hmac.blockKey (bytesOf sk') →
      GenerateHMACSignature m u q t ak sk = GenerateHMACSignature m u q t ak sk') ∧
    GenerateHMACSignature "GET" "/v1/cluster" "" "1234567890" "test-key" "test-secret"
      ≠ GenerateHMACSignature "GET" "/v1/cluster" "regionCode=KR" "1234567890" "test-key"
          "test-secret" := by
  refine ⟨?_, ?_, ?_, ?_, ?_, ?_, ?_⟩
  · intro m m' u q t ak hne heq
    have h := congrArg String.data heq
    rw [signedMessage_data, signedMessage_data, List.append_left_inj] at h
    exact hne (String.ext h)
  · intro m u u' q t ak hne heq
    have h := congrArg String.data heq
    rw [signedMessage_data, signedMessage_data, List.append_right_inj] at h
    have h2 := (List.cons.inj h).2
    rw [List.append_left_inj] at h2
    exact hne (url_inj_uri u u' q h2)
  · intro m u q q' t ak hne heq
    have h := congrArg String.data heq
    rw [signedMessage_data, signedMessage_data, List.append_right_inj] at h
    have h2 := (List.cons.inj h).2
    rw [List.append_left_inj] at h2
    exact hne (url_inj_query u q q' h2)
  · intro m u q t t' ak hne heq
    have h := congrArg String.data heq
    rw [signedMessage_data, signedMessage_data, List.append_right_inj] at h
    have h2 := (List.cons.inj h).2
    rw [List.append_right_inj] at h2
    have h3 := (List.cons.inj h2).2
    rw [List.append_left_inj] at h3
    exact hne (String.ext h3)
  · intro m u q t ak ak' hne heq
    have h := congrArg String.data heq
    rw [signedMessage_data, signedMessage_data, List.append_right_inj] at h
    have h2 := (List.cons.inj h).2
    rw [List.append_right_inj] at h2
    have h3 := (List.cons.inj h2).2
    rw [List.append_right_inj] at h3
    have h4 := (List.cons.inj h3).2
    exact hne (String.ext h4)
  · intro m u q t ak sk sk' hk
    rw [GenerateHMACSignature_eq, GenerateHMACSignature_eq,
      hmac.Sum_congr_blockKey _ _ _ hk]
  · rw [GenerateHMACSignature_test_vector_basic, GenerateHMACSignature_test_vector]
    decide

end ncp

/-! ## The credentials file -/

namespace ncp

theorem iniStep_eq (st : IniState) (text : String) :
    iniStep st text = iniApply st (iniLine text) := by
  unfold iniStep iniLine
  simp only []
  split_ifs <;> rfl

/-- The maps after the scanning loop, in terms of the reading of the lines. -/
theorem foldl_iniApply (lines : List IniLine) (st : IniState)
    (hcur : (st.sections.lookup st.currentSection).isSome = true) :
    (∀ sec, ((lines.foldl iniApply st).sections.lookup sec).isSome
      = ((st.sections.lookup sec).isSome || decide (sec ∈ iniHeaders lines))) ∧
    (∀ sec key, ((lines.foldl iniApply st).sections.lookup sec).bind (fun d => d.lookup key)
      = match iniValue (iniAssignments lines st.currentSection) sec key with
        | some v => some v
        | none => (st.sections.lookup sec).bind (fun d => d.lookup key)) := by
  induction lines generalizing st with
  | nil => simp [iniHeaders, iniAssignments, iniValue]
  | cons l rest ih =>
    rw [List.foldl_cons]
    cases l with
    | skip =>
      obtain ⟨i1, i2⟩ := ih (iniApply st .skip) hcur
      exact ⟨fun sec => by rw [i1]; rfl, fun sec key => by rw [i2]; rfl⟩
    | header name =>
      cases hl : st.sections.lookup name with
      | none =>
        have hst : iniApply st (.header name)
            = { sections := (name, []) :: st.sections, currentSection := name } := by
          simp only [iniApply, hl]
        rw [hst]
        obtain ⟨i1, i2⟩ := ih { sections := (name, []) :: st.sections, currentSection := name }
          (by simp [List.lookup])
        refine ⟨fun sec => ?_, fun sec key => ?_⟩
        · rw [i1]
          by_cases hs : sec = name
          · subst hs; simp [List.lookup, iniHeaders]
          · have hb : (sec == name) = false := by simpa using hs
            simp [List.lookup, iniHeaders, hb, hs]
        · rw [i2]
          simp only [iniAssignments]
          by_cases hs : sec = name
          · subst hs; simp [List.lookup, hl]
          · have hb : (sec == name) = false := by simpa using hs
            simp [List.lookup, hb]
      | some d =>
        have hst : iniApply st (.header name) = { st with currentSection := name } := by
          simp only [iniApply, hl]
        rw [hst]
        obtain ⟨i1, i2⟩ := ih { st with currentSection := name } (by simp [hl])
        refine ⟨fun sec => ?_, fun sec key => ?_⟩
        · rw [i1]
          by_cases hs : sec = name
          · subst hs; simp [iniHeaders, hl]
          · simp [iniHeaders, hs]
        · rw [i2]
          simp only [iniAssignments]
    | assign k v =>
      obtain ⟨d, hd⟩ := Option.isSome_iff_exists.mp hcur
      have hst : iniApply st (.assign k v)
          = { st with sections := (st.currentSection, (k, v) :: d) :: st.sections } := by
        simp only [iniApply, hd, Option.getD_some]
      rw [hst]
      obtain ⟨i1, i2⟩ :=
        ih { st with sections := (st.currentSection, (k, v) :: d) :: st.sections }
          (by simp [List.lookup])
      refine ⟨fun sec => ?_, fun sec key => ?_⟩
      · rw [i1]
        by_cases hs : sec = st.currentSection
        · subst hs; simp [List.lookup, iniHeaders, hd]
        · have hb : (sec == st.currentSection) = false := by simpa using hs
          simp [List.lookup, iniHeaders, hb]
      · rw [i2]
        simp only [iniAssignments, iniValue]
        cases hv : iniValue (iniAssignments rest st.currentSection) sec key with
        | some x => rfl
        | none =>
          simp only
          by_cases hs : sec = st.currentSection
          · subst hs
            by_cases hk : key = k
            · subst hk; simp [List.lookup]
            · have hb : (key == k) = false := by simpa using hk
              have hk' : ¬ k = key := fun h => hk h.symm
              simp [List.lookup, hb, hk', hd]
          · have hb : (sec == st.currentSection) = false := by simpa using hs
            have hs' : ¬ st.currentSection = sec := fun h => hs h.symm
            simp [List.lookup, hb, hs']

end ncp

namespace bufio

theorem rawLinesFrom_append_newline (pre cur rest : List Char) (h : '\n' ∉ pre) :
    rawLinesFrom (pre ++ '\n' :: rest) cur = (cur.reverse ++ pre) :: rawLinesFrom rest [] := by
  induction pre generalizing cur with
  | nil => simp [rawLinesFrom]
  | cons c cs ih =>
    simp only [List.mem_cons, not_or] at h
    have hc : ¬ c = '\n' := fun e => h.1 e.symm
    rw [List.cons_append, rawLinesFrom, if_neg hc, ih (c :: cur) h.2]
    simp

theorem scanLines_eq_of_short (content : String)
    (hshort : ∀ l ∈ rawLines content, (bytesOf ⟨l⟩).length < MaxScanTokenSize) :
    scanLines content = (rawLines content).map (fun l => ⟨dropCR l⟩) := by
  unfold scanLines
  congr 1
  rw [List.takeWhile_eq_self_iff]
  intro l hl
  simpa using hshort l hl

end bufio

namespace strings

theorem TrimSpace_of_no_space (l : List Char) (h : ∀ c ∈ l, unicode.IsSpace c = false) :
    TrimSpace ⟨l⟩ = ⟨l⟩ := by
  have h1 : l.dropWhile unicode.IsSpace = l := by
    cases l with
    | nil => rfl
    | cons c cs => simp [List.dropWhile, h c (List.mem_cons_self _ _)]
  have h2 : l.reverse.dropWhile unicode.IsSpace = l.reverse := by
    cases hr : l.reverse with
    | nil => rfl
    | cons c cs =>
      have hc : c ∈ l := by
        rw [← List.mem_reverse, hr]; exact List.mem_cons_self _ _
      simp [List.dropWhile, h c hc]
  simp only [TrimSpace, h1, h2, List.reverse_reverse]

end strings

namespace ncp

/-- The text of `longLineContent`, for a comment line of any length. -/
theorem longLine_rawLines (n : Nat) :
    bufio.rawLines ⟨List.replicate n '#'
        ++ '\n' :: "ncloud_access_key_id=k\nncloud_secret_access_key=s\n".data⟩
      = [List.replicate n '#', "ncloud_access_key_id=k".data,
          "ncloud_secret_access_key=s".data] := by
  have hno : '\n' ∉ List.replicate n '#' := by
    intro hmem
    exact absurd (List.eq_of_mem_replicate hmem) (by decide)
  unfold bufio.rawLines
  rw [bufio.rawLinesFrom_append_newline _ _ _ hno]
  simp only [List.reverse_nil, List.nil_append, List.cons.injEq, true_and]
  decide

theorem longLine_bytes (n : Nat) : (bytesOf ⟨List.replicate n '#'⟩).length = n := by
  rw [length_bytesOf_ascii, List.length_replicate]
  intro c hc
  rw [List.eq_of_mem_replicate hc]
  decide

theorem longLine_scanLines (n : Nat) (hn : bufio.MaxScanTokenSize ≤ n) :
    bufio.scanLines ⟨List.replicate n '#'
        ++ '\n' :: "ncloud_access_key_id=k\nncloud_secret_access_key=s\n".data⟩ = [] := by
  unfold bufio.scanLines
  rw [longLine_rawLines]
  have hlt : ¬ (bytesOf ⟨List.replicate n '#'⟩).length < bufio.MaxScanTokenSize := by
    rw [longLine_bytes]; omega
  simp [List.takeWhile, hlt]

theorem longLine_loadFromFile (n : Nat) (hn : bufio.MaxScanTokenSize ≤ n) (path : String) :
    loadFromFile (fun _ => .ok ⟨List.replicate n '#'
        ++ '\n' :: "ncloud_access_key_id=k\nncloud_secret_access_key=s\n".data⟩) path ""
      = .error "incomplete credentials in profile 'DEFAULT'" := by
  unfold loadFromFile
  simp only [longLine_scanLines n hn]
  rfl

theorem longLine_iniLine (n : Nat) (hn : 0 < n) :
    iniLine ⟨bufio.dropCR (List.replicate n '#')⟩ = .skip := by
  obtain ⟨k, rfl⟩ : ∃ k, n = k + 1 := ⟨n - 1, by omega⟩
  have hlast : (List.replicate (k + 1) '#').getLast? = some '#' := by
    rw [List.getLast?_eq_getLast _ (by simp), List.getLast_replicate]
  have hdrop : bufio.dropCR (List.replicate (k + 1) '#') = List.replicate (k + 1) '#' := by
    unfold bufio.dropCR
    rw [hlast]
    simp
  have htrim : strings.TrimSpace ⟨List.replicate (k + 1) '#'⟩
      = ⟨List.replicate (k + 1) '#'⟩ := by
    apply strings.TrimSpace_of_no_space
    intro c hc
    rw [List.eq_of_mem_replicate hc]
    decide
  have hpre : strings.HasPrefix ⟨List.replicate (k + 1) '#'⟩ "#" = true := by
    simp [strings.HasPrefix, List.replicate_succ, List.isPrefixOf]
  unfold iniLine
  rw [hdrop]
  simp only [htrim, hpre, true_or, or_true, if_true]

theorem longLine_fileValue (n : Nat) (hn : 0 < n) :
    fileValue ⟨List.replicate n '#'
        ++ '\n' :: "ncloud_access_key_id=k\nncloud_secret_access_key=s\n".data⟩ ""
        "ncloud_access_key_id" = "k" ∧
    fileValue ⟨List.replicate n '#'
        ++ '\n' :: "ncloud_access_key_id=k\nncloud_secret_access_key=s\n".data⟩ ""
        "ncloud_secret_access_key" = "s" := by
  have hlines : (fileLines ⟨List.replicate n '#'
        ++ '\n' :: "ncloud_access_key_id=k\nncloud_secret_access_key=s\n".data⟩).map iniLine
      = [.skip, .assign "ncloud_access_key_id" "k", .assign "ncloud_secret_access_key" "s"] := by
    unfold fileLines
    rw [longLine_rawLines]
    simp only [List.map_cons, List.map_nil, longLine_iniLine n hn, List.cons.injEq, true_and,
      and_true]
    decide
  unfold fileValue
  rw [hlines]
  decide

/-- C18 as stated fails: `longLineContent` defines both credentials in `DEFAULT`, yet
`loadFromFile` answers that the credentials are incomplete, because the scanner stops
at the comment line that does not fit its buffer and the loop ends there. -/
theorem loadFromFile_long_line :
    fileValue longLineContent "" "ncloud_access_key_id" = "k" ∧
    fileValue longLineContent "" "ncloud_secret_access_key" = "s" ∧
    loadFromFile (fun _ => .ok longLineContent) "/home/u/.ncloud/configure" ""
      = .error "incomplete credentials in profile 'DEFAULT'" :=
  ⟨(longLine_fileValue 70000 (by decide)).1, (longLine_fileValue 70000 (by decide)).2,
   longLine_loadFromFile 70000 (by decide) _⟩

end ncp

namespace ncp

/-- The maps `loadFromFile` ends with hold what the file defines, when every line fits
the scanner's buffer. -/
theorem loadFromFile_sections (content profile : String)
    (hshort : ∀ l ∈ bufio.rawLines content, (bytesOf ⟨l⟩).length < bufio.MaxScanTokenSize) :
    ((((bufio.scanLines content).foldl iniStep ⟨[("DEFAULT", [])], "DEFAULT"⟩).sections.lookup
        (if profile = "" then "DEFAULT" else profile)) = none ↔
      ¬ fileHasSection content profile) ∧
    ∀ data, (((bufio.scanLines content).foldl iniStep ⟨[("DEFAULT", [])], "DEFAULT"⟩).sections.lookup
        (if profile = "" then "DEFAULT" else profile)) = some data →
      ∀ key, (data.lookup key).getD "" = fileValue content profile key := by
  have hfold : (bufio.scanLines content).foldl iniStep ⟨[("DEFAULT", [])], "DEFAULT"⟩
      = ((fileLines content).map iniLine).foldl iniApply ⟨[("DEFAULT", [])], "DEFAULT"⟩ := by
    have hstep : iniStep = fun st text => iniApply st (iniLine text) := by
      funext st text
      exact iniStep_eq st text
    rw [bufio.scanLines_eq_of_short content hshort, hstep]
    unfold fileLines
    simp only [List.foldl_map]
  rw [hfold]
  obtain ⟨i1, i2⟩ := foldl_iniApply ((fileLines content).map iniLine)
    ⟨[("DEFAULT", [])], "DEFAULT"⟩ (by simp [List.lookup])
  generalize hsec : (if profile = "" then "DEFAULT" else profile) = sec
  have hsome := i1 sec
  have hinit : (List.lookup sec [(("DEFAULT" : String), ([] : List (String × String)))]).isSome
      = decide (sec = "DEFAULT") := by
    by_cases hs : sec = "DEFAULT"
    · subst hs; simp [List.lookup]
    · have hb : (sec == "DEFAULT") = false := by simpa using hs
      simp [List.lookup, hb, hs]
  constructor
  · unfold fileHasSection
    rw [hsec]
    simp only at hsome
    rw [hinit] at hsome
    constructor
    · intro hnone
      rw [hnone] at hsome
      simp only [Option.isSome_none] at hsome
      intro hor
      have : (decide (sec = "DEFAULT") || decide (sec ∈ iniHeaders ((fileLines content).map iniLine)))
          = true := by
        simpa using hor
      rw [this] at hsome
      cases hsome
    · intro hno
      have : (decide (sec = "DEFAULT") || decide (sec ∈ iniHeaders ((fileLines content).map iniLine)))
          = false := by
        simpa using hno
      rw [this] at hsome
      cases hl : List.lookup sec (((fileLines content).map iniLine).foldl iniApply
          ⟨[("DEFAULT", [])], "DEFAULT"⟩).sections with
      | none => rfl
      | some d => rw [hl] at hsome; cases hsome
  · intro data hdata key
    have hv := i2 sec key
    rw [hdata] at hv
    have hv' : List.lookup key data
        = match iniValue (iniAssignments ((fileLines content).map iniLine) "DEFAULT") sec key with
          | some v => some v
          | none => (List.lookup sec [(("DEFAULT" : String), ([] : List (String × String)))]).bind
              fun d => List.lookup key d := hv
    unfold fileValue
    rw [hsec, hv']
    cases hval : iniValue (iniAssignments ((fileLines content).map iniLine) "DEFAULT") sec key with
    | some x => rfl
    | none =>
      simp only
      by_cases hs : sec = "DEFAULT"
      · subst hs; simp [List.lookup]
      · have hb : (sec == "DEFAULT") = false := by simpa using hs
        simp [List.lookup, hb]

end ncp

namespace strings

theorem dropWhile_eq_self_of_head (p : Char → Bool) (l : List Char)
    (h : ∀ x xs, l = x :: xs → p x = false) : l.dropWhile p = l := by
  cases l with
  | nil => rfl
  | cons x xs => simp [List.dropWhile, h x xs rfl]

theorem dropWhile_head (p : Char → Bool) (l : List Char) :
    ∀ x xs, l.dropWhile p = x :: xs → p x = false := by
  induction l with
  | nil => intro x xs h; simp at h
  | cons y ys ih =>
    intro x xs h
    by_cases hy : p y = true
    · rw [List.dropWhile_cons_of_pos hy] at h
      exact ih x xs h
    · rw [List.dropWhile_cons_of_neg hy] at h
      have := (List.cons.inj h).1
      rw [← this]
      simpa using hy

/-- `TrimSpace` leaves a trimmed text as it is. -/
theorem TrimSpace_idem (s : String) : TrimSpace (TrimSpace s) = TrimSpace s := by
  unfold TrimSpace
  simp only
  have hb : ((s.data.dropWhile unicode.IsSpace).reverse.dropWhile unicode.IsSpace).dropWhile
      unicode.IsSpace
      = (s.data.dropWhile unicode.IsSpace).reverse.dropWhile unicode.IsSpace :=
    dropWhile_eq_self_of_head _ _ (dropWhile_head _ _)
  have ha : (((s.data.dropWhile unicode.IsSpace).reverse.dropWhile
      unicode.IsSpace).reverse).dropWhile unicode.IsSpace
      = ((s.data.dropWhile unicode.IsSpace).reverse.dropWhile unicode.IsSpace).reverse := by
    apply dropWhile_eq_self_of_head
    intro x xs hx
    have hsuf : (s.data.dropWhile unicode.IsSpace).reverse.dropWhile unicode.IsSpace
        <:+ (s.data.dropWhile unicode.IsSpace).reverse := List.dropWhile_suffix _
    have hpre : ((s.data.dropWhile unicode.IsSpace).reverse.dropWhile unicode.IsSpace).reverse
        <+: s.data.dropWhile unicode.IsSpace := by
      have := List.reverse_prefix.mpr hsuf
      simpa using this
    rw [hx] at hpre
    obtain ⟨t, ht⟩ := hpre
    exact dropWhile_head unicode.IsSpace s.data x (xs ++ t) (by rw [← ht]; rfl)
  rw [ha, List.reverse_reverse, hb]

end strings

namespace ncp

theorem iniAssignments_trimmed (texts : List String) (sec : String) :
    ∀ t ∈ iniAssignments (texts.map iniLine) sec, strings.TrimSpace t.2.2 = t.2.2 := by
  induction texts generalizing sec with
  | nil => intro t ht; cases ht
  | cons text rest ih =>
    intro t ht
    rw [List.map_cons] at ht
    cases hl : iniLine text with
    | skip => rw [hl] at ht; exact ih sec t ht
    | header name => rw [hl] at ht; exact ih name t ht
    | assign k v =>
      rw [hl] at ht
      simp only [iniAssignments, List.mem_cons] at ht
      rcases ht with rfl | ht
      · have hv : ∃ s, v = strings.TrimSpace s := by
          unfold iniLine at hl
          simp only at hl
          split_ifs at hl
          exact ⟨_, (IniLine.assign.inj hl).2.symm⟩
        obtain ⟨s, rfl⟩ := hv
        exact strings.TrimSpace_idem s
      · exact ih sec t ht

theorem iniValue_mem (as : List (String × String × String)) (sec key v : String)
    (h : iniValue as sec key = some v) : ∃ t ∈ as, t.2.2 = v := by
  induction as with
  | nil => simp [iniValue] at h
  | cons a rest ih =>
    obtain ⟨s, k, x⟩ := a
    unfold iniValue at h
    cases hr : iniValue rest sec key with
    | some y =>
      rw [hr] at h
      obtain ⟨t, ht, htv⟩ := ih (hr.trans (by simpa using h))
      exact ⟨t, List.mem_cons_of_mem _ ht, htv⟩
    | none =>
      rw [hr] at h
      simp only at h
      split_ifs at h
      exact ⟨(s, k, x), List.mem_cons_self _ _, Option.some.inj h⟩

/-- Every value the file defines is free of surrounding white space. -/
theorem fileValue_trimmed (content profile key : String) :
    strings.TrimSpace (fileValue content profile key) = fileValue content profile key := by
  unfold fileValue
  cases hv : iniValue (iniAssignments ((fileLines content).map iniLine) "DEFAULT")
      (if profile = "" then "DEFAULT" else profile) key with
  | none => decide
  | some v =>
    obtain ⟨t, ht, rfl⟩ := iniValue_mem _ _ _ _ hv
    exact iniAssignments_trimmed _ _ t ht

end ncp

namespace ncp

theorem sprintf_profile_not_found (profile path : String) :
    fmt.Sprintf "profile '%s' not found in %s" [profile, path]
      = "profile '" ++ profile ++ "' not found in " ++ path := by
  apply String.ext
  simp [fmt.Sprintf, fmt.sprintfAux, String.data_append]

theorem sprintf_incomplete (profile : String) :
    fmt.Sprintf "incomplete credentials in profile '%s'" [profile]
      = "incomplete credentials in profile '" ++ profile ++ "'" := by
  apply String.ext
  simp [fmt.Sprintf, fmt.sprintfAux, String.data_append]

/-- C18, amended: for a readable file none of whose lines reaches the scanner's limit
of 65536 bytes, `loadFromFile` fails with "profile not found" when the file has no
section for the profile, fails with "incomplete credentials" when that section leaves
one of the two keys undefined or empty, and otherwise succeeds with the two values the
section defines, its `ncloud_api_url` or, when that is undefined or empty, the default
gateway, and its `ncloud_region`; the values are free of surrounding white space. -/
theorem loadFromFile_spec (openFile : String → Except String String)
    (path profile content : String) (hopen : openFile path = .ok content)
    (hshort : ∀ l ∈ bufio.rawLines content, (bytesOf ⟨l⟩).length < bufio.MaxScanTokenSize) :
    (¬ fileHasSection content profile →
      loadFromFile openFile path profile
        = .error ("profile '" ++ (if profile = "" then "DEFAULT" else profile)
            ++ "' not found in " ++ path)) ∧
    (fileHasSection content profile →
      (fileValue content profile "ncloud_access_key_id" = "" ∨
        fileValue content profile "ncloud_secret_access_key" = "") →
      loadFromFile openFile path profile
        = .error ("incomplete credentials in profile '"
            ++ (if profile = "" then "DEFAULT" else profile) ++ "'")) ∧
    (fileHasSection content profile →
      fileValue content profile "ncloud_access_key_id" ≠ "" →
      fileValue content profile "ncloud_secret_access_key" ≠ "" →
      loadFromFile openFile path profile
        = .ok { AccessKey := fileValue content profile "ncloud_access_key_id",
                SecretKey := fileValue content profile "ncloud_secret_access_key",
                ApiURL := if fileValue content profile "ncloud_api_url" = ""
                  then "https://ncloud.apigw.ntruss.com"
                  else fileValue content profile "ncloud_api_url",
                Region := fileValue content profile "ncloud_region" }) ∧
    (∀ key, strings.TrimSpace (fileValue content profile key)
      = fileValue content profile key) := by
  obtain ⟨hnone, hdata⟩ := loadFromFile_sections content profile hshort
  refine ⟨?_, ?_, ?_, fileValue_trimmed content profile⟩
  · intro hno
    have hl := hnone.mpr hno
    simp only [loadFromFile, hopen, hl, sprintf_profile_not_found]
  · intro hhas hempty
    cases hl : (((bufio.scanLines content).foldl iniStep
        ⟨[("DEFAULT", [])], "DEFAULT"⟩).sections.lookup
        (if profile = "" then "DEFAULT" else profile)) with
    | none => exact absurd hhas (hnone.mp hl)
    | some data =>
      have hv := hdata data hl
      simp only [loadFromFile, hopen, hl, hv, hempty, if_true, sprintf_incomplete]
  · intro hhas hak hsk
    cases hl : (((bufio.scanLines content).foldl iniStep
        ⟨[("DEFAULT", [])], "DEFAULT"⟩).sections.lookup
        (if profile = "" then "DEFAULT" else profile)) with
    | none => exact absurd hhas (hnone.mp hl)
    | some data =>
      have hv := hdata data hl
      have hno : ¬ (fileValue content profile "ncloud_access_key_id" = "" ∨
          fileValue content profile "ncloud_secret_access_key" = "") := by
        intro h; rcases h with h | h
        · exact hak h
        · exact hsk h
      simp only [loadFromFile, hopen, hl, hv, hno, if_false, defaultAPIURL]
      by_cases hu : fileValue content profile "ncloud_api_url" = ""
      · simp only [hu, if_true]
      · simp only [hu, if_false]

/-- The file of `TestLoadFromFile_NoSectionHeader`, read for the default profile. -/
theorem loadFromFile_spec_witness :
    (∀ l ∈ bufio.rawLines ("ncloud_access_key_id = my-access-key\n" ++
        "ncloud_secret_access_key = my-secret-key\n"),
      (bytesOf ⟨l⟩).length < bufio.MaxScanTokenSize) ∧
    loadFromFile (fun _ => .ok ("ncloud_access_key_id = my-access-key\n" ++
        "ncloud_secret_access_key = my-secret-key\n")) "/home/u/.ncloud/configure" ""
      = .ok ⟨"my-access-key", "my-secret-key", "https://ncloud.apigw.ntruss.com", ""⟩ :=
  ⟨by decide,
   ((loadFromFile_spec (fun _ => .ok ("ncloud_access_key_id = my-access-key\n" ++
        "ncloud_secret_access_key = my-secret-key\n")) "/home/u/.ncloud/configure" ""
      ("ncloud_access_key_id = my-access-key\n" ++ "ncloud_secret_access_key = my-secret-key\n")
      rfl (by decide)).2.2.1 (Or.inl rfl) (by decide) (by decide)).trans rfl⟩

end ncp

/-! ## The repository's tests of the credentials file, and `runSync` as a whole -/

namespace ncp

/-- The cases of `TestLoadConfig_FromFile`, `TestLoadFromFile_DefaultApiURL` and
`TestLoadFromFile_IncompleteCredentials`. -/
theorem loadFromFile_table :
    loadFromFile (fun _ => .ok twoProfileContent) "configure" ""
      = .ok ⟨"file-access-key", "file-secret-key", "https://custom.api.example.com", "KR"⟩ ∧
    loadFromFile (fun _ => .ok twoProfileContent) "configure" "finance"
      = .ok ⟨"fin-access-key", "fin-secret-key", "https://fin-ncloud.apigw.fin-ntruss.com",
          "KR"⟩ ∧
    loadFromFile (fun _ => .ok twoProfileContent) "configure" "nonexistent"
      = .error "profile 'nonexistent' not found in configure" ∧
    loadFromFile (fun _ => .ok
        "[DEFAULT]\nncloud_access_key_id=key\nncloud_secret_access_key=secret\n") "configure" ""
      = .ok ⟨"key", "secret", "https://ncloud.apigw.ntruss.com", ""⟩ ∧
    loadFromFile (fun _ => .ok "[DEFAULT]\nncloud_access_key_id=key-only\n") "configure" ""
      = .error "incomplete credentials in profile 'DEFAULT'" :=
  ⟨rfl, rfl, rfl, rfl, rfl⟩

end ncp

namespace cmd

open ncp kubeconfig

/-- Once the configuration is loaded, the authenticator is installed and `ListClusters`
returned a non-empty list, `runSync` is `syncClusters` on that list, after the
warnings of `ListClusters`. -/
theorem runSync_eq_syncClusters {FS : Type} (w : World FS) (profileFlag : String) (fs : FS)
    (cfg : ncp.Config)
    (hcfg : LoadConfig w.getenv w.openFile w.configFilePath profileFlag = .ok cfg)
    (hinst : w.installed = true)
    (herr : (ListClusters ((resolveNKSBaseURLs cfg.ApiURL).map
      (fun u => ⟨u, w.fetch u⟩))).err = none)
    (hne : (ListClusters ((resolveNKSBaseURLs cfg.ApiURL).map
      (fun u => ⟨u, w.fetch u⟩))).clusters ≠ []) :
    runSync w profileFlag fs =
      { syncClusters w ⟨w.binaryPath, profileFlag⟩
          (ListClusters ((resolveNKSBaseURLs cfg.ApiURL).map
            (fun u => ⟨u, w.fetch u⟩))).clusters fs with
        stderr := (ListClusters ((resolveNKSBaseURLs cfg.ApiURL).map
            (fun u => ⟨u, w.fetch u⟩))).stderr
          ++ (syncClusters w ⟨w.binaryPath, profileFlag⟩
            (ListClusters ((resolveNKSBaseURLs cfg.ApiURL).map
              (fun u => ⟨u, w.fetch u⟩))).clusters fs).stderr } := by
  have hlen : ¬ (ListClusters ((resolveNKSBaseURLs cfg.ApiURL).map
      (fun u => ⟨u, w.fetch u⟩))).clusters.length = 0 := by
    intro h
    exact hne (List.eq_nil_of_length_eq_zero h)
  simp only [runSync, hcfg, hinst, not_true_eq_false, if_false, herr, hlen]

end cmd
